import Mathlib

/-!
# Sniffer decoding pipeline (`main/main.c`)

A shallow embedding of the signal-decoding core of the sniffer firmware:
segment/digit decoding, the multiplex slot table, bit-to-byte packing,
cross-frame pairing and status publishing, cycle aggregation, the timing model
and the frame assembler of the consumer loop.

Conventions of the embedding.

* `uint8_t` values are natural numbers; a cast to `uint8_t` is `% 256`.
* `int` and `int64_t` values are integers (the timestamps are microseconds of
  a 64-bit monotonic clock, far from overflow).
* A C array held in the state is an index function `Nat → α` next to its
  count; a `(pointer, count)` argument whose entries were just produced is the
  list of those entries.
* `esp_timer_get_time()` is an input: every function that reads the clock
  takes the reading as an argument, one argument per read.
* `snprintf` into a buffer of `len` bytes keeps the first `len - 1` characters.
-/

namespace Sniffer

/-! ## Constants -/

def MAX_FRAME_BITS : Nat := 64
def MAX_MUX_SLOTS : Nat := 8
def MUX_DIGIT_STALE_US : Int := 500 * 1000
def CROSS_FRAME_PAIR_US : Int := 20 * 1000
def AUTO_GAP_MULTIPLIER : Int := 12
def AUTO_GAP_MIN_US : Int := 120
def TIMING_LOG_PERIOD_US : Int := 2000 * 1000
def PAUSE_SHORT_US : Int := 6000
def PAUSE_MID_US : Int := 11000
def PAUSE_LONG_US : Int := 18000
def MAX_CYCLE_BYTES : Nat := 96
def STATUS_STALE_US : Int := 15 * 1000 * 1000

/-! ## Formatting helpers -/

/-- Result of `snprintf(buf, len, ...)` when the formatted text is `s`: the
buffer keeps at most `len - 1` characters; with `len = 0` nothing is written
and the buffer keeps its `old` content. -/
def snprintf (old : String) (len : Nat) (s : String) : String :=
  if len = 0 then old else String.mk (s.data.take (len - 1))

/-- The conversion `%d`. -/
def fmt_d (d : Int) : String := toString d

/-! ## Segment table and single-byte decoding -/

def seg_map : List Nat :=
  [0x3F, 0x06, 0x5B, 0x4F, 0x66, 0x6D, 0x7D, 0x07, 0x7F, 0x6F]

structure decode_mode_t where
  active_low : Bool
  bit_reversed : Bool
deriving DecidableEq

def reverse_bits8 (v : Nat) : Nat :=
  let v1 := (((v &&& 0xF0) >>> 4) ||| ((v &&& 0x0F) <<< 4)) % 256
  let v2 := (((v1 &&& 0xCC) >>> 2) ||| ((v1 &&& 0x33) <<< 2)) % 256
  (((v2 &&& 0xAA) >>> 1) ||| ((v2 &&& 0x55) <<< 1)) % 256

/-- The builtin `__builtin_popcount` on a 32-bit unsigned value. -/
def builtin_popcount (x : Nat) : Nat :=
  ((List.range 32).filter (fun i => x.testBit i)).length

/-- Scan for the lowest set bit, `n` positions left to look at from `i`. -/
def builtin_ctz_loop (x : Nat) : Nat → Nat → Nat
  | 0, i => i
  | n + 1, i => if x.testBit i then i else builtin_ctz_loop x n (i + 1)

/-- The builtin `__builtin_ctz` on a 32-bit unsigned value (only called on a
non-zero argument). -/
def builtin_ctz (x : Nat) : Nat := builtin_ctz_loop x 32 0

/-- The function `selector_slot_from_byte`: the returned slot (or `-1`) and the
value of the out-parameter `*active_low`, whose value on entry is `al0`. -/
def selector_slot_from_byte (v : Nat) (al0 : Bool) : Int × Bool :=
  let low_mask := (v ^^^ 0xFF) % 256
  if builtin_popcount low_mask = 1 then
    ((builtin_ctz low_mask : Nat), true)
  else if builtin_popcount v = 1 then
    ((builtin_ctz v : Nat), false)
  else
    (-1, al0)

/-- The table scan of `seg_to_digit`: `n` entries left to compare from `i`. -/
def seg_to_digit_loop (norm : Nat) : Nat → Nat → Int
  | 0, _ => -1
  | n + 1, i =>
    if norm = seg_map.getD i 0 then (i : Int) else seg_to_digit_loop norm n (i + 1)

def seg_to_digit (seg : Nat) (mode : decode_mode_t) : Int :=
  let norm0 := seg &&& 0x7F
  let norm1 := if mode.bit_reversed then reverse_bits8 norm0 &&& 0x7F else norm0
  let norm2 := if mode.active_low then (norm1 ^^^ 0xFF) &&& 0x7F else norm1
  seg_to_digit_loop norm2 10 0

/-- The mode table shared by `decode_segment_byte` and `decode_digits`. -/
def modes : List decode_mode_t :=
  [ { active_low := false, bit_reversed := false },
    { active_low := true, bit_reversed := false },
    { active_low := false, bit_reversed := true },
    { active_low := true, bit_reversed := true } ]

/-- The loop of `decode_segment_byte` over the remaining modes. -/
def decode_segment_byte_loop (seg : Nat) : List decode_mode_t → Option (Int × decode_mode_t)
  | [] => none
  | m :: ms =>
    let d := seg_to_digit seg m
    if 0 ≤ d then some (d, m) else decode_segment_byte_loop seg ms

/-- The function `decode_segment_byte`: `some (digit, mode_used)` when it
returns true, `none` when it returns false. -/
def decode_segment_byte (seg : Nat) : Option (Int × decode_mode_t) :=
  decode_segment_byte_loop seg modes

/-! ## Multiplex slot table -/

/-- The arrays `s_mux_digit`, `s_mux_valid`, `s_mux_seen_us`. -/
structure MuxState where
  digit : Nat → Int
  valid : Nat → Bool
  seen_us : Nat → Int

/-- The scan of `build_mux_2digit`: `n` slots left to look at from `i`, with
`first_slot` found so far; returns `(first_slot, second_slot)`. -/
def build_mux_loop (m : MuxState) (now : Int) : Nat → Nat → Int → Int × Int
  | 0, _, first => (first, -1)
  | n + 1, i, first =>
    if !m.valid i then build_mux_loop m now n (i + 1) first
    else if now - m.seen_us i > MUX_DIGIT_STALE_US then build_mux_loop m now n (i + 1) first
    else if first < 0 then build_mux_loop m now n (i + 1) (i : Int)
    else (first, (i : Int))

/-- The function `build_mux_2digit` read at clock value `now`: `some text` when
it returns true (the text written to `decoded`), `none` when it returns false
and leaves `decoded` alone. -/
def build_mux_2digit (m : MuxState) (now : Int) (old : String) (decoded_len : Nat) :
    Option String :=
  let r := build_mux_loop m now MAX_MUX_SLOTS 0 (-1)
  if 0 ≤ r.1 ∧ 0 ≤ r.2 then
    some (snprintf old decoded_len
      (fmt_d (m.digit r.1.toNat) ++ fmt_d (m.digit r.2.toNat)))
  else none

/-! ## Digit decoding -/

/-- What `decode_digits` leaves behind: the `decoded` buffer, `*status`, and
the slot table. -/
structure DecodeOut where
  decoded : String
  status : String
  mux : MuxState

/-- The direct two-byte attempt of `decode_digits` over the remaining modes. -/
def direct_loop (b0 b1 : Nat) : List decode_mode_t → Option (Int × Int)
  | [] => none
  | m :: ms =>
    let d0 := seg_to_digit b0 m
    let d1 := seg_to_digit b1 m
    if 0 ≤ d0 ∧ 0 ≤ d1 then some (d0, d1) else direct_loop b0 b1 ms

/-- One candidate `p` of the pairing loop: selector byte `sel`, segment byte
`seg`; `some (slot, digit)` when the candidate is taken. -/
def pair_candidate (sel seg : Nat) : Option (Nat × Int) :=
  let slot := (selector_slot_from_byte sel false).1
  if slot < 0 ∨ (MAX_MUX_SLOTS : Int) ≤ slot then none
  else
    match decode_segment_byte seg with
    | none => none
    | some (digit, _) => some (slot.toNat, digit)

/-- The pairing loop of `decode_digits` over adjacent pairs: the first
candidate taken, trying `p = 0` (first byte is the segment byte) before
`p = 1` at each position. -/
def pair_loop : List Nat → Option (Nat × Int)
  | b0 :: b1 :: rest =>
    match pair_candidate b1 b0 with
    | some r => some r
    | none =>
      match pair_candidate b0 b1 with
      | some r => some r
      | none => pair_loop (b1 :: rest)
  | _ => none

/-- The store into the slot table done when a candidate is taken. -/
def mux_observe (m : MuxState) (slot : Nat) (digit : Int) (t : Int) : MuxState :=
  { digit := fun j => if j = slot then digit else m.digit j
    valid := fun j => if j = slot then true else m.valid j
    seen_us := fun j => if j = slot then t else m.seen_us j }

/-- The function `decode_digits` on the bytes `bytes` (`nbytes` is the length
of the list). `t_seen` is the clock reading stored with an observed slot and
`t_build` the later reading taken inside `build_mux_2digit`. -/
def decode_digits (bytes : List Nat) (decoded_len : Nat) (old : String) (m : MuxState)
    (t_seen t_build : Int) : DecodeOut :=
  let decoded0 := snprintf old decoded_len "unknown"
  match bytes with
  | [] => { decoded := decoded0, status := "unknown", mux := m }
  | b0 :: tl =>
    let direct : Option (Int × Int) :=
      match tl with
      | b1 :: _ => direct_loop b0 b1 modes
      | [] => none
    match direct with
    | some (d0, d1) =>
      { decoded := snprintf decoded0 decoded_len (fmt_d d0 ++ fmt_d d1)
        status := "ok(direct)", mux := m }
    | none =>
      match pair_loop bytes with
      | some (slot, digit) =>
        let m1 := mux_observe m slot digit t_seen
        match build_mux_2digit m1 t_build decoded0 decoded_len with
        | some s => { decoded := s, status := "ok(mux)", mux := m1 }
        | none =>
          { decoded := snprintf decoded0 decoded_len (fmt_d digit ++ "?")
            status := "partial(mux)", mux := m1 }
      | none =>
        match decode_segment_byte b0 with
        | some (d, _) =>
          { decoded := snprintf decoded0 decoded_len (fmt_d d ++ "?")
            status := "partial(single)", mux := m }
        | none =>
          if 2 ≤ bytes.length then
            { decoded := decoded0, status := "partial", mux := m }
          else
            { decoded := decoded0, status := "unknown", mux := m }

/-- The slot table after start-up: the static arrays are zero-initialised. -/
def mux_empty : MuxState :=
  { digit := fun _ => 0, valid := fun _ => false, seen_us := fun _ => 0 }

/-! ## Bit and byte buffers -/

/-- Replace entry `i` of an array. -/
def array_set {α : Type} (a : Nat → α) (i : Nat) (x : α) : Nat → α :=
  fun j => if j = i then x else a j

/-- The first `n` entries of an array, as a list. -/
def array_first {α : Type} (a : Nat → α) (n : Nat) : List α :=
  (List.range n).map a

/-- The function `build_raw_string`: the text left in `out`, whose content on
entry is `old`. -/
def build_raw_string (bits : Nat → Nat) (nbits : Int) (old : String) (out_len : Nat) : String :=
  let max_bits : Int := (out_len : Int) - 1
  if max_bits < 0 then old
  else
    let use_bits := if nbits < max_bits then nbits else max_bits
    String.mk ((array_first bits use_bits.toNat).map (fun b => if b ≠ 0 then '1' else '0'))

/-- The inner loop of `bits_to_bytes` for byte `b`: `n` bits left to fold
from bit `i`, accumulator `v`. -/
def pack_byte_loop (bits : Nat → Nat) (b : Nat) : Nat → Nat → Nat → Nat
  | 0, _, v => v
  | n + 1, i, v =>
    pack_byte_loop bits b n (i + 1) (((v <<< 1) ||| (bits (b * 8 + i) &&& 0x01)) % 256)

/-- The outer loop of `bits_to_bytes`: `n` bytes left to write from byte `b`. -/
def bits_to_bytes_loop (bits : Nat → Nat) : Nat → Nat → List Nat
  | 0, _ => []
  | n + 1, b => pack_byte_loop bits b 8 0 0 :: bits_to_bytes_loop bits n (b + 1)

/-- The function `bits_to_bytes`: the returned count and the bytes written to
`bytes[0 .. count)`. -/
def bits_to_bytes (bits : Nat → Nat) (nbits : Int) (max_bytes : Int) : Int × List Nat :=
  let nbytes0 := Int.tdiv nbits 8
  let nbytes := if nbytes0 > max_bytes then max_bytes else nbytes0
  (nbytes, bits_to_bytes_loop bits nbytes.toNat 0)

/-- One upper-case hexadecimal digit. -/
def hex_char (n : Nat) : Char :=
  if n < 10 then Char.ofNat (48 + n) else Char.ofNat (55 + n)

/-- The conversion `%02X` of a byte. -/
def fmt_02X (b : Nat) : String := String.mk [hex_char (b / 16 % 16), hex_char (b % 16)]

/-- The loop of `build_hex_string` from byte index `i` with `out` written so
far: a piece that does not fit is written truncated and ends the loop. -/
def build_hex_loop (out_len : Nat) : List Nat → Nat → String → String
  | [], _, out => out
  | b :: bs, i, out =>
    let piece := (if i = 0 then "" else " ") ++ fmt_02X b
    let room := out_len - out.length
    if room ≤ piece.length then String.mk (out.data ++ piece.data.take (room - 1))
    else build_hex_loop out_len bs (i + 1) (out ++ piece)

def build_hex_string (bytes : List Nat) (out_len : Nat) : String :=
  build_hex_loop out_len bytes 0 ""

/-! ## Status ranking and publishing -/

/-- The test `strncmp(s, lit, n) == 0`. -/
def strncmp_eq (s lit : String) (n : Nat) : Bool :=
  decide (s.data.take n = lit.data.take n)

def decode_status_rank (status : String) : Int :=
  if strncmp_eq status "ok(" 3 then 4
  else if strncmp_eq status "partial(mux)" 12 then 3
  else if strncmp_eq status "partial(single)" 15 then 2
  else if strncmp_eq status "partial" 7 then 1
  else 0

/-- The result of `strncpy(dst, src, n)` into a zero-initialised static buffer
of `n + 1` bytes: the first `n` characters of `src`. -/
def strncpy (src : String) (n : Nat) : String := String.mk (src.data.take n)

/-- The static variables of the decoder and of the status publisher. -/
structure Globals where
  mux : MuxState
  prev_single_valid : Bool
  prev_single_byte : Nat
  prev_single_ts_us : Int
  last_raw : String
  last_hex : String
  last_decoded : String
  last_decode_status : String
  last_frame_us : Int
  last_decode_ok : Bool

/-- The static variables at start-up. -/
def globals_init : Globals :=
  { mux := mux_empty, prev_single_valid := false, prev_single_byte := 0,
    prev_single_ts_us := 0, last_raw := "", last_hex := "", last_decoded := "",
    last_decode_status := "", last_frame_us := 0, last_decode_ok := false }

/-- The clock readings of one call of `handle_frame`, in program order: the
two of the first `decode_digits` call, `now_us`, the two of the paired
`decode_digits` call, and the reading stored in `s_last_frame_us`. -/
structure FrameClock where
  dec_seen : Int
  dec_build : Int
  now_us : Int
  pair_seen : Int
  pair_build : Int
  publish : Int

def handle_frame (g : Globals) (bits : Nat → Nat) (nbits : Int) (clk : FrameClock) : Globals :=
  if nbits < 8 ∨ Int.tmod nbits 8 ≠ 0 then g
  else
    let raw := build_raw_string bits nbits "" 96
    let bb := bits_to_bytes bits nbits 8
    let nbytes := bb.1
    let bytes := bb.2
    let hex := build_hex_string bytes 64
    let r := decode_digits bytes 16 "" g.mux clk.dec_seen clk.dec_build
    if nbytes = 1 then
      let now_us := clk.now_us
      let b0 := bytes.getD 0 0
      if g.prev_single_valid ∧ now_us - g.prev_single_ts_us ≤ CROSS_FRAME_PAIR_US then
        let pr := decode_digits [g.prev_single_byte, b0] 16 "" r.mux clk.pair_seen clk.pair_build
        let better : Bool := decide (decode_status_rank pr.status > decode_status_rank r.status)
        let decoded := if better then strncpy pr.decoded 15 else r.decoded
        let status := if better then pr.status else r.status
        let hex1 := if better then
            snprintf hex 64 (fmt_02X g.prev_single_byte ++ " " ++ fmt_02X b0)
          else hex
        { mux := pr.mux, prev_single_valid := true, prev_single_byte := b0,
          prev_single_ts_us := now_us,
          last_raw := strncpy raw 95, last_hex := strncpy hex1 63,
          last_decoded := strncpy decoded 15, last_decode_status := strncpy status 23,
          last_frame_us := clk.publish, last_decode_ok := strncmp_eq status "ok(" 3 }
      else
        { mux := r.mux, prev_single_valid := true, prev_single_byte := b0,
          prev_single_ts_us := now_us,
          last_raw := strncpy raw 95, last_hex := strncpy hex 63,
          last_decoded := strncpy r.decoded 15, last_decode_status := strncpy r.status 23,
          last_frame_us := clk.publish, last_decode_ok := strncmp_eq r.status "ok(" 3 }
    else
      { mux := r.mux, prev_single_valid := false, prev_single_byte := g.prev_single_byte,
        prev_single_ts_us := g.prev_single_ts_us,
        last_raw := strncpy raw 95, last_hex := strncpy hex 63,
        last_decoded := strncpy r.decoded 15, last_decode_status := strncpy r.status 23,
        last_frame_us := clk.publish, last_decode_ok := strncmp_eq r.status "ok(" 3 }

/-- The function `build_decoded_reply` read at clock value `now`: the text
left in `out`, whose content on entry is `old`. -/
def build_decoded_reply (g : Globals) (now : Int) (old : String) (out_len : Nat) : String :=
  let decoded := strncpy g.last_decoded 15
  let decode_status := strncpy g.last_decode_status 23
  let frame_us := g.last_frame_us
  let age_us := now - frame_us
  if frame_us > 0 ∧ age_us ≤ STATUS_STALE_US ∧ strncmp_eq decode_status "ok(" 3 = true then
    snprintf old out_len decoded
  else snprintf old out_len "unknown"

/-! ## Cycle aggregation -/

inductive gap_kind_t where
  | GAP_NONE
  | GAP_SHORT
  | GAP_MID
  | GAP_LONG
deriving DecidableEq

structure cycle_state_t where
  bytes : Nat → Nat
  nbytes : Int
  subframes : Int
  gap_short_count : Int
  gap_mid_count : Int
  gap_long_count : Int
  start_ts_us : Int
  last_ts_us : Int

def classify_gap_kind (dt_us : Int) : gap_kind_t :=
  if dt_us ≥ PAUSE_LONG_US then gap_kind_t.GAP_LONG
  else if dt_us ≥ PAUSE_MID_US then gap_kind_t.GAP_MID
  else if dt_us ≥ PAUSE_SHORT_US then gap_kind_t.GAP_SHORT
  else gap_kind_t.GAP_NONE

/-- The function `cycle_reset`: the state after `memset(cycle, 0, ...)`. -/
def cycle_reset : cycle_state_t :=
  { bytes := fun _ => 0, nbytes := 0, subframes := 0, gap_short_count := 0,
    gap_mid_count := 0, gap_long_count := 0, start_ts_us := 0, last_ts_us := 0 }

/-- The copy loop of `cycle_add_subframe` over the bytes still to add. -/
def cycle_append_loop (cbytes : Nat → Nat) (cn : Int) : List Nat → (Nat → Nat) × Int
  | [] => (cbytes, cn)
  | b :: bs =>
    if cn < (MAX_CYCLE_BYTES : Int) then
      cycle_append_loop (array_set cbytes cn.toNat b) (cn + 1) bs
    else (cbytes, cn)

/-- The function `cycle_add_subframe`; the count `nbytes` is the length of
`bytes`. -/
def cycle_add_subframe (cycle : cycle_state_t) (bytes : List Nat) (gap_kind : gap_kind_t)
    (ts_us : Int) : cycle_state_t :=
  if bytes.length = 0 then cycle
  else
    let r := cycle_append_loop cycle.bytes cycle.nbytes bytes
    { bytes := r.1, nbytes := r.2,
      subframes := cycle.subframes + 1,
      gap_short_count :=
        if gap_kind = gap_kind_t.GAP_SHORT then cycle.gap_short_count + 1
        else cycle.gap_short_count,
      gap_mid_count :=
        if gap_kind = gap_kind_t.GAP_MID then cycle.gap_mid_count + 1
        else cycle.gap_mid_count,
      gap_long_count :=
        if gap_kind = gap_kind_t.GAP_LONG then cycle.gap_long_count + 1
        else cycle.gap_long_count,
      start_ts_us := if cycle.start_ts_us = 0 then ts_us else cycle.start_ts_us,
      last_ts_us := ts_us }

/-- The loop of `cycle_compact_bytes`: `n` bytes left to read from index `i`,
`out` written so far (in order), and the last byte kept, if any. -/
def cycle_compact_loop (cbytes : Nat → Nat) (out_max : Nat) :
    Nat → Nat → List Nat → Option Nat → List Nat
  | 0, _, out, _ => out
  | n + 1, i, out, prev =>
    if out.length < out_max then
      let b := cbytes i
      if prev ≠ some b then cycle_compact_loop cbytes out_max n (i + 1) (out ++ [b]) (some b)
      else cycle_compact_loop cbytes out_max n (i + 1) out prev
    else out

/-- The function `cycle_compact_bytes`: the bytes written to `out` (the
returned count is their number). -/
def cycle_compact_bytes (cycle : cycle_state_t) (out_max : Nat) : List Nat :=
  cycle_compact_loop cycle.bytes out_max cycle.nbytes.toNat 0 [] none

/-- The function `handle_cycle_decode`: its only effect on the program state
is the one of `decode_digits` on the slot table; the result is logged only.
The second component is the byte sequence passed to `decode_digits`, if any. -/
def handle_cycle_decode (mux : MuxState) (cycle : cycle_state_t) (t_seen t_build : Int) :
    MuxState × Option (List Nat) :=
  if cycle.subframes = 0 ∨ cycle.nbytes = 0 then (mux, none)
  else
    let compact := cycle_compact_bytes cycle 32
    if compact.length = 0 then (mux, none)
    else ((decode_digits compact 16 "" mux t_seen t_build).mux, some compact)

/-! ## Timing model -/

structure timing_stats_t where
  dt_count : Nat
  dt_sum_us : Nat
  dt_min_us : Int
  dt_max_us : Int
  long_gap_count : Nat
  long_gap_max_us : Int
  clk_period_ema_us : Int
  last_log_ts_us : Int

def timing_init : timing_stats_t :=
  { dt_count := 0, dt_sum_us := 0, dt_min_us := 0, dt_max_us := 0, long_gap_count := 0,
    long_gap_max_us := 0, clk_period_ema_us := 0, last_log_ts_us := 0 }

/-- The function `effective_gap_us_from_timing`; the configuration constant
`FRAME_GAP_US` is a parameter. -/
def effective_gap_us_from_timing (FRAME_GAP_US : Int) (ts : timing_stats_t) : Int :=
  if ts.clk_period_ema_us > 0 then
    let auto0 := ts.clk_period_ema_us * AUTO_GAP_MULTIPLIER
    let auto1 := if auto0 < AUTO_GAP_MIN_US then AUTO_GAP_MIN_US else auto0
    if auto1 > FRAME_GAP_US then auto1 else FRAME_GAP_US
  else FRAME_GAP_US

/-- The function `update_timing_stats`, with the clock reading `now_us`. -/
def update_timing_stats (ts : timing_stats_t) (dt_us used_gap_us now_us : Int) :
    timing_stats_t :=
  if dt_us ≤ 0 then ts
  else
    let s1 : timing_stats_t :=
      { ts with
        dt_count := (ts.dt_count + 1) % 2 ^ 64
        dt_sum_us := (ts.dt_sum_us + dt_us.toNat) % 2 ^ 64
        dt_min_us := if ts.dt_min_us = 0 ∨ dt_us < ts.dt_min_us then dt_us else ts.dt_min_us
        dt_max_us := if dt_us > ts.dt_max_us then dt_us else ts.dt_max_us }
    let s2 : timing_stats_t :=
      if dt_us ≤ used_gap_us then
        { s1 with
          clk_period_ema_us :=
            if s1.clk_period_ema_us = 0 then dt_us
            else Int.tdiv (s1.clk_period_ema_us * 15 + dt_us) 16 }
      else
        { s1 with
          long_gap_count := (s1.long_gap_count + 1) % 2 ^ 32
          long_gap_max_us :=
            if dt_us > s1.long_gap_max_us then dt_us else s1.long_gap_max_us }
    if s2.last_log_ts_us = 0 then { s2 with last_log_ts_us := now_us }
    else if now_us - s2.last_log_ts_us ≥ TIMING_LOG_PERIOD_US then
      { s2 with
        dt_count := 0, dt_sum_us := 0, dt_min_us := 0, dt_max_us := 0,
        long_gap_count := 0, long_gap_max_us := 0, last_log_ts_us := now_us }
    else s2

/-! ## Frame assembler: the consumer loop of `sniffer_task` -/

/-- The clock readings of one iteration of the consumer loop: the one of
`update_timing_stats`, the one of the receive-timeout branch, those of
`handle_frame` and the two of the `decode_digits` call of
`handle_cycle_decode`. -/
structure StepClock where
  timing_now : Int
  idle_now : Int
  frame : FrameClock
  cycle_seen : Int
  cycle_build : Int

/-- What `xQueueReceive` delivers: a bit event, or a timeout after one second. -/
inductive Input where
  | event (bit : Nat) (ts_us : Int)
  | timeout

/-- The local variables of `sniffer_task` and the static variables, together
with two logs kept for the statements only: the frames handed to
`handle_frame` (the first `nbits` entries of `bits` at the call) and the cycle
states handed to `handle_cycle_decode`, in call order. -/
structure SnifferState where
  bits : Nat → Nat
  nbits : Int
  last_ts : Int
  t : timing_stats_t
  cycle : cycle_state_t
  g : Globals
  frames : List (List Nat)
  cycles : List cycle_state_t

/-- The state on entry to the loop. -/
def sniffer_init : SnifferState :=
  { bits := fun _ => 0, nbits := 0, last_ts := 0, t := timing_init, cycle := cycle_reset,
    g := globals_init, frames := [], cycles := [] }

/-- The statements shared by the three flush sites: `handle_frame`, then
`cycle_add_subframe` when the frame is byte-aligned. -/
def flush_frame (st : SnifferState) (gap_kind : gap_kind_t) (clk : StepClock) : SnifferState :=
  { st with
    g := handle_frame st.g st.bits st.nbits clk.frame
    cycle :=
      if Int.tmod st.nbits 8 = 0 then
        cycle_add_subframe st.cycle (bits_to_bytes st.bits st.nbits 8).2 gap_kind st.last_ts
      else st.cycle
    frames := st.frames ++ [array_first st.bits st.nbits.toNat] }

/-- The statements `handle_cycle_decode(&cycle); cycle_reset(&cycle);`. -/
def flush_cycle (st : SnifferState) (clk : StepClock) : SnifferState :=
  { st with
    g := { st.g with
           mux := (handle_cycle_decode st.g.mux st.cycle clk.cycle_seen clk.cycle_build).1 }
    cycle := cycle_reset
    cycles := st.cycles ++ [st.cycle] }

/-- The head of the event branch: the timing state after the event, the gap
`gap_us` the flush test compares with, and the gap kind. -/
def event_gap (FRAME_GAP_US : Int) (st : SnifferState) (ts_us : Int) (clk : StepClock) :
    timing_stats_t × Int × gap_kind_t :=
  if st.last_ts > 0 then
    let dt_us := ts_us - st.last_ts
    let t1 := update_timing_stats st.t dt_us (effective_gap_us_from_timing FRAME_GAP_US st.t)
      clk.timing_now
    (t1, effective_gap_us_from_timing FRAME_GAP_US t1, classify_gap_kind dt_us)
  else (st.t, effective_gap_us_from_timing FRAME_GAP_US st.t, gap_kind_t.GAP_NONE)

/-- The event branch of the loop body. -/
def sniffer_event (FRAME_GAP_US : Int) (st : SnifferState) (bit : Nat) (ts_us : Int)
    (clk : StepClock) : SnifferState :=
  let tg := event_gap FRAME_GAP_US st ts_us clk
  let st0 : SnifferState := { st with t := tg.1 }
  let st1 : SnifferState :=
    if st0.nbits > 0 ∧ ts_us - st0.last_ts > tg.2.1 then
      let s1 := flush_frame st0 tg.2.2 clk
      let s2 := if tg.2.2 = gap_kind_t.GAP_LONG then flush_cycle s1 clk else s1
      { s2 with nbits := 0 }
    else st0
  let st2 : SnifferState :=
    if st1.nbits < (MAX_FRAME_BITS : Int) then
      { st1 with bits := array_set st1.bits st1.nbits.toNat bit, nbits := st1.nbits + 1 }
    else
      { flush_frame st1 gap_kind_t.GAP_NONE clk with nbits := 0 }
  { st2 with last_ts := ts_us }

/-- The receive-timeout branch of the loop body. -/
def sniffer_timeout (FRAME_GAP_US : Int) (st : SnifferState) (clk : StepClock) : SnifferState :=
  if st.nbits > 0 then
    let gap_us := effective_gap_us_from_timing FRAME_GAP_US st.t
    let idle_us := clk.idle_now - st.last_ts
    let st1 : SnifferState :=
      if idle_us > gap_us then { flush_frame st gap_kind_t.GAP_NONE clk with nbits := 0 }
      else st
    if idle_us > PAUSE_LONG_US then flush_cycle st1 clk else st1
  else st

/-- One iteration of the loop `while (1)` of `sniffer_task`. -/
def sniffer_step (FRAME_GAP_US : Int) (st : SnifferState) (inp : Input) (clk : StepClock) :
    SnifferState :=
  match inp with
  | Input.event bit ts_us => sniffer_event FRAME_GAP_US st bit ts_us clk
  | Input.timeout => sniffer_timeout FRAME_GAP_US st clk

/-- Consecutive iterations of the loop. -/
def sniffer_run (FRAME_GAP_US : Int) : SnifferState → List (Input × StepClock) → SnifferState
  | st, [] => st
  | st, (inp, clk) :: rest => sniffer_run FRAME_GAP_US (sniffer_step FRAME_GAP_US st inp clk) rest

/-- The flush test of the event branch: a frame is in progress or not, the
delta since the last event exceeds the gap in force for this event. -/
def gap_exceeded (FRAME_GAP_US : Int) (st : SnifferState) (ts_us : Int) (clk : StepClock) :
    Bool :=
  decide (ts_us - st.last_ts > (event_gap FRAME_GAP_US st ts_us clk).2.1)

/-- No event of the list exceeds the gap in force when it is received. -/
def quiet_events (FRAME_GAP_US : Int) :
    SnifferState → List (Nat × Int × StepClock) → Bool
  | _, [] => true
  | st, (bit, ts_us, clk) :: rest =>
    !gap_exceeded FRAME_GAP_US st ts_us clk &&
      quiet_events FRAME_GAP_US (sniffer_event FRAME_GAP_US st bit ts_us clk) rest

/-- The loop run on a list of bit events. -/
def sniffer_events (FRAME_GAP_US : Int) :
    SnifferState → List (Nat × Int × StepClock) → SnifferState
  | st, [] => st
  | st, (bit, ts_us, clk) :: rest =>
    sniffer_events FRAME_GAP_US (sniffer_event FRAME_GAP_US st bit ts_us clk) rest

/-- A clock that reads `now` at every read of an iteration. -/
def clock_at (now : Int) : StepClock :=
  { timing_now := now, idle_now := now,
    frame := { dec_seen := now, dec_build := now, now_us := now, pair_seen := now,
               pair_build := now, publish := now },
    cycle_seen := now, cycle_build := now }

/-! ## Specification-side vocabulary -/

/-- The byte that encodes digit `d` under `mode`, in the words of the
specification: the table pattern, its bits reversed when the mode is
bit-reversed, complemented (8 bits) when the mode is active-low. -/
def encode_digit (d : Nat) (mode : decode_mode_t) : Nat :=
  let p := seg_map.getD d 0
  let p1 := if mode.bit_reversed then reverse_bits8 p else p
  if mode.active_low then (p1 ^^^ 0xFF) % 256 else p1

/-- Slot `i` is usable at clock value `now`, in the words of the
specification: it is valid and was last seen at most 500 ms ago. -/
def slot_fresh (m : MuxState) (now : Int) (i : Nat) : Bool :=
  m.valid i && decide (now - m.seen_us i ≤ 500 * 1000)

/-- The text of two decimal digits. -/
def two_digits (a b : Nat) : String := String.mk [Nat.digitChar a, Nat.digitChar b]

/-- The text of one decimal digit followed by the placeholder `?`. -/
def digit_placeholder (d : Int) : String := String.mk [Nat.digitChar d.toNat, '?']

/-- A slot table with slots 0 and 1 valid (digits 4 and 2), seen at clock
values `t0` and `t1`. -/
def mux_two (t0 t1 : Int) : MuxState :=
  mux_observe (mux_observe mux_empty 0 4 t0) 1 2 t1


/-- The input forces a flush of the frame in progress: an event whose delta
exceeds the gap in force, or a receive timeout with an idle time above the
effective gap. -/
def forces_flush (FRAME_GAP_US : Int) (st : SnifferState) : Input → StepClock → Bool
  | Input.event _ ts_us, clk => gap_exceeded FRAME_GAP_US st ts_us clk
  | Input.timeout, clk =>
    decide (clk.idle_now - st.last_ts > effective_gap_us_from_timing FRAME_GAP_US st.t)

/-- Bit events `delta` microseconds apart, the first at `start`, each handled
with every clock read at its own timestamp. -/
def evenly_spaced (start delta : Int) (bits : List Nat) : List (Nat × Int × StepClock) :=
  (List.range bits.length).map
    (fun i => (bits.getD i 0, start + delta * (i : Int), clock_at (start + delta * (i : Int))))

/-- The quantity the loop maintains: the bit count is within the buffer and
so was the bit count of every frame handed over. -/
def frame_inv (st : SnifferState) : Prop :=
  0 ≤ st.nbits ∧ st.nbits ≤ 64 ∧ ∀ f ∈ st.frames, f.length ≤ 64

instance (st : SnifferState) : Decidable (frame_inv st) := by
  unfold frame_inv
  infer_instance

/-! ## Vocabulary for publishing, cycles and runs -/

/-- Consecutive calls of `cycle_add_subframe`, one per subframe. -/
def cycle_add_all : cycle_state_t → List (List Nat × gap_kind_t × Int) → cycle_state_t
  | c, [] => c
  | c, (bytes, k, ts_us) :: rest => cycle_add_all (cycle_add_subframe c bytes k ts_us) rest

/-- A byte sequence with every maximal run of equal bytes collapsed to one
byte, in the words of the specification. -/
def collapse_runs : List Nat → List Nat
  | [] => []
  | [a] => [a]
  | a :: b :: rest =>
    if a = b then collapse_runs (b :: rest) else a :: collapse_runs (b :: rest)

/-- The byte of a one-byte frame. -/
def frame_byte (bits : Nat → Nat) : Nat := (bits_to_bytes bits 8 8).2.getD 0 0

/-- The bit array that starts with the bits `l`. -/
def bits_of (l : List Nat) : Nat → Nat := fun j => l.getD j 0

/-- The status texts `decode_digits` can leave. -/
def statuses : List String :=
  ["ok(direct)", "ok(mux)", "partial(mux)", "partial(single)", "partial", "unknown"]

/-- The decode of the byte of a one-byte frame on its own, as `handle_frame`
performs it. -/
def own_decode (g : Globals) (bits : Nat → Nat) (clk : FrameClock) : DecodeOut :=
  decode_digits [frame_byte bits] 16 "" g.mux clk.dec_seen clk.dec_build

/-- The decode of the pending byte followed by the byte of a one-byte frame,
as `handle_frame` performs it after the decode of the byte on its own. -/
def paired_decode (g : Globals) (bits : Nat → Nat) (clk : FrameClock) : DecodeOut :=
  decode_digits [g.prev_single_byte, frame_byte bits] 16 "" (own_decode g bits clk).mux
    clk.pair_seen clk.pair_build

/-- The paired decode ranks strictly higher than the decode of the byte on its
own. -/
def pair_outranks (g : Globals) (bits : Nat → Nat) (clk : FrameClock) : Prop :=
  decode_status_rank (paired_decode g bits clk).status >
    decode_status_rank (own_decode g bits clk).status

instance (g : Globals) (bits : Nat → Nat) (clk : FrameClock) :
    Decidable (pair_outranks g bits clk) := by
  unfold pair_outranks
  infer_instance

/-- The static variables after a first one-byte frame `0x3F` handled at clock
value 1000 from start-up: the pending byte is `0x3F`, seen at 1000. -/
def pending_3F : Globals :=
  handle_frame globals_init (bits_of [0, 0, 1, 1, 1, 1, 1, 1]) 8 (clock_at 1000).frame

/-- The variable `dt_us` of the event branch: the delta since the last event,
and 0 as long as no event was seen. -/
def event_delta (st : SnifferState) (ts_us : Int) : Int :=
  if st.last_ts > 0 then ts_us - st.last_ts else 0

/-- Bit events at the given timestamps, each handled with every clock read at
its own timestamp. -/
def events_at (l : List (Nat × Int)) : List (Nat × Int × StepClock) :=
  l.map (fun e => (e.1, e.2, clock_at e.2))

/-- Two 8-bit frames with bits 400 us apart, separated by a pause of 7000 us,
then after another pause of 7000 us a third run of 8 bits whose deltas of
4000, 7000, 12000 and four times 2000 us each stay within the gap in force and
raise the EMA from 400 to 1775 us, so the gap in force from 4800 to 21300 us. -/
def widening_stream : List (Nat × Int × StepClock) :=
  events_at [(0, 1000), (0, 1400), (1, 1800), (1, 2200), (1, 2600), (1, 3000), (1, 3400),
    (1, 3800),
    (0, 10800), (0, 11200), (0, 11600), (0, 12000), (0, 12400), (1, 12800), (1, 13200),
    (0, 13600),
    (0, 20600), (1, 24600), (0, 31600), (1, 43600), (1, 45600), (0, 47600), (1, 49600),
    (1, 51600)]

/-! ## Vocabulary for the hand-over of frames -/

/-- Receive timeouts at the given clocks, as inputs of the loop. -/
def timeouts (cs : List StepClock) : List (Input × StepClock) :=
  cs.map (fun c => (Input.timeout, c))

/-- The gap kind a flushing input passes to `cycle_add_subframe`: the kind of
the delta for a bit event, `GAP_NONE` for a receive timeout. -/
def flush_kind (FRAME_GAP_US : Int) (st : SnifferState) : Input → StepClock → gap_kind_t
  | Input.event _ ts_us, clk => (event_gap FRAME_GAP_US st ts_us clk).2.2
  | Input.timeout, _ => gap_kind_t.GAP_NONE

/-- The test under which a flushing input also calls `handle_cycle_decode` and
`cycle_reset`: a long gap for a bit event, an idle time above `PAUSE_LONG_US`
for a receive timeout. -/
def ends_cycle (FRAME_GAP_US : Int) (st : SnifferState) : Input → StepClock → Bool
  | Input.event _ ts_us, clk =>
    decide ((event_gap FRAME_GAP_US st ts_us clk).2.2 = gap_kind_t.GAP_LONG)
  | Input.timeout, clk => decide (clk.idle_now - st.last_ts > PAUSE_LONG_US)

/-- The static variables after the statement `handle_cycle_decode(&cycle)`: its
call of `decode_digits` may update the slot table. -/
def cycle_decoded (g : Globals) (cycle : cycle_state_t) (clk : StepClock) : Globals :=
  { g with mux := (handle_cycle_decode g.mux cycle clk.cycle_seen clk.cycle_build).1 }

/-- Consecutive calls of `handle_frame`, one per frame, each with its own
clock readings. -/
def handle_frames : Globals → List (List Nat × FrameClock) → Globals
  | g, [] => g
  | g, (frame, clk) :: rest =>
    handle_frames (handle_frame g (bits_of frame) frame.length clk) rest

/-- The static variables and the cycle state after the input `inp` has handed
the frame `frame` over from state `st`: `handle_frame` on the bits of the
frame, `cycle_add_subframe` on its bytes when it is byte-aligned, and
`handle_cycle_decode` followed by `cycle_reset` when the input ends the
cycle. -/
def handed_over (FRAME_GAP_US : Int) (st : SnifferState) (frame : List Nat) (inp : Input)
    (clk : StepClock) : Globals × cycle_state_t :=
  let g1 := handle_frame st.g (bits_of frame) frame.length clk.frame
  let c1 :=
    if frame.length % 8 = 0 then
      cycle_add_subframe st.cycle (bits_to_bytes (bits_of frame) frame.length 8).2
        (flush_kind FRAME_GAP_US st inp clk) st.last_ts
    else st.cycle
  if ends_cycle FRAME_GAP_US st inp clk then (cycle_decoded g1 c1 clk, cycle_reset)
  else (g1, c1)

/-- The receive timeouts of a pause that leave the frame in progress: those
before the first one that finds the idle time above the effective gap. -/
def quiet_timeouts (FRAME_GAP_US : Int) (st : SnifferState) (pause : List StepClock) :
    List StepClock :=
  pause.takeWhile (fun c => !forces_flush FRAME_GAP_US st Input.timeout c)

/-- The first of the receive timeouts `cs` that finds the idle time above
`PAUSE_LONG_US`, if any. -/
def first_long_idle (st : SnifferState) (cs : List StepClock) : Option StepClock :=
  cs.find? (fun c => decide (c.idle_now - st.last_ts > PAUSE_LONG_US))

/-- The input that ends the frame in progress when a pause with the receive
timeouts `pause` is followed by a bit event: the first timeout that finds the
idle time above the effective gap, and the bit event when there is none. -/
def separator (FRAME_GAP_US : Int) (st : SnifferState) (pause : List StepClock) (bit : Nat)
    (ts_us : Int) (clk : StepClock) : Input × StepClock :=
  match pause.find? (fun c => forces_flush FRAME_GAP_US st Input.timeout c) with
  | some c => (Input.timeout, c)
  | none => (Input.event bit ts_us, clk)

end Sniffer

namespace Sniffer

/-! ## Formatting lemmas -/

theorem snprintf_unknown (old : String) : snprintf old 16 "unknown" = "unknown" := by
  simp [snprintf]

theorem snprintf_two_digits (old : String) :
    ∀ a : Nat, a < 10 → ∀ b : Nat, b < 10 →
      snprintf old 16 (fmt_d (a : Int) ++ fmt_d (b : Int)) = two_digits a b := by
  have h : ∀ a : Nat, a < 10 → ∀ b : Nat, b < 10 →
      String.mk ((fmt_d (a : Int) ++ fmt_d (b : Int)).data.take 15) = two_digits a b := by
    decide
  intro a ha b hb
  simpa [snprintf] using h a ha b hb

theorem snprintf_digit_placeholder (old : String) (d : Int) (h0 : 0 ≤ d) (h9 : d ≤ 9) :
    snprintf old 16 (fmt_d d ++ "?") = digit_placeholder d := by
  have h : ∀ a : Nat, a < 10 →
      String.mk ((fmt_d (a : Int) ++ "?").data.take 15) = digit_placeholder (a : Int) := by
    decide
  obtain ⟨n, rfl⟩ := Int.eq_ofNat_of_zero_le h0
  simpa [snprintf] using h n (by omega)

/-! ## Single-byte decoding lemmas -/

theorem seg_to_digit_loop_range (norm : Nat) :
    ∀ n i : Nat, seg_to_digit_loop norm n i = -1 ∨
      ((i : Int) ≤ seg_to_digit_loop norm n i ∧ seg_to_digit_loop norm n i < (i : Int) + n) := by
  intro n
  induction n with
  | zero => intro i; left; rfl
  | succ n ih =>
    intro i
    rw [seg_to_digit_loop]
    split_ifs with h
    · right; constructor <;> push_cast <;> omega
    · rcases ih (i + 1) with h1 | ⟨h1, h2⟩
      · left; exact h1
      · right; constructor <;> push_cast at * <;> omega

theorem seg_to_digit_range (seg : Nat) (mode : decode_mode_t) :
    -1 ≤ seg_to_digit seg mode ∧ seg_to_digit seg mode ≤ 9 := by
  unfold seg_to_digit
  rcases seg_to_digit_loop_range
    (if mode.active_low then
      ((if mode.bit_reversed then reverse_bits8 (seg &&& 0x7F) &&& 0x7F else seg &&& 0x7F)
        ^^^ 0xFF) &&& 0x7F
     else (if mode.bit_reversed then reverse_bits8 (seg &&& 0x7F) &&& 0x7F else seg &&& 0x7F))
    10 0 with h | ⟨h1, h2⟩
  · simp only [h]; omega
  · constructor <;> push_cast at * <;> omega

theorem seg_to_digit_mask (v : Nat) (mode : decode_mode_t) :
    seg_to_digit v mode = seg_to_digit (v % 128) mode := by
  have h : v &&& 0x7F = v % 128 := Nat.and_pow_two_sub_one_eq_mod v 7
  have h2 : (v % 128) &&& 0x7F = v % 128 := by
    have := Nat.and_pow_two_sub_one_eq_mod (v % 128) 7
    simpa using this
  simp only [seg_to_digit, h, h2]

set_option maxRecDepth 100000 in
theorem seg_to_digit_table : ∀ a : Nat, a < 10 →
    seg_to_digit (seg_map.getD a 0) { active_low := false, bit_reversed := false } = (a : Int) := by
  decide

set_option maxRecDepth 100000 in
theorem seg_to_digit_reversed_high : ∀ w : Nat, w < 128 →
    seg_to_digit w { active_low := false, bit_reversed := true } = -1 ∨
    seg_to_digit w { active_low := false, bit_reversed := true } = 1 ∨
    seg_to_digit w { active_low := false, bit_reversed := true } = 4 := by
  decide

theorem decode_segment_byte_range (seg : Nat) (d : Int) (mode : decode_mode_t)
    (h : decode_segment_byte seg = some (d, mode)) : 0 ≤ d ∧ d ≤ 9 := by
  simp only [decode_segment_byte, modes, decode_segment_byte_loop] at h
  split_ifs at h with h1 h2 h3 h4
  all_goals
    simp only [Option.some.injEq, Prod.mk.injEq] at h
    obtain ⟨rfl, _⟩ := h
    exact ⟨by assumption, (seg_to_digit_range _ _).2⟩

/-! ## Selector lemmas -/

set_option maxRecDepth 1000000 in
theorem selector_active_low : ∀ v : Nat, v < 256 → ∀ al0 : Bool, ∀ k : Nat, k < 8 →
    (selector_slot_from_byte v al0 = ((k : Int), true) ↔ 255 - v = 2 ^ k) := by
  decide

set_option maxRecDepth 1000000 in
theorem selector_active_high : ∀ v : Nat, v < 256 → ∀ al0 : Bool, ∀ k : Nat, k < 8 →
    (selector_slot_from_byte v al0 = ((k : Int), false) ↔ v = 2 ^ k) := by
  decide

set_option maxRecDepth 1000000 in
theorem selector_none : ∀ v : Nat, v < 256 → ∀ al0 : Bool,
    (∀ k : Nat, k < 8 → 255 - v ≠ 2 ^ k ∧ v ≠ 2 ^ k) →
      selector_slot_from_byte v al0 = (-1, al0) := by
  decide

set_option maxRecDepth 1000000 in
theorem selector_range : ∀ v : Nat, v < 256 → ∀ al0 : Bool,
    -1 ≤ (selector_slot_from_byte v al0).1 ∧ (selector_slot_from_byte v al0).1 ≤ 7 := by
  decide

set_option maxRecDepth 1000000 in
theorem selector_exclusive : ∀ v : Nat, v < 256 →
    ¬ (∃ k : Nat, k < 8 ∧ ∃ j : Nat, j < 8 ∧ 255 - v = 2 ^ k ∧ v = 2 ^ j) := by
  decide

/-- A byte with one distinguished bit `k` is given slot `k`. -/
theorem selector_slot_of_bit (s k : Nat) (al0 : Bool) (hk : k < 8)
    (hs : s = 2 ^ k ∨ s = 255 - 2 ^ k) : (selector_slot_from_byte s al0).1 = (k : Int) := by
  have hp : 2 ^ k < 256 := by
    have : 2 ^ k < 2 ^ 8 := Nat.pow_lt_pow_right (by norm_num) hk
    simpa using this
  rcases hs with h | h
  · have := (selector_active_high s (by omega) al0 k hk).mpr h
    rw [this]
  · have h1 : s < 256 ∧ 255 - s = 2 ^ k := by
      generalize 2 ^ k = p at h hp
      omega
    have := (selector_active_low s h1.1 al0 k hk).mpr h1.2
    rw [this]

/-! ## Slot scan lemmas -/

theorem slot_fresh_false_of_stale (m : MuxState) (now : Int) (i : Nat)
    (hs : now - m.seen_us i > MUX_DIGIT_STALE_US) : slot_fresh m now i = false := by
  simp only [slot_fresh, MUX_DIGIT_STALE_US] at *
  simp
  intro _
  omega

theorem slot_fresh_true_of_recent (m : MuxState) (now : Int) (i : Nat)
    (hv : m.valid i = true) (hs : ¬ now - m.seen_us i > MUX_DIGIT_STALE_US) :
    slot_fresh m now i = true := by
  simp only [slot_fresh, MUX_DIGIT_STALE_US] at *
  simp [hv]
  omega

/-- With the first slot already found, the scan stops at the next usable slot. -/
theorem build_mux_loop_found (m : MuxState) (now : Int) (first : Int) (hf : 0 ≤ first) :
    ∀ n i, build_mux_loop m now n i first =
      match (List.range' i n).filter (slot_fresh m now) with
      | [] => (first, -1)
      | b :: _ => (first, (b : Int)) := by
  intro n
  induction n with
  | zero => intro i; simp [build_mux_loop]
  | succ n ih =>
    intro i
    rw [List.range'_succ, List.filter_cons, build_mux_loop]
    by_cases hv : m.valid i = true
    · by_cases hs : now - m.seen_us i > MUX_DIGIT_STALE_US
      · simp [hv, hs, slot_fresh_false_of_stale m now i hs, ih]
      · have hf' : ¬ first < 0 := by omega
        simp [hv, hs, slot_fresh_true_of_recent m now i hv hs, hf']
    · have hns : slot_fresh m now i = false := by
        simp only [slot_fresh]; simp at hv; simp [hv]
      simp [hv, hns, ih]

/-- From the start, the scan returns the first two usable slots in index order. -/
theorem build_mux_loop_start (m : MuxState) (now : Int) :
    ∀ n i, build_mux_loop m now n i (-1) =
      match (List.range' i n).filter (slot_fresh m now) with
      | [] => (-1, -1)
      | [a] => ((a : Int), -1)
      | a :: b :: _ => ((a : Int), (b : Int)) := by
  intro n
  induction n with
  | zero => intro i; simp [build_mux_loop]
  | succ n ih =>
    intro i
    rw [List.range'_succ, List.filter_cons, build_mux_loop]
    by_cases hv : m.valid i = true
    · by_cases hs : now - m.seen_us i > MUX_DIGIT_STALE_US
      · simp [hv, hs, slot_fresh_false_of_stale m now i hs, ih]
      · have h := build_mux_loop_found m now (i : Int) (by omega) n (i + 1)
        simp only [hv, hs, slot_fresh_true_of_recent m now i hv hs, Bool.not_true,
          Bool.false_eq_true, if_false, if_true]
        simp only [show ((-1 : Int) < 0) from by omega, if_true, h]
        cases (List.range' (i + 1) n).filter (slot_fresh m now) <;> simp
    · have hns : slot_fresh m now i = false := by
        simp only [slot_fresh]; simp at hv; simp [hv]
      simp [hv, hns, ih]

/-- The function `build_mux_2digit` in terms of the usable slots in index order. -/
theorem build_mux_2digit_eq (m : MuxState) (now : Int) (old : String) (len : Nat) :
    build_mux_2digit m now old len =
      match (List.range 8).filter (slot_fresh m now) with
      | a :: b :: _ => some (snprintf old len (fmt_d (m.digit a) ++ fmt_d (m.digit b)))
      | _ => none := by
  have h := build_mux_loop_start m now 8 0
  rw [← List.range_eq_range'] at h
  simp only [build_mux_2digit, MAX_MUX_SLOTS, h]
  rcases hl : (List.range 8).filter (slot_fresh m now) with _ | ⟨a, _ | ⟨b, r⟩⟩
  · simp
  · simp
  · simp

/-- With at most one valid slot the composition fails. -/
theorem build_mux_2digit_single (m : MuxState) (now : Int) (old : String) (len : Nat) (k : Nat)
    (h : ∀ i, i < 8 → i ≠ k → m.valid i = false) :
    build_mux_2digit m now old len = none := by
  have h0 : ∀ n i first, (∀ j, i ≤ j → j < i + n → m.valid j = false) →
      build_mux_loop m now n i first = (first, -1) := by
    intro n
    induction n with
    | zero => intro i first _; rfl
    | succ n ih =>
      intro i first hv
      rw [build_mux_loop, hv i (le_refl _) (by omega)]
      simp only [Bool.not_false, if_true]
      exact ih _ _ (fun j h1 h2 => hv j (by omega) (by omega))
  have h1 : ∀ n i, i + n ≤ 8 → (build_mux_loop m now n i (-1)).2 = -1 := by
    intro n
    induction n with
    | zero => intro i _; rfl
    | succ n ih =>
      intro i hi
      rw [build_mux_loop]
      split_ifs with a b c
      · exact ih _ (by omega)
      · exact ih _ (by omega)
      · have hik : i = k := by
          by_contra hne
          have := h i (by omega) hne
          simp [this] at a
        rw [h0 n (i + 1) i (fun j h1 h2 => h j (by omega) (by omega))]
      · omega
  have := h1 8 0 (by omega)
  simp [build_mux_2digit, MAX_MUX_SLOTS, this]

/-! ## Structure of `decode_digits` -/

theorem direct_loop_eq_none (b0 b1 : Nat) :
    direct_loop b0 b1 modes = none ↔
      ∀ md ∈ modes, ¬ (0 ≤ seg_to_digit b0 md ∧ 0 ≤ seg_to_digit b1 md) := by
  simp only [modes, direct_loop, List.mem_cons, List.mem_singleton, forall_eq_or_imp, forall_eq]
  split_ifs <;> simp_all

theorem pair_loop_eq_none (bytes : List Nat) :
    pair_loop bytes = none ↔
      ∀ i, i + 1 < bytes.length →
        pair_candidate (bytes.getD (i + 1) 0) (bytes.getD i 0) = none ∧
        pair_candidate (bytes.getD i 0) (bytes.getD (i + 1) 0) = none := by
  induction bytes with
  | nil => simp [pair_loop]
  | cons b0 tl ih =>
    cases tl with
    | nil => simp [pair_loop]
    | cons b1 rest =>
      rw [pair_loop]
      constructor
      · intro h i hi
        cases h1 : pair_candidate b1 b0 with
        | some r => simp [h1] at h
        | none =>
          cases h2 : pair_candidate b0 b1 with
          | some r => simp [h1, h2] at h
          | none =>
            simp only [h1, h2] at h
            cases i with
            | zero => simp [h1, h2]
            | succ j =>
              have := (ih.mp h) j (by simpa using hi)
              simpa using this
      · intro h
        have h0 := h 0 (by simp)
        simp only [List.getD_cons_zero, zero_add, List.getD_cons_succ] at h0
        simp only [h0.1, h0.2]
        apply ih.mpr
        intro i hi
        have := h (i + 1) (by simpa using hi)
        simpa using this

theorem decode_digits_of_direct (b0 b1 : Nat) (rest : List Nat) (len : Nat) (old : String)
    (m : MuxState) (t1 t2 : Int) (d0 d1 : Int)
    (h : direct_loop b0 b1 modes = some (d0, d1)) :
    decode_digits (b0 :: b1 :: rest) len old m t1 t2 =
      { decoded := snprintf (snprintf old len "unknown") len (fmt_d d0 ++ fmt_d d1)
        status := "ok(direct)", mux := m } := by
  simp only [decode_digits, h]

/-! ## Claims about the digit decoder -/

/-- C1: the two-byte sequence that encodes the digits 0 and 0 in the
active-high bit-reversed mode is `0xFC 0xFC`, and `decode_digits` does not
return `ok(direct)` with the text `00` on it: whatever the slot table and the
clock, it returns the status `partial` and leaves the text `unknown`. The
cause is in `seg_to_digit`: in that mode it masks bit 7 before reversing, so
the normalised pattern always has bit 0 clear and no byte at all decodes to a
digit other than 1 and 4. -/
theorem decode_digits_reversed_zero (m : MuxState) (t_seen t_build : Int) (old : String) :
    encode_digit 0 { active_low := false, bit_reversed := true } = 0xFC ∧
    (decode_digits [0xFC, 0xFC] 16 old m t_seen t_build).status = "partial" ∧
    (decode_digits [0xFC, 0xFC] 16 old m t_seen t_build).decoded = "unknown" ∧
    (∀ v : Nat,
      seg_to_digit v { active_low := false, bit_reversed := true } = -1 ∨
      seg_to_digit v { active_low := false, bit_reversed := true } = 1 ∨
      seg_to_digit v { active_low := false, bit_reversed := true } = 4) := by
  have h1 : direct_loop 0xFC 0xFC modes = none := by decide
  have h2 : pair_loop [0xFC, 0xFC] = none := by decide
  have h3 : decode_segment_byte 0xFC = none := by decide
  refine ⟨by decide, ?_, ?_, ?_⟩
  · simp [decode_digits, h1, h2, h3]
  · simp [decode_digits, h1, h2, h3, snprintf]
  · intro v
    rw [seg_to_digit_mask]
    exact seg_to_digit_reversed_high (v % 128) (Nat.mod_lt v (by norm_num))

/-- C2: for digits `a`, `b` in 0..9, every byte sequence that starts with the
table patterns `seg_map[a]`, `seg_map[b]` decodes to the text `ab` with status
`ok(direct)`, whatever the remaining bytes, the slot table and the clock; the
slot table is left as it was. -/
theorem decode_digits_table_pair (a b : Nat) (ha : a < 10) (hb : b < 10) (rest : List Nat)
    (m : MuxState) (t_seen t_build : Int) (old : String) :
    (decode_digits (seg_map.getD a 0 :: seg_map.getD b 0 :: rest) 16 old m
        t_seen t_build).status = "ok(direct)" ∧
    (decode_digits (seg_map.getD a 0 :: seg_map.getD b 0 :: rest) 16 old m
        t_seen t_build).decoded = two_digits a b ∧
    ((decode_digits (seg_map.getD a 0 :: seg_map.getD b 0 :: rest) 16 old m
        t_seen t_build).mux = m) := by
  have h : direct_loop (seg_map.getD a 0) (seg_map.getD b 0) modes = some ((a : Int), (b : Int)) := by
    simp only [direct_loop, modes, seg_to_digit_table a ha, seg_to_digit_table b hb]
    simp
  rw [decode_digits_of_direct _ _ _ _ _ _ _ _ _ _ h]
  exact ⟨rfl, snprintf_two_digits (snprintf old 16 "unknown") a ha b hb, rfl⟩

/-- C2, at the input of the specification: `0x3F 0x06` decodes to `01`. -/
theorem decode_digits_table_pair_witness :
    (decode_digits [0x3F, 0x06] 16 "" mux_empty 0 0).status = "ok(direct)" ∧
    (decode_digits [0x3F, 0x06] 16 "" mux_empty 0 0).decoded = "01" ∧
    (decode_digits [0x3F, 0x06] 16 "" mux_empty 0 0).mux = mux_empty :=
  decode_digits_table_pair 0 1 (by decide) (by decide) [] mux_empty 0 0 ""

theorem decode_digits_of_pair (b0 : Nat) (tl : List Nat) (len : Nat) (old : String)
    (m : MuxState) (t1 t2 : Int) (slot : Nat) (digit : Int)
    (hd : ∀ b1 rest, tl = b1 :: rest → direct_loop b0 b1 modes = none)
    (hp : pair_loop (b0 :: tl) = some (slot, digit))
    (hb : build_mux_2digit (mux_observe m slot digit t1) t2 (snprintf old len "unknown") len = none) :
    decode_digits (b0 :: tl) len old m t1 t2 =
      { decoded := snprintf (snprintf old len "unknown") len (fmt_d digit ++ "?")
        status := "partial(mux)", mux := mux_observe m slot digit t1 } := by
  cases tl with
  | nil => simp [pair_loop] at hp
  | cons b1 rest =>
    simp only [decode_digits, hd b1 rest rfl, hp, hb]

theorem pair_candidate_of (sel seg k : Nat) (d : Int) (mode : decode_mode_t) (hk : k < 8)
    (hs : sel = 2 ^ k ∨ sel = 255 - 2 ^ k) (hd : decode_segment_byte seg = some (d, mode)) :
    pair_candidate sel seg = some (k, d) := by
  have h := selector_slot_of_bit sel k false hk hs
  simp only [pair_candidate, h, hd, MAX_MUX_SLOTS]
  simp [hk]

theorem pair_candidate_none_of (sel seg : Nat) (hsel : sel < 256)
    (h : (¬ ∃ j : Nat, j < 8 ∧ (sel = 2 ^ j ∨ sel = 255 - 2 ^ j)) ∨ decode_segment_byte seg = none) :
    pair_candidate sel seg = none := by
  rcases h with h | h
  · have := selector_none sel hsel false (by
      intro k hk
      constructor
      · intro hc; apply h; refine ⟨k, hk, Or.inr ?_⟩; omega
      · intro hc; exact h ⟨k, hk, Or.inl hc⟩)
    simp [pair_candidate, this]
  · simp only [pair_candidate, h]
    split_ifs <;> rfl

/-- C3 (amended): let `s` be a valid selector byte with distinguished bit `k`
and `g` a byte that `decode_segment_byte` maps to the digit `d`, such that no
single mode decodes both bytes as digits (the direct attempt fails). From a
slot table with no valid slot, `decode_digits` on `[g, s]` returns
`partial(mux)` with the text `d?` and records `d` as valid in slot `k`, seen at
the clock reading taken; on `[s, g]` it does the same provided that `g` is not
itself a valid selector or `s` is not itself a valid segment byte. -/
theorem decode_digits_selector_pair (s g k : Nat) (d : Int) (mode : decode_mode_t)
    (m : MuxState) (t_seen t_build : Int) (old : String)
    (hk : k < 8) (hs : s = 2 ^ k ∨ s = 255 - 2 ^ k) (hg : g < 256)
    (hd : decode_segment_byte g = some (d, mode))
    (hdirect : ∀ md ∈ modes, ¬ (0 ≤ seg_to_digit g md ∧ 0 ≤ seg_to_digit s md))
    (hm : ∀ i, i < 8 → m.valid i = false) :
    ((decode_digits [g, s] 16 old m t_seen t_build).status = "partial(mux)" ∧
     (decode_digits [g, s] 16 old m t_seen t_build).decoded = digit_placeholder d ∧
     (decode_digits [g, s] 16 old m t_seen t_build).mux.valid k = true ∧
     (decode_digits [g, s] 16 old m t_seen t_build).mux.digit k = d ∧
     (decode_digits [g, s] 16 old m t_seen t_build).mux.seen_us k = t_seen) ∧
    (((¬ ∃ j : Nat, j < 8 ∧ (g = 2 ^ j ∨ g = 255 - 2 ^ j)) ∨ decode_segment_byte s = none) →
     ((decode_digits [s, g] 16 old m t_seen t_build).status = "partial(mux)" ∧
      (decode_digits [s, g] 16 old m t_seen t_build).decoded = digit_placeholder d ∧
      (decode_digits [s, g] 16 old m t_seen t_build).mux.valid k = true ∧
      (decode_digits [s, g] 16 old m t_seen t_build).mux.digit k = d ∧
      (decode_digits [s, g] 16 old m t_seen t_build).mux.seen_us k = t_seen)) := by
  have hrange := decode_segment_byte_range g d mode hd
  have htxt := snprintf_digit_placeholder (snprintf old 16 "unknown") d hrange.1 hrange.2
  have hcand := pair_candidate_of s g k d mode hk hs hd
  have hbuild : build_mux_2digit (mux_observe m k d t_seen) t_build
      (snprintf old 16 "unknown") 16 = none := by
    apply build_mux_2digit_single _ _ _ _ k
    intro i hi hne
    simp [mux_observe, hne, hm i hi]
  constructor
  · have hd1 : direct_loop g s modes = none := (direct_loop_eq_none g s).mpr hdirect
    have hp : pair_loop [g, s] = some (k, d) := by simp [pair_loop, hcand]
    rw [decode_digits_of_pair g [s] 16 old m t_seen t_build k d
      (by intro b1 rest h; simp at h; rw [← h.1]; exact hd1) hp hbuild]
    simp [htxt, mux_observe]
  · intro hno
    have hd1 : direct_loop s g modes = none :=
      (direct_loop_eq_none s g).mpr (fun md hmd hc => hdirect md hmd ⟨hc.2, hc.1⟩)
    have hc0 : pair_candidate g s = none := pair_candidate_none_of g s hg hno
    have hp : pair_loop [s, g] = some (k, d) := by simp [pair_loop, hcand, hc0]
    rw [decode_digits_of_pair s [g] 16 old m t_seen t_build k d
      (by intro b1 rest h; simp at h; rw [← h.1]; exact hd1) hp hbuild]
    simp [htxt, mux_observe]

/-- C3, at the input of the specification: selector `0xFE` with segment byte
`0x3F`, in either order, records digit 0 in slot 0. -/
theorem decode_digits_selector_pair_witness :
    ((decode_digits [0x3F, 0xFE] 16 "" mux_empty 7 9).status = "partial(mux)" ∧
     (decode_digits [0x3F, 0xFE] 16 "" mux_empty 7 9).decoded = "0?" ∧
     (decode_digits [0x3F, 0xFE] 16 "" mux_empty 7 9).mux.valid 0 = true ∧
     (decode_digits [0x3F, 0xFE] 16 "" mux_empty 7 9).mux.digit 0 = 0 ∧
     (decode_digits [0x3F, 0xFE] 16 "" mux_empty 7 9).mux.seen_us 0 = 7) ∧
    ((decode_digits [0xFE, 0x3F] 16 "" mux_empty 7 9).status = "partial(mux)" ∧
     (decode_digits [0xFE, 0x3F] 16 "" mux_empty 7 9).decoded = "0?" ∧
     (decode_digits [0xFE, 0x3F] 16 "" mux_empty 7 9).mux.valid 0 = true ∧
     (decode_digits [0xFE, 0x3F] 16 "" mux_empty 7 9).mux.digit 0 = 0 ∧
     (decode_digits [0xFE, 0x3F] 16 "" mux_empty 7 9).mux.seen_us 0 = 7) := by
  have h := decode_digits_selector_pair 0xFE 0x3F 0 0 { active_low := false, bit_reversed := false }
    mux_empty 7 9 "" (by decide) (by decide) (by decide) (by decide) (by decide)
    (fun _ _ => rfl)
  exact ⟨h.1, h.2 (Or.inl (by decide))⟩

/-- C3 as stated fails: the selector `0x7F` (its complement `0x80` has one bit)
with the segment byte `0x3F` (digit 0) is taken by the direct attempt, giving
`ok(direct)` and `08` with no slot recorded; and with selector `0x01` (slot 0)
before segment byte `0x10` (digit 9) the roles are swapped, so digit 8 is
recorded in slot 4 and slot 0 stays invalid. -/
theorem decode_digits_selector_pair_counterexample :
    (0x7F = 255 - 2 ^ 7 ∧ decode_segment_byte 0x3F = some (0, { active_low := false, bit_reversed := false }) ∧
     (decode_digits [0x3F, 0x7F] 16 "" mux_empty 7 9).status = "ok(direct)" ∧
     (decode_digits [0x3F, 0x7F] 16 "" mux_empty 7 9).decoded = "08" ∧
     (decode_digits [0x3F, 0x7F] 16 "" mux_empty 7 9).mux.valid 7 = false) ∧
    (0x01 = 2 ^ 0 ∧ decode_segment_byte 0x10 = some (9, { active_low := true, bit_reversed := false }) ∧
     (decode_digits [0x01, 0x10] 16 "" mux_empty 7 9).status = "partial(mux)" ∧
     (decode_digits [0x01, 0x10] 16 "" mux_empty 7 9).decoded = "8?" ∧
     (decode_digits [0x01, 0x10] 16 "" mux_empty 7 9).mux.valid 0 = false ∧
     (decode_digits [0x01, 0x10] 16 "" mux_empty 7 9).mux.valid 4 = true ∧
     (decode_digits [0x01, 0x10] 16 "" mux_empty 7 9).mux.digit 4 = 8) := by
  decide

/-- The usable slots in index order start with `i`, `j` when these are the two
lowest usable slots. -/
theorem filter_fresh_of_lowest (m : MuxState) (now : Int) (i j : Nat) (hij : i < j) (hj : j < 8)
    (hi : slot_fresh m now i = true) (hjf : slot_fresh m now j = true)
    (hk : ∀ k, k < j → k ≠ i → slot_fresh m now k = false) :
    ∃ rest, (List.range 8).filter (slot_fresh m now) = i :: j :: rest := by
  have h8 : List.range 8 = [0, 1, 2, 3, 4, 5, 6, 7] := by decide
  rw [h8]
  interval_cases j <;> interval_cases i <;>
    simp [List.filter_cons, hi, hjf, hk]

/-- C4: `build_mux_2digit` read at clock value `now` succeeds exactly when at
least two of the slots 0..7 are valid with `now - last_seen <= 500 ms`; it then
writes the digits of the two lowest-indexed such slots, lower index first,
whatever the order in which the slots were seen; with fewer than two such
slots it fails. -/
theorem build_mux_2digit_spec (m : MuxState) (now : Int) (old : String) (len : Nat) :
    ((build_mux_2digit m now old len).isSome = true ↔
      2 ≤ ((List.range 8).filter (slot_fresh m now)).length) ∧
    (∀ i j : Nat, i < j → j < 8 → slot_fresh m now i = true → slot_fresh m now j = true →
      (∀ k, k < j → k ≠ i → slot_fresh m now k = false) →
      build_mux_2digit m now old len =
        some (snprintf old len (fmt_d (m.digit i) ++ fmt_d (m.digit j)))) ∧
    (((List.range 8).filter (slot_fresh m now)).length < 2 →
      build_mux_2digit m now old len = none) := by
  refine ⟨?_, ?_, ?_⟩
  · rw [build_mux_2digit_eq]
    rcases (List.range 8).filter (slot_fresh m now) with _ | ⟨a, _ | ⟨b, r⟩⟩ <;> simp
  · intro i j hij hj hi hjf hk
    obtain ⟨rest, hr⟩ := filter_fresh_of_lowest m now i j hij hj hi hjf hk
    rw [build_mux_2digit_eq, hr]
  · intro h
    rw [build_mux_2digit_eq]
    generalize (List.range 8).filter (slot_fresh m now) = l at h
    rcases l with _ | ⟨a, _ | ⟨b, r⟩⟩
    · rfl
    · rfl
    · simp only [List.length_cons] at h
      omega

/-- C4, at the staleness boundary: with slot 0 (digit 4) and slot 1 (digit 2)
seen at 0 and 400 us in either order, the text at clock value 500000 (ages of
500 ms and less) is `42` in slot order; at 500001 and at 501000 the slot seen
at 0 is stale and composition fails. -/
theorem build_mux_2digit_spec_witness :
    build_mux_2digit (mux_two 0 400) 500000 "" 16 = some "42" ∧
    build_mux_2digit (mux_two 400 0) 500000 "" 16 = some "42" ∧
    build_mux_2digit (mux_two 0 400) 500001 "" 16 = none ∧
    build_mux_2digit (mux_two 0 400) 501000 "" 16 = none :=
  ⟨(build_mux_2digit_spec (mux_two 0 400) 500000 "" 16).2.1 0 1 (by decide) (by decide)
     (by decide) (by decide) (by decide),
   (build_mux_2digit_spec (mux_two 400 0) 500000 "" 16).2.1 0 1 (by decide) (by decide)
     (by decide) (by decide) (by decide),
   (build_mux_2digit_spec (mux_two 0 400) 500001 "" 16).2.2 (by decide),
   (build_mux_2digit_spec (mux_two 0 400) 501000 "" 16).2.2 (by decide)⟩

/-- C5: for every byte `v`, `selector_slot_from_byte` returns slot `k` in 0..7
flagged active-low exactly when the 8-bit complement of `v` is `1 << k`,
returns slot `k` flagged active-high exactly when `v` is `1 << k`, and returns
`-1` (flag untouched) for every other byte; the two cases exclude each other
and the result lies in `-1..7`. -/
theorem selector_slot_from_byte_spec (v : Nat) (hv : v < 256) (al0 : Bool) :
    (∀ k : Nat, k < 8 →
      (selector_slot_from_byte v al0 = ((k : Int), true) ↔ 255 - v = 2 ^ k)) ∧
    (∀ k : Nat, k < 8 →
      (selector_slot_from_byte v al0 = ((k : Int), false) ↔ v = 2 ^ k)) ∧
    ((∀ k : Nat, k < 8 → 255 - v ≠ 2 ^ k ∧ v ≠ 2 ^ k) →
      selector_slot_from_byte v al0 = (-1, al0)) ∧
    (-1 ≤ (selector_slot_from_byte v al0).1 ∧ (selector_slot_from_byte v al0).1 ≤ 7) ∧
    ¬ (∃ k : Nat, k < 8 ∧ ∃ j : Nat, j < 8 ∧ 255 - v = 2 ^ k ∧ v = 2 ^ j) :=
  ⟨selector_active_low v hv al0, selector_active_high v hv al0, selector_none v hv al0,
   selector_range v hv al0, selector_exclusive v hv⟩

/-- C5, at the input of the specification: `0xFE` gives slot 0, active-low. -/
theorem selector_slot_from_byte_spec_witness :
    0xFE < 256 ∧ selector_slot_from_byte 0xFE false = (0, true) :=
  ⟨by decide,
   ((selector_slot_from_byte_spec 0xFE (by decide) false).1 0 (by decide)).mpr (by decide)⟩


/-! ## Fallback ladder of `decode_digits` -/

theorem decode_digits_of_fallthrough (b0 : Nat) (tl : List Nat) (len : Nat) (old : String)
    (m : MuxState) (t1 t2 : Int)
    (hd : ∀ b1 rest, tl = b1 :: rest → direct_loop b0 b1 modes = none)
    (hp : pair_loop (b0 :: tl) = none) :
    decode_digits (b0 :: tl) len old m t1 t2 =
      match decode_segment_byte b0 with
      | some (d, _) =>
        { decoded := snprintf (snprintf old len "unknown") len (fmt_d d ++ "?")
          status := "partial(single)", mux := m }
      | none =>
        if 2 ≤ (b0 :: tl).length then
          { decoded := snprintf old len "unknown", status := "partial", mux := m }
        else
          { decoded := snprintf old len "unknown", status := "unknown", mux := m } := by
  cases tl with
  | nil => simp only [decode_digits, hp]
  | cons b1 rest => simp only [decode_digits, hd b1 rest rfl, hp]

/-- C6 (amended): on a byte sequence for which the direct two-byte attempt
fails and no selector/segment pairing is taken at any adjacent pair,
`decode_digits` leaves the slot table alone and yields `partial(single)` with
the text `d?` if the first byte alone decodes to the digit `d`; otherwise the
text stays `unknown`, with status `partial` if at least two bytes are present
and status `unknown` if fewer than two are: no byte, or a single byte that
decodes under no mode. -/
theorem decode_digits_fallback (bytes : List Nat) (m : MuxState) (t_seen t_build : Int)
    (old : String)
    (hdirect : 2 ≤ bytes.length → ∀ md ∈ modes,
      ¬ (0 ≤ seg_to_digit (bytes.getD 0 0) md ∧ 0 ≤ seg_to_digit (bytes.getD 1 0) md))
    (hpair : ∀ i, i + 1 < bytes.length →
      pair_candidate (bytes.getD (i + 1) 0) (bytes.getD i 0) = none ∧
      pair_candidate (bytes.getD i 0) (bytes.getD (i + 1) 0) = none) :
    (decode_digits bytes 16 old m t_seen t_build).mux = m ∧
    (∀ d mode, 1 ≤ bytes.length → decode_segment_byte (bytes.getD 0 0) = some (d, mode) →
      (decode_digits bytes 16 old m t_seen t_build).status = "partial(single)" ∧
      (decode_digits bytes 16 old m t_seen t_build).decoded = digit_placeholder d) ∧
    (2 ≤ bytes.length → decode_segment_byte (bytes.getD 0 0) = none →
      (decode_digits bytes 16 old m t_seen t_build).status = "partial" ∧
      (decode_digits bytes 16 old m t_seen t_build).decoded = "unknown") ∧
    (bytes.length = 1 → decode_segment_byte (bytes.getD 0 0) = none →
      (decode_digits bytes 16 old m t_seen t_build).status = "unknown" ∧
      (decode_digits bytes 16 old m t_seen t_build).decoded = "unknown") ∧
    (bytes.length = 0 →
      (decode_digits bytes 16 old m t_seen t_build).status = "unknown" ∧
      (decode_digits bytes 16 old m t_seen t_build).decoded = "unknown") := by
  cases bytes with
  | nil => simp [decode_digits, snprintf_unknown]
  | cons b0 tl =>
    have hd : ∀ b1 rest, tl = b1 :: rest → direct_loop b0 b1 modes = none := by
      intro b1 rest h
      subst h
      exact (direct_loop_eq_none b0 b1).mpr (by simpa using hdirect)
    have hp : pair_loop (b0 :: tl) = none := (pair_loop_eq_none _).mpr hpair
    rw [decode_digits_of_fallthrough b0 tl 16 old m t_seen t_build hd hp]
    simp only [List.getD_cons_zero]
    cases hseg : decode_segment_byte b0 with
    | none =>
      refine ⟨by split_ifs <;> rfl, by simp, ?_, ?_, by simp⟩
      · intro h2 _
        have h2' : 1 ≤ tl.length := by simpa using h2
        simp [h2', snprintf_unknown]
      · intro h1 _
        have h1' : tl.length = 0 := by simpa using h1
        simp [h1', snprintf_unknown]
    | some r =>
      obtain ⟨d, md⟩ := r
      have hr := decode_segment_byte_range b0 d md hseg
      refine ⟨rfl, ?_, by simp, by simp, by simp⟩
      intro d' mode' _ h
      simp only [Option.some.injEq, Prod.mk.injEq] at h
      obtain ⟨rfl, _⟩ := h
      exact ⟨rfl, snprintf_digit_placeholder (snprintf old 16 "unknown") d hr.1 hr.2⟩

/-- C6, at concrete inputs: the single byte `0x3F` gives `partial(single)` and
`0?`; the undecodable pair `0xFC 0xFC` gives `partial`. -/
theorem decode_digits_fallback_witness :
    ((decode_digits [0x3F] 16 "" mux_empty 0 0).status = "partial(single)" ∧
     (decode_digits [0x3F] 16 "" mux_empty 0 0).decoded = "0?") ∧
    ((decode_digits [0xFC, 0xFC] 16 "" mux_empty 0 0).status = "partial" ∧
     (decode_digits [0xFC, 0xFC] 16 "" mux_empty 0 0).decoded = "unknown") :=
  ⟨(decode_digits_fallback [0x3F] mux_empty 0 0 "" (by decide)
      (fun i hi => absurd hi (by simp))).2.1 0
      { active_low := false, bit_reversed := false } (by decide) (by decide),
   (decode_digits_fallback [0xFC, 0xFC] mux_empty 0 0 "" (by decide)
      (fun i hi => by
        have h0 : i = 0 := by simp at hi; omega
        subst h0
        decide)).2.2.1
      (by decide) (by decide)⟩

/-- C6 as stated fails: the single byte `0xFC` decodes under no mode, no
direct attempt or pairing applies to a one-byte sequence, and the status is
`unknown` although a byte was present. -/
theorem decode_digits_fallback_counterexample :
    [0xFC].length = 1 ∧ decode_segment_byte 0xFC = none ∧ pair_loop [0xFC] = none ∧
    (decode_digits [0xFC] 16 "" mux_empty 0 0).status = "unknown" ∧
    (decode_digits [0xFC] 16 "" mux_empty 0 0).decoded = "unknown" := by
  decide

/-! ## Byte packer -/

theorem shift_or_bit (v x : Nat) : (v <<< 1) ||| (x &&& 1) = 2 * v + x % 2 := by
  rw [Nat.and_one_is_mod, Nat.shiftLeft_eq, pow_one, Nat.mul_comm]
  have h : x % 2 < 2 ^ 1 := by simpa using Nat.mod_lt x (by norm_num : 2 > 0)
  have := Nat.mul_add_lt_is_or h v
  simpa using this.symm

/-- One output byte is the MSB-first fold of its eight bits. -/
theorem pack_byte_eq (bits : Nat → Nat) (b : Nat) :
    pack_byte_loop bits b 8 0 0 =
      (Finset.range 8).sum (fun i => (bits (8 * b + i) &&& 1) * 2 ^ (7 - i)) := by
  simp only [pack_byte_loop, shift_or_bit]
  simp only [Finset.sum_range_succ, Finset.sum_range_zero, Nat.and_one_is_mod, Nat.mul_comm b 8]
  have h0 := Nat.mod_lt (bits (8 * b + 0)) (by norm_num : 2 > 0)
  have h1 := Nat.mod_lt (bits (8 * b + 1)) (by norm_num : 2 > 0)
  have h2 := Nat.mod_lt (bits (8 * b + 2)) (by norm_num : 2 > 0)
  have h3 := Nat.mod_lt (bits (8 * b + 3)) (by norm_num : 2 > 0)
  have h4 := Nat.mod_lt (bits (8 * b + 4)) (by norm_num : 2 > 0)
  have h5 := Nat.mod_lt (bits (8 * b + 5)) (by norm_num : 2 > 0)
  have h6 := Nat.mod_lt (bits (8 * b + 6)) (by norm_num : 2 > 0)
  have h7 := Nat.mod_lt (bits (8 * b + 7)) (by norm_num : 2 > 0)
  norm_num
  omega

theorem bits_to_bytes_loop_length (bits : Nat → Nat) :
    ∀ n b, (bits_to_bytes_loop bits n b).length = n := by
  intro n
  induction n with
  | zero => intro b; rfl
  | succ n ih => intro b; simp [bits_to_bytes_loop, ih]

theorem bits_to_bytes_loop_get (bits : Nat → Nat) :
    ∀ n b k, k < n → (bits_to_bytes_loop bits n b).getD k 0 = pack_byte_loop bits (b + k) 8 0 0 := by
  intro n
  induction n with
  | zero => intro b k hk; omega
  | succ n ih =>
    intro b k hk
    cases k with
    | zero => simp [bits_to_bytes_loop]
    | succ k =>
      have := ih (b + 1) k (by omega)
      simp only [bits_to_bytes_loop, List.getD_cons_succ, this]
      congr 1
      omega

theorem pack_byte_congr (bits bits' : Nat → Nat) (b : Nat)
    (h : ∀ i, i < 8 → bits (8 * b + i) = bits' (8 * b + i)) :
    pack_byte_loop bits b 8 0 0 = pack_byte_loop bits' b 8 0 0 := by
  rw [pack_byte_eq, pack_byte_eq]
  apply Finset.sum_congr rfl
  intro i hi
  rw [h i (Finset.mem_range.mp hi)]

theorem bits_to_bytes_loop_congr (bits bits' : Nat → Nat) :
    ∀ n b, (∀ j, 8 * b ≤ j → j < 8 * (b + n) → bits j = bits' j) →
      bits_to_bytes_loop bits n b = bits_to_bytes_loop bits' n b := by
  intro n
  induction n with
  | zero => intro b _; rfl
  | succ n ih =>
    intro b h
    simp only [bits_to_bytes_loop]
    rw [pack_byte_congr bits bits' b (fun i hi => h _ (by omega) (by omega)),
      ih (b + 1) (fun j h1 h2 => h j (by omega) (by omega))]

/-- C7: for a bit sequence of length `nbits` and a capacity `max_bytes >= 0`,
`bits_to_bytes` returns `n = min(nbits / 8, max_bytes)` and writes `n` bytes;
output byte `b` is the sum over `i` in 0..7 of `(bits[8b+i] & 1) * 2^(7-i)`,
each run of 8 bits folded MSB first; the bits from index `8n` on, beyond the
last whole byte or beyond the capacity, have no influence. -/
theorem bits_to_bytes_spec (bits : Nat → Nat) (nbits max_bytes : Int)
    (hn : 0 ≤ nbits) (hm : 0 ≤ max_bytes) :
    (bits_to_bytes bits nbits max_bytes).1 = min (nbits / 8) max_bytes ∧
    ((bits_to_bytes bits nbits max_bytes).2.length : Int) = min (nbits / 8) max_bytes ∧
    (∀ b : Nat, (b : Int) < min (nbits / 8) max_bytes →
      (bits_to_bytes bits nbits max_bytes).2.getD b 0 =
        (Finset.range 8).sum (fun i => (bits (8 * b + i) &&& 1) * 2 ^ (7 - i))) ∧
    (∀ bits' : Nat → Nat,
      (∀ j : Nat, (j : Int) < 8 * min (nbits / 8) max_bytes → bits' j = bits j) →
      bits_to_bytes bits' nbits max_bytes = bits_to_bytes bits nbits max_bytes) := by
  have hdiv : Int.tdiv nbits 8 = nbits / 8 := Int.tdiv_eq_ediv hn (by norm_num)
  have hq : 0 ≤ nbits / 8 := Int.ediv_nonneg hn (by norm_num)
  have hcount : (if Int.tdiv nbits 8 > max_bytes then max_bytes else Int.tdiv nbits 8) =
      min (nbits / 8) max_bytes := by
    rw [hdiv]
    split_ifs with h
    · exact (min_eq_right (le_of_lt h)).symm
    · exact (min_eq_left (not_lt.mp h)).symm
  have hmin : 0 ≤ min (nbits / 8) max_bytes := le_min hq hm
  simp only [bits_to_bytes, hcount]
  refine ⟨trivial, ?_, ?_, ?_⟩
  · rw [bits_to_bytes_loop_length]
    exact Int.toNat_of_nonneg hmin
  · intro b hb
    have hb' : b < (min (nbits / 8) max_bytes).toNat := by omega
    rw [bits_to_bytes_loop_get bits _ 0 b hb', Nat.zero_add, pack_byte_eq]
  · intro bits' h
    rw [bits_to_bytes_loop_congr bits' bits _ 0 (fun j _ h2 => h j (by omega))]

/-- C7, at a concrete input: the 19 bits `10100101 00111100 111` with
capacity 8 give the two bytes `0xA5 0x3C`, and with capacity 1 the byte
`0xA5` alone. -/
theorem bits_to_bytes_spec_witness :
    bits_to_bytes (fun j => [1, 0, 1, 0, 0, 1, 0, 1, 0, 0, 1, 1, 1, 1, 0, 0, 1, 1, 1].getD j 0)
      19 8 = (2, [0xA5, 0x3C]) ∧
    (bits_to_bytes (fun j => [1, 0, 1, 0, 0, 1, 0, 1, 0, 0, 1, 1, 1, 1, 0, 0, 1, 1, 1].getD j 0)
      19 1).1 = min (19 / 8) 1 :=
  ⟨by decide,
   (bits_to_bytes_spec
      (fun j => [1, 0, 1, 0, 0, 1, 0, 1, 0, 0, 1, 1, 1, 1, 0, 0, 1, 1, 1].getD j 0) 19 1
      (by decide) (by decide)).1⟩

/-! ## Frame assembler lemmas -/

theorem array_first_length {α : Type} (a : Nat → α) (n : Nat) :
    (array_first a n).length = n := by
  simp [array_first]

theorem array_first_set {α : Type} (a : Nat → α) (n : Nat) (x : α) :
    array_first (array_set a n x) (n + 1) = array_first a n ++ [x] := by
  simp only [array_first, List.range_succ, List.map_append, List.map_cons, List.map_nil]
  have h1 : array_set a n x n = x := by simp [array_set]
  rw [h1]
  congr 1
  apply List.map_congr_left
  intro j hj
  have : j ≠ n := by
    have := List.mem_range.mp hj
    omega
  simp [array_set, this]

/-- An event that does not trigger the gap flush, with room in the buffer:
the bit is appended and nothing is handed over. -/
theorem sniffer_event_append (G : Int) (st : SnifferState) (bit : Nat) (ts_us : Int)
    (clk : StepClock) (hlt : st.nbits < 64)
    (hq : 0 < st.nbits → gap_exceeded G st ts_us clk = false) :
    sniffer_event G st bit ts_us clk =
      { st with
        t := (event_gap G st ts_us clk).1
        bits := array_set st.bits st.nbits.toNat bit
        nbits := st.nbits + 1
        last_ts := ts_us } := by
  have hno : ¬ (st.nbits > 0 ∧ ts_us - st.last_ts > (event_gap G st ts_us clk).2.1) := by
    rintro ⟨h1, h2⟩
    have := hq h1
    simp [gap_exceeded, h2] at this
  have hlt' : st.nbits < (MAX_FRAME_BITS : Int) := by simpa [MAX_FRAME_BITS] using hlt
  simp only [sniffer_event, hno, if_false, hlt', if_true]

/-- An event that triggers the gap flush: the frame in progress is handed
over and the bit starts the next frame. -/
theorem sniffer_event_flush (G : Int) (st : SnifferState) (bit : Nat) (ts_us : Int)
    (clk : StepClock) (hpos : 0 < st.nbits) (hx : gap_exceeded G st ts_us clk = true) :
    (sniffer_event G st bit ts_us clk).frames =
      st.frames ++ [array_first st.bits st.nbits.toNat] ∧
    (sniffer_event G st bit ts_us clk).nbits = 1 ∧
    (sniffer_event G st bit ts_us clk).bits = array_set st.bits 0 bit := by
  have hyes : st.nbits > 0 ∧ ts_us - st.last_ts > (event_gap G st ts_us clk).2.1 := by
    refine ⟨hpos, ?_⟩
    simpa [gap_exceeded] using hx
  have h0 : (0 : Int) < (MAX_FRAME_BITS : Int) := by simp [MAX_FRAME_BITS]
  simp only [sniffer_event, hyes, and_self, if_true, h0]
  by_cases hk : (event_gap G st ts_us clk).2.2 = gap_kind_t.GAP_LONG
  · simp [hk, flush_cycle, flush_frame]
  · simp [hk, flush_frame]

/-- An event that does not trigger the gap flush, with the buffer full: the
full frame is handed over, the buffer is emptied and the bit is not stored. -/
theorem sniffer_event_overflow (G : Int) (st : SnifferState) (bit : Nat) (ts_us : Int)
    (clk : StepClock) (hfull : 64 ≤ st.nbits) (hq : gap_exceeded G st ts_us clk = false) :
    sniffer_event G st bit ts_us clk =
      { flush_frame { st with t := (event_gap G st ts_us clk).1 } gap_kind_t.GAP_NONE clk with
        nbits := 0, last_ts := ts_us } := by
  have hno : ¬ (st.nbits > 0 ∧ ts_us - st.last_ts > (event_gap G st ts_us clk).2.1) := by
    rintro ⟨_, h2⟩
    simp [gap_exceeded, h2] at hq
  have hge : ¬ st.nbits < (MAX_FRAME_BITS : Int) := by
    simp only [MAX_FRAME_BITS]; push_cast; omega
  simp only [sniffer_event, hno, if_false, hge]

/-- A run of events none of which triggers the gap flush, with room in the
buffer for all of them: the bits are appended in order. -/
theorem sniffer_events_quiet (G : Int) :
    ∀ (es : List (Nat × Int × StepClock)) (st : SnifferState),
      0 ≤ st.nbits → st.nbits + es.length ≤ 64 → quiet_events G st es = true →
      (sniffer_events G st es).frames = st.frames ∧
      (sniffer_events G st es).nbits = st.nbits + es.length ∧
      array_first (sniffer_events G st es).bits (st.nbits.toNat + es.length) =
        array_first st.bits st.nbits.toNat ++ es.map (fun e => e.1) := by
  intro es
  induction es with
  | nil => intro st _ _ _; simp [sniffer_events]
  | cons e es ih =>
    intro st h0 hroom hq
    obtain ⟨bit, ts_us, clk⟩ := e
    simp only [quiet_events, Bool.and_eq_true, Bool.not_eq_true'] at hq
    simp only [List.length_cons, Nat.cast_add, Nat.cast_one] at hroom
    have hstep := sniffer_event_append G st bit ts_us clk (by omega) (fun _ => hq.1)
    have ih' := ih (sniffer_event G st bit ts_us clk) (by rw [hstep]; simp; omega)
      (by rw [hstep]; simp; omega) hq.2
    simp only [sniffer_events]
    rw [hstep] at ih' ⊢
    simp only at ih'
    obtain ⟨n, hn⟩ := Int.eq_ofNat_of_zero_le h0
    refine ⟨ih'.1, ?_, ?_⟩
    · rw [ih'.2.1]; simp only [List.length_cons]; push_cast; ring
    · have h3 := ih'.2.2
      rw [hn] at h3 ⊢
      simp only [Int.toNat_ofNat, List.length_cons, List.map_cons] at h3 ⊢
      have e1 : ((n : Int) + 1).toNat = n + 1 := by omega
      rw [e1, array_first_set] at h3
      rw [show n + (es.length + 1) = n + 1 + es.length from by omega, h3]
      simp

theorem sniffer_events_append (G : Int) :
    ∀ (es fs : List (Nat × Int × StepClock)) (st : SnifferState),
      sniffer_events G st (es ++ fs) = sniffer_events G (sniffer_events G st es) fs := by
  intro es
  induction es with
  | nil => intro fs st; rfl
  | cons e es ih =>
    intro fs st
    obtain ⟨bit, ts_us, clk⟩ := e
    simp only [List.cons_append, sniffer_events]
    exact ih fs _

/-- A timeout that finds the idle time above the effective gap hands the frame
in progress over. -/
theorem sniffer_timeout_flush (G : Int) (st : SnifferState) (clk : StepClock)
    (hpos : 0 < st.nbits)
    (hx : clk.idle_now - st.last_ts > effective_gap_us_from_timing G st.t) :
    (sniffer_timeout G st clk).frames = st.frames ++ [array_first st.bits st.nbits.toNat] ∧
    (sniffer_timeout G st clk).nbits = 0 := by
  have hpos' : st.nbits > 0 := hpos
  simp only [sniffer_timeout, hpos', if_true, hx]
  split_ifs <;> simp [flush_cycle, flush_frame]

/-- The first event on an empty buffer and a following quiet run of `n`
events leave a frame in progress that holds their bits in order. -/
theorem sniffer_events_first_quiet (G : Int) (st : SnifferState) (b1 : Nat) (t1 : Int)
    (c1 : StepClock) (es : List (Nat × Int × StepClock))
    (h0 : st.nbits = 0) (hroom : es.length ≤ 63)
    (hq : quiet_events G (sniffer_event G st b1 t1 c1) es = true) :
    (sniffer_events G st ((b1, t1, c1) :: es)).frames = st.frames ∧
    (sniffer_events G st ((b1, t1, c1) :: es)).nbits = 1 + es.length ∧
    array_first (sniffer_events G st ((b1, t1, c1) :: es)).bits (1 + es.length) =
      b1 :: es.map (fun e => e.1) := by
  have hstep := sniffer_event_append G st b1 t1 c1 (by omega) (fun h => by omega)
  have h := sniffer_events_quiet G es (sniffer_event G st b1 t1 c1)
    (by rw [hstep]; simp; omega) (by rw [hstep]; simp; omega) hq
  simp only [sniffer_events]
  rw [hstep] at h ⊢
  simp only [h0, zero_add, Int.toNat_zero] at h ⊢
  refine ⟨h.1, h.2.1, ?_⟩
  have h3 := h.2.2
  simp only [Int.toNat_one] at h3
  rw [h3]
  have := array_first_set st.bits 0 b1
  simp only [zero_add] at this
  rw [this]
  simp [array_first]

/-- After a gap flush, a following quiet run of `n` events leaves a frame in
progress that holds the bit of the flushing event and their bits in order. -/
theorem sniffer_events_flush_quiet (G : Int) (st : SnifferState) (b : Nat) (t : Int)
    (c : StepClock) (es : List (Nat × Int × StepClock))
    (hpos : 0 < st.nbits) (hx : gap_exceeded G st t c = true) (hroom : es.length ≤ 63)
    (hq : quiet_events G (sniffer_event G st b t c) es = true) :
    (sniffer_events G st ((b, t, c) :: es)).frames =
      st.frames ++ [array_first st.bits st.nbits.toNat] ∧
    (sniffer_events G st ((b, t, c) :: es)).nbits = 1 + es.length ∧
    array_first (sniffer_events G st ((b, t, c) :: es)).bits (1 + es.length) =
      b :: es.map (fun e => e.1) := by
  have hf := sniffer_event_flush G st b t c hpos hx
  have h := sniffer_events_quiet G es (sniffer_event G st b t c)
    (by rw [hf.2.1]; omega) (by rw [hf.2.1]; omega) hq
  simp only [sniffer_events]
  rw [hf.1, hf.2.1, hf.2.2] at h
  refine ⟨h.1, h.2.1, ?_⟩
  have h3 := h.2.2
  simp only [Int.toNat_one] at h3
  rw [h3]
  have := array_first_set st.bits 0 b
  simp only [zero_add] at this
  rw [this]
  simp [array_first]

theorem quiet_events_append (G : Int) :
    ∀ (es fs : List (Nat × Int × StepClock)) (st : SnifferState),
      quiet_events G st (es ++ fs) =
        (quiet_events G st es && quiet_events G (sniffer_events G st es) fs) := by
  intro es
  induction es with
  | nil => intro fs st; simp [quiet_events, sniffer_events]
  | cons e es ih =>
    intro fs st
    obtain ⟨bit, ts_us, clk⟩ := e
    simp only [List.cons_append, quiet_events, sniffer_events]
    rw [Bool.and_assoc]
    congr 1
    exact ih fs _

/-! ## The bit count stays within the buffer -/

theorem flush_frame_inv (st : SnifferState) (k : gap_kind_t) (clk : StepClock)
    (h : frame_inv st) :
    ∀ f ∈ (flush_frame st k clk).frames, f.length ≤ 64 := by
  intro f hf
  simp only [flush_frame, List.mem_append, List.mem_singleton] at hf
  rcases hf with hf | hf
  · exact h.2.2 f hf
  · rw [hf, array_first_length]
    have := h.2.1
    omega

theorem frame_inv_event (G : Int) (st : SnifferState) (bit : Nat) (ts_us : Int)
    (clk : StepClock) (h : frame_inv st) :
    frame_inv (sniffer_event G st bit ts_us clk) ∧
    ∀ i, 64 ≤ i → (sniffer_event G st bit ts_us clk).bits i = st.bits i := by
  by_cases hx : 0 < st.nbits ∧ gap_exceeded G st ts_us clk = true
  · have hf := sniffer_event_flush G st bit ts_us clk hx.1 hx.2
    refine ⟨⟨by rw [hf.2.1]; norm_num, by rw [hf.2.1]; norm_num, ?_⟩, ?_⟩
    · intro f hfm
      rw [hf.1] at hfm
      exact flush_frame_inv st gap_kind_t.GAP_NONE clk h f (by simpa [flush_frame] using hfm)
    · intro i hi
      rw [hf.2.2]
      have : i ≠ 0 := by omega
      simp [array_set, this]
  · have hq : 0 < st.nbits → gap_exceeded G st ts_us clk = false := by
      intro hp
      by_contra hc
      exact hx ⟨hp, by simpa using hc⟩
    by_cases hlt : st.nbits < 64
    · rw [sniffer_event_append G st bit ts_us clk hlt hq]
      refine ⟨⟨by simp only; have := h.1; omega, by simp only; omega, h.2.2⟩, ?_⟩
      intro i hi
      have : i ≠ st.nbits.toNat := by have := h.1; omega
      simp [array_set, this]
    · have hfull : 64 ≤ st.nbits := by omega
      have hpos : 0 < st.nbits := by omega
      rw [sniffer_event_overflow G st bit ts_us clk hfull (hq hpos)]
      refine ⟨⟨by simp, by simp, ?_⟩, ?_⟩
      · intro f hfm
        exact flush_frame_inv st gap_kind_t.GAP_NONE clk h f (by simpa [flush_frame] using hfm)
      · intro i _
        simp [flush_frame]

theorem frame_inv_timeout (G : Int) (st : SnifferState) (clk : StepClock) (h : frame_inv st) :
    frame_inv (sniffer_timeout G st clk) ∧
    ∀ i, 64 ≤ i → (sniffer_timeout G st clk).bits i = st.bits i := by
  have hF := flush_frame_inv st gap_kind_t.GAP_NONE clk h
  simp only [flush_frame] at hF
  simp only [sniffer_timeout]
  split_ifs <;>
    first
    | exact ⟨h, fun _ _ => rfl⟩
    | exact ⟨⟨by simp [flush_cycle, flush_frame], by simp [flush_cycle, flush_frame],
        by simpa [flush_cycle, flush_frame] using hF⟩, fun _ _ => rfl⟩

theorem frame_inv_step (G : Int) (st : SnifferState) (inp : Input) (clk : StepClock)
    (h : frame_inv st) :
    frame_inv (sniffer_step G st inp clk) ∧
    ∀ i, 64 ≤ i → (sniffer_step G st inp clk).bits i = st.bits i := by
  cases inp with
  | event bit ts_us => exact frame_inv_event G st bit ts_us clk h
  | timeout => exact frame_inv_timeout G st clk h

theorem frame_inv_run (G : Int) :
    ∀ (inputs : List (Input × StepClock)) (st : SnifferState), frame_inv st →
      frame_inv (sniffer_run G st inputs) ∧
      ∀ i, 64 ≤ i → (sniffer_run G st inputs).bits i = st.bits i := by
  intro inputs
  induction inputs with
  | nil => intro st h; exact ⟨h, fun _ _ => rfl⟩
  | cons x rest ih =>
    intro st h
    obtain ⟨inp, clk⟩ := x
    have hs := frame_inv_step G st inp clk h
    have hr := ih (sniffer_step G st inp clk) hs.1
    simp only [sniffer_run]
    exact ⟨hr.1, fun i hi => by rw [hr.2 i hi, hs.2 i hi]⟩

/-- C10: the frame bit count satisfies `0 <= nbits <= 64` in every reachable
state of the consumer loop: it holds on entry and every iteration preserves
it, whether a bit event with or without gap flush, the overflow branch or the
receive timeout; every frame handed to `handle_frame` has at most 64 bits, and
no iteration writes to `bits` at an index from 64 on. -/
theorem nbits_within_buffer (G : Int) :
    frame_inv sniffer_init ∧
    (∀ (st : SnifferState) (inp : Input) (clk : StepClock), frame_inv st →
      frame_inv (sniffer_step G st inp clk) ∧
      ∀ i, 64 ≤ i → (sniffer_step G st inp clk).bits i = st.bits i) ∧
    (∀ inputs : List (Input × StepClock),
      frame_inv (sniffer_run G sniffer_init inputs) ∧
      ∀ i, 64 ≤ i → (sniffer_run G sniffer_init inputs).bits i = 0) := by
  have hinit : frame_inv sniffer_init := by
    refine ⟨by simp [sniffer_init], by simp [sniffer_init], ?_⟩
    intro f hf
    simp [sniffer_init] at hf
  refine ⟨hinit, frame_inv_step G, ?_⟩
  intro inputs
  have h := frame_inv_run G inputs sniffer_init hinit
  exact ⟨h.1, fun i hi => by rw [h.2 i hi]; rfl⟩

/-- C10, on the first iteration from the entry state. -/
theorem nbits_within_buffer_witness :
    frame_inv sniffer_init ∧
    frame_inv (sniffer_step 1000 sniffer_init (Input.event 1 1000) (clock_at 1000)) :=
  ⟨(nbits_within_buffer 1000).1,
   ((nbits_within_buffer 1000).2.1 sniffer_init (Input.event 1 1000) (clock_at 1000)
      (nbits_within_buffer 1000).1).1⟩

/-! ## Timing model -/

/-- The effective gap once an interval has been observed. -/
theorem effective_gap_of_pos (G : Int) (ts : timing_stats_t) (h : 0 < ts.clk_period_ema_us) :
    effective_gap_us_from_timing G ts = max G (max (ts.clk_period_ema_us * 12) 120) := by
  have h' : ts.clk_period_ema_us > 0 := h
  simp only [effective_gap_us_from_timing, h', if_true, AUTO_GAP_MULTIPLIER, AUTO_GAP_MIN_US]
  split_ifs <;> omega

/-- The effective gap before any interval has been observed. -/
theorem effective_gap_of_zero (G : Int) (ts : timing_stats_t) (h : ts.clk_period_ema_us ≤ 0) :
    effective_gap_us_from_timing G ts = G := by
  have h' : ¬ ts.clk_period_ema_us > 0 := by omega
  simp only [effective_gap_us_from_timing, h', if_false]

/-- C11 (amended): for every timing state with EMA > 0 and every base gap,
`effective_gap_us_from_timing` returns `max(base_gap, max(ema * 12, 120))`;
with EMA = 0, before any interval has been folded in, it returns the base gap
itself, without the floor of 120 us. -/
theorem effective_gap_spec (G : Int) (ts : timing_stats_t) :
    (0 < ts.clk_period_ema_us →
      effective_gap_us_from_timing G ts = max G (max (ts.clk_period_ema_us * 12) 120)) ∧
    (ts.clk_period_ema_us = 0 → effective_gap_us_from_timing G ts = G) :=
  ⟨effective_gap_of_pos G ts, fun h => effective_gap_of_zero G ts (by omega)⟩

/-- C11, at concrete inputs: EMA 5 with base gap 100 gives the floor 120, EMA
50 gives 600, base gap 1000 wins over both, and EMA 0 gives the base gap. -/
theorem effective_gap_spec_witness :
    effective_gap_us_from_timing 100 { timing_init with clk_period_ema_us := 5 } = 120 ∧
    effective_gap_us_from_timing 100 { timing_init with clk_period_ema_us := 50 } = 600 ∧
    effective_gap_us_from_timing 1000 { timing_init with clk_period_ema_us := 50 } = 1000 ∧
    effective_gap_us_from_timing 100 timing_init = 100 :=
  ⟨(effective_gap_spec 100 { timing_init with clk_period_ema_us := 5 }).1 (by decide),
   (effective_gap_spec 100 { timing_init with clk_period_ema_us := 50 }).1 (by decide),
   (effective_gap_spec 1000 { timing_init with clk_period_ema_us := 50 }).1 (by decide),
   (effective_gap_spec 100 timing_init).2 (by decide)⟩

/-- C11 as stated fails at EMA = 0: with base gap 100 the function returns 100,
not `max(100, max(0 * 12, 120)) = 120`. -/
theorem effective_gap_spec_counterexample :
    timing_init.clk_period_ema_us = 0 ∧
    effective_gap_us_from_timing 100 timing_init = 100 ∧
    max (100 : Int) (max (timing_init.clk_period_ema_us * 12) 120) = 120 := by
  decide

theorem effective_gap_congr (G : Int) (a b : timing_stats_t)
    (h : a.clk_period_ema_us = b.clk_period_ema_us) :
    effective_gap_us_from_timing G a = effective_gap_us_from_timing G b := by
  simp only [effective_gap_us_from_timing, h]

theorem update_timing_ema (ts : timing_stats_t) (dt used now : Int) (hdt : 0 < dt) :
    (update_timing_stats ts dt used now).clk_period_ema_us =
      if dt ≤ used then
        (if ts.clk_period_ema_us = 0 then dt else Int.tdiv (ts.clk_period_ema_us * 15 + dt) 16)
      else ts.clk_period_ema_us := by
  have h : ¬ dt ≤ 0 := by omega
  simp only [update_timing_stats, h, if_false]
  split_ifs <;> rfl

/-- The gap recomputed after `update_timing_stats` classifies the delta as the
gap used before did. -/
theorem gap_after_update (G : Int) (ts : timing_stats_t) (dt now : Int)
    (hema : 0 ≤ ts.clk_period_ema_us) (hdt : 0 < dt) :
    (dt > effective_gap_us_from_timing G
        (update_timing_stats ts dt (effective_gap_us_from_timing G ts) now) ↔
      dt > effective_gap_us_from_timing G ts) := by
  have hE := update_timing_ema ts dt (effective_gap_us_from_timing G ts) now hdt
  by_cases hfold : dt ≤ effective_gap_us_from_timing G ts
  · rw [if_pos hfold] at hE
    have hright : ¬ dt > effective_gap_us_from_timing G ts := by omega
    refine ⟨fun h => ?_, fun h => absurd h hright⟩
    exfalso
    by_cases h0 : ts.clk_period_ema_us = 0
    · rw [if_pos h0] at hE
      have hpos : 0 < (update_timing_stats ts dt (effective_gap_us_from_timing G ts)
          now).clk_period_ema_us := by rw [hE]; exact hdt
      rw [effective_gap_of_pos G _ hpos, hE] at h
      have := le_max_right G (max (dt * 12) 120)
      have := le_max_left (dt * 12) 120
      omega
    · rw [if_neg h0] at hE
      have hp : 0 < ts.clk_period_ema_us := by omega
      have hdiv : Int.tdiv (ts.clk_period_ema_us * 15 + dt) 16 =
          (ts.clk_period_ema_us * 15 + dt) / 16 := Int.tdiv_eq_ediv (by omega) (by norm_num)
      rw [hdiv] at hE
      have hpos : 0 < (update_timing_stats ts dt (effective_gap_us_from_timing G ts)
          now).clk_period_ema_us := by rw [hE]; omega
      rw [effective_gap_of_pos G _ hpos, hE] at h
      rw [effective_gap_of_pos G ts hp] at hfold
      simp only [gt_iff_lt, max_lt_iff] at h
      rcases le_max_iff.mp hfold with h1 | h1
      · omega
      · rcases le_max_iff.mp h1 with h2 | h2
        · omega
        · omega
  · rw [if_neg hfold] at hE
    rw [effective_gap_congr G _ ts hE]

/-! ## The flush test of the loop -/

theorem event_gap_of_seen (G : Int) (st : SnifferState) (ts_us : Int) (clk : StepClock)
    (hlast : 0 < st.last_ts) :
    event_gap G st ts_us clk =
      (update_timing_stats st.t (ts_us - st.last_ts) (effective_gap_us_from_timing G st.t)
          clk.timing_now,
        effective_gap_us_from_timing G
          (update_timing_stats st.t (ts_us - st.last_ts) (effective_gap_us_from_timing G st.t)
            clk.timing_now),
        classify_gap_kind (ts_us - st.last_ts)) := by
  have h : st.last_ts > 0 := hlast
  simp only [event_gap, h, if_true]

/-- C19: for a timing state with EMA >= 0, any base gap and a positive delta
`dt`, `dt` exceeds the effective gap recomputed after
`update_timing_stats` if and only if it exceeds the effective gap used before
the update. So in the loop a delta folded into the EMA does not trigger the gap
flush in the same step (with room in the buffer the bit is appended and nothing
is handed over), and a delta counted as a boundary candidate hands the frame in
progress over. -/
theorem gap_test_stable (G : Int) (ts : timing_stats_t) (dt now : Int)
    (hema : 0 ≤ ts.clk_period_ema_us) (hdt : 0 < dt) :
    (dt > effective_gap_us_from_timing G
        (update_timing_stats ts dt (effective_gap_us_from_timing G ts) now) ↔
      dt > effective_gap_us_from_timing G ts) ∧
    (∀ (st : SnifferState) (bit : Nat) (ts_us : Int) (clk : StepClock),
      st.t = ts → 0 < st.last_ts → ts_us - st.last_ts = dt → clk.timing_now = now →
      (dt ≤ effective_gap_us_from_timing G ts → st.nbits < 64 →
        (sniffer_event G st bit ts_us clk).frames = st.frames ∧
        (sniffer_event G st bit ts_us clk).nbits = st.nbits + 1) ∧
      (dt > effective_gap_us_from_timing G ts → 0 < st.nbits →
        (sniffer_event G st bit ts_us clk).frames =
          st.frames ++ [array_first st.bits st.nbits.toNat] ∧
        (sniffer_event G st bit ts_us clk).nbits = 1)) := by
  have hA := gap_after_update G ts dt now hema hdt
  refine ⟨hA, ?_⟩
  intro st bit ts_us clk ht hlast hd hnow
  have hx : gap_exceeded G st ts_us clk = decide (dt > effective_gap_us_from_timing G ts) := by
    simp only [gap_exceeded, event_gap_of_seen G st ts_us clk hlast, ht, hd, hnow]
    exact decide_eq_decide.mpr hA
  constructor
  · intro hfold hroom
    have hq : gap_exceeded G st ts_us clk = false := by
      rw [hx]; exact decide_eq_false (by omega)
    rw [sniffer_event_append G st bit ts_us clk hroom (fun _ => hq)]
    exact ⟨rfl, rfl⟩
  · intro hb hpos
    have hq : gap_exceeded G st ts_us clk = true := by
      rw [hx]; exact decide_eq_true hb
    have := sniffer_event_flush G st bit ts_us clk hpos hq
    exact ⟨this.1, this.2.1⟩

/-- C19, at concrete values: with EMA 100 and base gap 1000 the gap is 1200;
the delta 1200 is folded in (EMA becomes 168, gap 2016) and does not exceed
either gap, the delta 1201 exceeds both. -/
theorem gap_test_stable_witness :
    (¬ ((1200 : Int) > effective_gap_us_from_timing 1000
        (update_timing_stats { timing_init with clk_period_ema_us := 100 } 1200
          (effective_gap_us_from_timing 1000 { timing_init with clk_period_ema_us := 100 }) 7))) ∧
    ((1201 : Int) > effective_gap_us_from_timing 1000
        (update_timing_stats { timing_init with clk_period_ema_us := 100 } 1201
          (effective_gap_us_from_timing 1000 { timing_init with clk_period_ema_us := 100 }) 7)) :=
  ⟨fun h => absurd
      ((gap_test_stable 1000 { timing_init with clk_period_ema_us := 100 } 1200 7
        (by decide) (by decide)).1.mp h) (by decide),
   (gap_test_stable 1000 { timing_init with clk_period_ema_us := 100 } 1201 7
      (by decide) (by decide)).1.mpr (by decide)⟩

/-! ## Cycle buffer -/

theorem array_first_succ {α : Type} (a : Nat → α) (n : Nat) :
    array_first a (n + 1) = array_first a n ++ [a n] := by
  simp [array_first, List.range_succ]

theorem array_first_congr {α : Type} (a b : Nat → α) (n : Nat) (h : ∀ i, i < n → a i = b i) :
    array_first a n = array_first b n := by
  simp only [array_first]
  apply List.map_congr_left
  intro i hi
  exact h i (List.mem_range.mp hi)

theorem take_take_append (n : Nat) (a b : List Nat) :
    ((a.take n) ++ b).take n = (a ++ b).take n := by
  by_cases h : a.length ≤ n
  · rw [List.take_of_length_le h]
  · have h' : n ≤ a.length := by omega
    rw [List.take_append_of_le_length h']
    rw [List.take_append_of_le_length (by simp [h'])]
    simp

/-- The copy loop: the count after it, the stored bytes after it, and the
entries it leaves as they were. -/
theorem cycle_append_loop_spec :
    ∀ (bs : List Nat) (cb : Nat → Nat) (cn : Int), 0 ≤ cn → cn ≤ 96 →
      (cycle_append_loop cb cn bs).2 = min 96 (cn + bs.length) ∧
      array_first (cycle_append_loop cb cn bs).1 (cycle_append_loop cb cn bs).2.toNat =
        (array_first cb cn.toNat ++ bs).take 96 ∧
      (∀ i, i < cn.toNat → (cycle_append_loop cb cn bs).1 i = cb i) := by
  intro bs
  induction bs with
  | nil =>
    intro cb cn h0 h96
    simp only [cycle_append_loop, List.length_nil, Nat.cast_zero, add_zero, List.append_nil]
    refine ⟨by omega, ?_, fun _ _ => trivial⟩
    rw [List.take_of_length_le]
    simp [array_first]
    omega
  | cons b bs ih =>
    intro cb cn h0 h96
    obtain ⟨n, rfl⟩ := Int.eq_ofNat_of_zero_le h0
    simp only [cycle_append_loop, MAX_CYCLE_BYTES]
    by_cases hlt : (n : Int) < ((96 : Nat) : Int)
    · have hn : n < 96 := by omega
      simp only [hlt, if_true]
      have h := ih (array_set cb (n : Int).toNat b) ((n : Int) + 1) (by omega) (by omega)
      simp only [Int.toNat_ofNat] at h ⊢
      have e1 : ((n : Int) + 1).toNat = n + 1 := by omega
      rw [e1, array_first_set] at h
      refine ⟨?_, ?_, ?_⟩
      · rw [h.1]; simp only [List.length_cons]; push_cast; ring_nf
      · rw [h.2.1]; simp
      · intro i hi
        rw [h.2.2 i (by omega)]
        have : i ≠ n := by omega
        simp [array_set, this]
    · have hn : n = 96 := by omega
      subst hn
      simp only [hlt, if_false, Int.toNat_ofNat]
      refine ⟨?_, ?_, fun _ _ => trivial⟩
      · simp only [List.length_cons]; push_cast; omega
      · rw [List.take_append_of_le_length (by simp [array_first])]
        rw [List.take_of_length_le (by simp [array_first])]


/-- Adding one subframe: count and stored bytes afterwards. -/
theorem cycle_add_subframe_bytes (c : cycle_state_t) (bytes : List Nat) (k : gap_kind_t)
    (ts_us : Int) (h0 : 0 ≤ c.nbytes) (h96 : c.nbytes ≤ 96) :
    (cycle_add_subframe c bytes k ts_us).nbytes = min 96 (c.nbytes + bytes.length) ∧
    array_first (cycle_add_subframe c bytes k ts_us).bytes
        (cycle_add_subframe c bytes k ts_us).nbytes.toNat =
      (array_first c.bytes c.nbytes.toNat ++ bytes).take 96 ∧
    (∀ i, i < c.nbytes.toNat → (cycle_add_subframe c bytes k ts_us).bytes i = c.bytes i) := by
  by_cases he : bytes.length = 0
  · have hnil : bytes = [] := List.length_eq_zero.mp he
    subst hnil
    simp only [cycle_add_subframe, List.length_nil, if_true, Nat.cast_zero, add_zero,
      List.append_nil]
    refine ⟨by omega, ?_, fun _ _ => trivial⟩
    rw [List.take_of_length_le]
    simp [array_first]
    omega
  · simp only [cycle_add_subframe, he, if_false]
    exact cycle_append_loop_spec bytes c.bytes c.nbytes h0 h96

/-- The state after a sequence of calls, in terms of all the bytes added. -/
theorem cycle_add_all_bytes :
    ∀ (subs : List (List Nat × gap_kind_t × Int)) (c : cycle_state_t) (acc : List Nat),
      c.nbytes = min 96 (acc.length : Int) →
      array_first c.bytes c.nbytes.toNat = acc.take 96 →
      (cycle_add_all c subs).nbytes =
        min 96 ((acc ++ subs.flatMap (fun s => s.1)).length : Int) ∧
      array_first (cycle_add_all c subs).bytes (cycle_add_all c subs).nbytes.toNat =
        (acc ++ subs.flatMap (fun s => s.1)).take 96 := by
  intro subs
  induction subs with
  | nil => intro c acc h1 h2; simpa [cycle_add_all] using ⟨h1, h2⟩
  | cons s subs ih =>
    intro c acc h1 h2
    obtain ⟨bytes, k, ts_us⟩ := s
    have h0 : 0 ≤ c.nbytes := by rw [h1]; omega
    have h96 : c.nbytes ≤ 96 := by rw [h1]; omega
    have hs := cycle_add_subframe_bytes c bytes k ts_us h0 h96
    have hi := ih (cycle_add_subframe c bytes k ts_us) (acc ++ bytes)
      (by rw [hs.1, h1]; simp only [List.length_append]; push_cast; omega)
      (by rw [hs.2.1, h2, take_take_append])
    simp only [cycle_add_all, List.flatMap_cons]
    rw [← List.append_assoc]
    exact hi

/-- C16: after any sequence of `cycle_add_subframe` calls from a reset cycle
the byte count is `min(96, total)`, never above 96, and the stored bytes are
exactly the first `min(96, total)` bytes of the concatenation of the added
subframes in order; a call changes no byte already stored, and once 96 bytes
are stored a call changes neither the count nor any stored byte. -/
theorem cycle_bytes_capped (subs : List (List Nat × gap_kind_t × Int)) :
    (cycle_add_all cycle_reset subs).nbytes =
      min 96 ((subs.flatMap (fun s => s.1)).length : Int) ∧
    0 ≤ (cycle_add_all cycle_reset subs).nbytes ∧
    (cycle_add_all cycle_reset subs).nbytes ≤ 96 ∧
    array_first (cycle_add_all cycle_reset subs).bytes
        (cycle_add_all cycle_reset subs).nbytes.toNat =
      (subs.flatMap (fun s => s.1)).take 96 ∧
    (∀ (bytes : List Nat) (k : gap_kind_t) (ts_us : Int) (i : Nat),
      i < (cycle_add_all cycle_reset subs).nbytes.toNat →
      (cycle_add_subframe (cycle_add_all cycle_reset subs) bytes k ts_us).bytes i =
        (cycle_add_all cycle_reset subs).bytes i) ∧
    (∀ (bytes : List Nat) (k : gap_kind_t) (ts_us : Int),
      (cycle_add_all cycle_reset subs).nbytes = 96 →
      (cycle_add_subframe (cycle_add_all cycle_reset subs) bytes k ts_us).nbytes = 96) := by
  have h := cycle_add_all_bytes subs cycle_reset [] (by simp [cycle_reset])
    (by simp [cycle_reset, array_first])
  simp only [List.nil_append] at h
  have h0 : 0 ≤ (cycle_add_all cycle_reset subs).nbytes := by rw [h.1]; omega
  have h96 : (cycle_add_all cycle_reset subs).nbytes ≤ 96 := by rw [h.1]; omega
  refine ⟨h.1, h0, h96, h.2, ?_, ?_⟩
  · intro bytes k ts_us i hi
    exact (cycle_add_subframe_bytes _ bytes k ts_us h0 h96).2.2 i hi
  · intro bytes k ts_us hfull
    rw [(cycle_add_subframe_bytes _ bytes k ts_us h0 h96).1, hfull]
    omega

set_option maxRecDepth 100000 in
/-- C16, at a concrete sequence: thirteen subframes of eight bytes, 104 bytes
in all, leave a count of 96 and the first 96 bytes. -/
theorem cycle_bytes_capped_witness :
    (cycle_add_all cycle_reset
      (List.replicate 13 ([1, 2, 3, 4, 5, 6, 7, 8], gap_kind_t.GAP_NONE, 5))).nbytes = 96 ∧
    array_first (cycle_add_all cycle_reset
      (List.replicate 13 ([1, 2, 3, 4, 5, 6, 7, 8], gap_kind_t.GAP_NONE, 5))).bytes 96 =
      (List.replicate 12 [1, 2, 3, 4, 5, 6, 7, 8]).flatMap id :=
  ⟨(cycle_bytes_capped
      (List.replicate 13 ([1, 2, 3, 4, 5, 6, 7, 8], gap_kind_t.GAP_NONE, 5))).1,
   by decide⟩

/-! ## Cycle compaction -/

/-- The collapsed sequence starts with the first byte of the sequence. -/
theorem collapse_runs_cons (a : Nat) (l : List Nat) :
    ∃ t, collapse_runs (a :: l) = a :: t := by
  induction l generalizing a with
  | nil => exact ⟨[], rfl⟩
  | cons b rest ih =>
    simp only [collapse_runs]
    split_ifs with h
    · subst h; exact ih a
    · exact ⟨_, rfl⟩

theorem collapse_runs_chain (l : List Nat) : (collapse_runs l).Chain' (fun x y => x ≠ y) := by
  induction l with
  | nil => simp [collapse_runs]
  | cons a l ih =>
    cases l with
    | nil => simp [collapse_runs]
    | cons b rest =>
      simp only [collapse_runs]
      split_ifs with h
      · exact ih
      · obtain ⟨t, ht⟩ := collapse_runs_cons b rest
        rw [ht] at ih ⊢
        exact List.Chain'.cons h ih

/-- The loop in terms of the bytes still to read: what it has written, then
the collapsed rest as far as the output has room. -/
theorem cycle_compact_loop_spec (cb : Nat → Nat) (out_max : Nat) :
    ∀ (n i : Nat) (out : List Nat) (prev : Option Nat), out.length ≤ out_max →
      cycle_compact_loop cb out_max n i out prev =
        out ++ (match prev with
          | none => collapse_runs ((List.range' i n).map cb)
          | some p => (collapse_runs (p :: (List.range' i n).map cb)).tail).take
            (out_max - out.length) := by
  intro n
  induction n with
  | zero =>
    intro i out prev _
    cases prev with
    | none => simp [cycle_compact_loop, collapse_runs]
    | some p => simp [cycle_compact_loop, collapse_runs]
  | succ n ih =>
    intro i out prev hlen
    rw [cycle_compact_loop, List.range'_succ, List.map_cons]
    by_cases hroom : out.length < out_max
    · simp only [hroom, if_true]
      obtain ⟨t, ht⟩ := collapse_runs_cons (cb i) ((List.range' (i + 1) n).map cb)
      by_cases hp : prev ≠ some (cb i)
      · simp only [hp, ne_eq, not_false_eq_true, if_true]
        rw [ih (i + 1) (out ++ [cb i]) (some (cb i)) (by simp; omega)]
        have hk : out_max - out.length = (out_max - (out ++ [cb i]).length) + 1 := by
          simp; omega
        cases prev with
        | none =>
          simp only [ht, List.tail_cons]
          rw [hk, List.take_succ_cons]
          simp
        | some p =>
          have hne : p ≠ cb i := fun h => hp (by rw [h])
          simp only [collapse_runs, hne, if_false, ht, List.tail_cons]
          rw [hk, List.take_succ_cons]
          simp
      · have hp' : prev = some (cb i) := by
          by_contra h; exact hp h
        subst hp'
        simp only [ne_eq, not_true_eq_false, if_false]
        rw [ih (i + 1) out (some (cb i)) hlen]
        simp only [collapse_runs, if_true]
    · have he : out_max - out.length = 0 := by omega
      simp [hroom, he]

/-- What `handle_cycle_decode` passes on, for a cycle with bytes and subframes. -/
theorem handle_cycle_decode_input (mux : MuxState) (c : cycle_state_t) (t_seen t_build : Int)
    (h1 : 1 ≤ c.nbytes) (hs : c.subframes ≠ 0) :
    (handle_cycle_decode mux c t_seen t_build).2 =
      some ((collapse_runs (array_first c.bytes c.nbytes.toNat)).take 32) := by
  have hspec := cycle_compact_loop_spec c.bytes 32 c.nbytes.toNat 0 [] none (by simp)
  simp only [List.nil_append, List.length_nil, Nat.sub_zero, ← List.range_eq_range'] at hspec
  have hcompact : cycle_compact_bytes c 32 =
      (collapse_runs (array_first c.bytes c.nbytes.toNat)).take 32 := by
    simp only [cycle_compact_bytes, hspec, array_first]
  have hpos : 0 < c.nbytes.toNat := by omega
  obtain ⟨k, hk⟩ := Nat.exists_eq_succ_of_ne_zero (by omega : c.nbytes.toNat ≠ 0)
  have hne : ((collapse_runs (array_first c.bytes c.nbytes.toNat)).take 32).length ≠ 0 := by
    rw [hk, array_first, List.range_succ_eq_map, List.map_cons]
    obtain ⟨t, ht⟩ := collapse_runs_cons (c.bytes 0) (List.map c.bytes (List.map Nat.succ (List.range k)))
    rw [ht]
    simp
  have hn0 : ¬ (c.subframes = 0 ∨ c.nbytes = 0) := by
    rintro (h | h)
    · exact hs h
    · omega
  simp only [handle_cycle_decode, hn0, if_false, hcompact, hne]

theorem cycle_add_subframe_empty (c : cycle_state_t) (bytes : List Nat) (k : gap_kind_t)
    (ts_us : Int) (he : bytes.length = 0) : cycle_add_subframe c bytes k ts_us = c := by
  simp only [cycle_add_subframe, he, if_true]

theorem cycle_add_subframe_count (c : cycle_state_t) (bytes : List Nat) (k : gap_kind_t)
    (ts_us : Int) (he : bytes.length ≠ 0) :
    (cycle_add_subframe c bytes k ts_us).subframes = c.subframes + 1 := by
  simp only [cycle_add_subframe, he, if_false]

/-- A cycle built from a reset cycle has a subframe as soon as it has a byte. -/
theorem cycle_add_all_subframes :
    ∀ (subs : List (List Nat × gap_kind_t × Int)) (c : cycle_state_t),
      0 ≤ c.nbytes → c.nbytes ≤ 96 → 0 ≤ c.subframes → (0 < c.nbytes → 0 < c.subframes) →
      (0 < (cycle_add_all c subs).nbytes → 0 < (cycle_add_all c subs).subframes) := by
  intro subs
  induction subs with
  | nil => intro c _ _ _ h; exact h
  | cons s subs ih =>
    intro c h0 h96 hs0 himp
    obtain ⟨bytes, k, ts_us⟩ := s
    simp only [cycle_add_all]
    by_cases he : bytes.length = 0
    · rw [cycle_add_subframe_empty c bytes k ts_us he]
      exact ih c h0 h96 hs0 himp
    · have hb := cycle_add_subframe_bytes c bytes k ts_us h0 h96
      have hc := cycle_add_subframe_count c bytes k ts_us he
      apply ih
      · rw [hb.1]; omega
      · rw [hb.1]; omega
      · rw [hc]; omega
      · intro _; rw [hc]; omega

/-- C15 (amended): for every cycle state built by `cycle_add_subframe` calls
from a reset cycle and holding between 1 and 96 bytes, the byte sequence that
`handle_cycle_decode` passes to `decode_digits` is the first 32 bytes of the
accumulated sequence with every maximal run of equal bytes collapsed to one
byte: no two adjacent bytes passed are equal, and every transition is kept
when the collapsed sequence has at most 32 bytes; what lies beyond its 32nd
byte is dropped. -/
theorem cycle_decode_input (subs : List (List Nat × gap_kind_t × Int)) (mux : MuxState)
    (t_seen t_build : Int) (h1 : 1 ≤ (cycle_add_all cycle_reset subs).nbytes) :
    (cycle_add_all cycle_reset subs).nbytes ≤ 96 ∧
    (handle_cycle_decode mux (cycle_add_all cycle_reset subs) t_seen t_build).2 =
      some ((collapse_runs ((subs.flatMap (fun s => s.1)).take 96)).take 32) ∧
    ((collapse_runs ((subs.flatMap (fun s => s.1)).take 96)).take 32).Chain'
      (fun x y => x ≠ y) ∧
    ((collapse_runs ((subs.flatMap (fun s => s.1)).take 96)).length ≤ 32 →
      (handle_cycle_decode mux (cycle_add_all cycle_reset subs) t_seen t_build).2 =
        some (collapse_runs ((subs.flatMap (fun s => s.1)).take 96))) := by
  have hb := cycle_add_all_bytes subs cycle_reset [] (by simp [cycle_reset])
    (by simp [cycle_reset, array_first])
  simp only [List.nil_append] at hb
  have hsub := cycle_add_all_subframes subs cycle_reset (by simp [cycle_reset])
    (by simp [cycle_reset]) (by simp [cycle_reset]) (by simp [cycle_reset]) (by omega)
  have hin := handle_cycle_decode_input mux (cycle_add_all cycle_reset subs) t_seen t_build h1
    (by omega)
  rw [hb.2] at hin
  refine ⟨by rw [hb.1]; omega, hin, ?_, ?_⟩
  · exact List.Chain'.take (collapse_runs_chain _) 32
  · intro hlen
    rw [hin, List.take_of_length_le hlen]

set_option maxRecDepth 100000 in
/-- C15, at a concrete cycle: the subframes `3F 3F 06` and `06 06 3F` pass
`3F 06 3F` on. -/
theorem cycle_decode_input_witness :
    (handle_cycle_decode mux_empty
      (cycle_add_all cycle_reset
        [([0x3F, 0x3F, 0x06], gap_kind_t.GAP_SHORT, 5), ([0x06, 0x06, 0x3F], gap_kind_t.GAP_LONG, 9)])
      0 0).2 = some [0x3F, 0x06, 0x3F] :=
  (cycle_decode_input
    [([0x3F, 0x3F, 0x06], gap_kind_t.GAP_SHORT, 5), ([0x06, 0x06, 0x3F], gap_kind_t.GAP_LONG, 9)]
    mux_empty 0 0 (by decide)).2.1

set_option maxRecDepth 100000 in
/-- C15 as stated fails: five subframes of eight alternating bytes accumulate
40 bytes with 39 transitions; the collapsed sequence has 40 bytes, and only its
first 32 are passed on. -/
theorem cycle_decode_input_counterexample :
    (cycle_add_all cycle_reset (List.replicate 5
      ([0x3F, 0x06, 0x3F, 0x06, 0x3F, 0x06, 0x3F, 0x06], gap_kind_t.GAP_NONE, 5))).nbytes = 40 ∧
    (collapse_runs (array_first (cycle_add_all cycle_reset (List.replicate 5
      ([0x3F, 0x06, 0x3F, 0x06, 0x3F, 0x06, 0x3F, 0x06], gap_kind_t.GAP_NONE, 5))).bytes
      40)).length = 40 ∧
    ((handle_cycle_decode mux_empty (cycle_add_all cycle_reset (List.replicate 5
      ([0x3F, 0x06, 0x3F, 0x06, 0x3F, 0x06, 0x3F, 0x06], gap_kind_t.GAP_NONE, 5)))
      0 0).2.map List.length) = some 32 := by
  decide

/-! ## Text lemmas -/

theorem take_data_of_short (s : String) (n : Nat) (h : s.length ≤ n) :
    String.mk (s.data.take n) = s := by
  cases s with
  | mk l =>
    have h' : l.length ≤ n := h
    rw [List.take_of_length_le h']

theorem strncpy_of_short (s : String) (n : Nat) (h : s.length ≤ n) : strncpy s n = s :=
  take_data_of_short s n h

theorem snprintf_length (old s : String) (len : Nat) (h : 0 < len) :
    (snprintf old len s).length ≤ len - 1 := by
  have : len ≠ 0 := by omega
  simp only [snprintf, this, if_false]
  show (s.data.take (len - 1)).length ≤ len - 1
  rw [List.length_take]
  exact Nat.min_le_left _ _

theorem snprintf_of_short (old s : String) (len : Nat) (h : s.length < len) :
    snprintf old len s = s := by
  have : len ≠ 0 := by omega
  simp only [snprintf, this, if_false]
  exact take_data_of_short s (len - 1) (by omega)

theorem fmt_02X_length (b : Nat) : (fmt_02X b).length = 2 := rfl

theorem build_hex_string_one (b : Nat) : build_hex_string [b] 64 = fmt_02X b := rfl

theorem bits_to_bytes_one (bits : Nat → Nat) :
    bits_to_bytes bits 8 8 = (1, [frame_byte bits]) := by
  have h : bits_to_bytes bits 8 8 = (1, [pack_byte_loop bits 0 8 0 0]) := by
    simp [bits_to_bytes, bits_to_bytes_loop, Int.tdiv]
  simp only [frame_byte, h, List.getD_cons_zero]

/-! ## Shape of the decoder output -/

theorem build_mux_2digit_length (m : MuxState) (now : Int) (old s : String)
    (h : build_mux_2digit m now old 16 = some s) : s.length ≤ 15 := by
  simp only [build_mux_2digit] at h
  split_ifs at h
  simp only [Option.some.injEq] at h
  rw [← h]
  exact snprintf_length _ _ 16 (by norm_num)

theorem decode_digits_shape (bytes : List Nat) (old : String) (m : MuxState) (t1 t2 : Int) :
    (decode_digits bytes 16 old m t1 t2).status ∈ statuses ∧
    (decode_digits bytes 16 old m t1 t2).decoded.length ≤ 15 := by
  simp only [decode_digits]
  repeat' split
  all_goals
    refine ⟨by simp [statuses], ?_⟩
    dsimp only
    first
      | exact snprintf_length _ _ 16 (by norm_num)
      | exact build_mux_2digit_length _ _ _ _ (by assumption)

theorem status_length : ∀ s ∈ statuses, s.length ≤ 23 := by decide

theorem status_ok_iff : ∀ s ∈ statuses,
    (strncmp_eq s "ok(" 3 = true ↔ s = "ok(direct)" ∨ s = "ok(mux)") := by decide

/-! ## Publishing -/

theorem strncpy_status (o : DecodeOut) (h : o.status ∈ statuses) : strncpy o.status 23 = o.status :=
  strncpy_of_short _ _ (status_length _ h)

theorem hex_pair_length (a b : Nat) : (fmt_02X a ++ " " ++ fmt_02X b).length = 5 := rfl

/-- A frame that is not byte-aligned is dropped on entry. -/
theorem handle_frame_dropped (g : Globals) (bits : Nat → Nat) (nbits : Int) (clk : FrameClock)
    (h : nbits < 8 ∨ Int.tmod nbits 8 ≠ 0) : handle_frame g bits nbits clk = g := by
  simp only [handle_frame, h, if_true]

/-- A one-byte frame inside the pairing window of a valid pending byte. -/
theorem handle_frame_paired (g : Globals) (bits : Nat → Nat) (clk : FrameClock)
    (hv : g.prev_single_valid = true)
    (hw : clk.now_us - g.prev_single_ts_us ≤ 20000) :
    (handle_frame g bits 8 clk).last_decoded =
      (if pair_outranks g bits clk then (paired_decode g bits clk).decoded
       else (own_decode g bits clk).decoded) ∧
    (handle_frame g bits 8 clk).last_decode_status =
      (if pair_outranks g bits clk then (paired_decode g bits clk).status
       else (own_decode g bits clk).status) ∧
    (handle_frame g bits 8 clk).last_hex =
      (if pair_outranks g bits clk then
        fmt_02X g.prev_single_byte ++ " " ++ fmt_02X (frame_byte bits)
       else fmt_02X (frame_byte bits)) := by
  have h8 : ¬ ((8 : Int) < 8 ∨ Int.tmod 8 8 ≠ 0) := by decide
  have hcond : g.prev_single_valid = true ∧
      clk.now_us - g.prev_single_ts_us ≤ CROSS_FRAME_PAIR_US := ⟨hv, by simpa [CROSS_FRAME_PAIR_US] using hw⟩
  have hown := decode_digits_shape [frame_byte bits] "" g.mux clk.dec_seen clk.dec_build
  have hpr := decode_digits_shape [g.prev_single_byte, frame_byte bits] ""
    (decode_digits [frame_byte bits] 16 "" g.mux clk.dec_seen clk.dec_build).mux
    clk.pair_seen clk.pair_build
  simp only [handle_frame, h8, if_false, bits_to_bytes_one, List.getD_cons_zero, if_true, hcond,
    and_self, build_hex_string_one, pair_outranks, paired_decode, own_decode]
  by_cases hb : decode_status_rank
      (decode_digits [g.prev_single_byte, frame_byte bits] 16 ""
        (decode_digits [frame_byte bits] 16 "" g.mux clk.dec_seen clk.dec_build).mux
        clk.pair_seen clk.pair_build).status >
      decode_status_rank (decode_digits [frame_byte bits] 16 "" g.mux clk.dec_seen
        clk.dec_build).status
  · simp only [hb, decide_True, if_true]
    refine ⟨?_, ?_, ?_⟩
    · rw [strncpy_of_short _ 15 hpr.2, strncpy_of_short _ 15 hpr.2]
    · rw [strncpy_of_short _ 23 (status_length _ hpr.1)]
    · rw [snprintf_of_short _ _ 64 (by rw [hex_pair_length]; norm_num),
        strncpy_of_short _ 63 (by rw [hex_pair_length]; norm_num)]
  · simp only [hb, decide_False, if_false, Bool.false_eq_true]
    refine ⟨?_, ?_, ?_⟩
    · rw [strncpy_of_short _ 15 hown.2]
    · rw [strncpy_of_short _ 23 (status_length _ hown.1)]
    · rw [strncpy_of_short _ 63 (by rw [fmt_02X_length]; norm_num)]


/-- A one-byte frame with no valid pending byte, or outside its pairing window. -/
theorem handle_frame_unpaired (g : Globals) (bits : Nat → Nat) (clk : FrameClock)
    (h : g.prev_single_valid = false ∨ clk.now_us - g.prev_single_ts_us > 20000) :
    (handle_frame g bits 8 clk).last_decoded = (own_decode g bits clk).decoded ∧
    (handle_frame g bits 8 clk).last_decode_status = (own_decode g bits clk).status ∧
    (handle_frame g bits 8 clk).last_hex = fmt_02X (frame_byte bits) := by
  have h8 : ¬ ((8 : Int) < 8 ∨ Int.tmod 8 8 ≠ 0) := by decide
  have hcond : ¬ (g.prev_single_valid = true ∧
      clk.now_us - g.prev_single_ts_us ≤ CROSS_FRAME_PAIR_US) := by
    simp only [CROSS_FRAME_PAIR_US]
    rintro ⟨h1, h2⟩
    rcases h with h | h
    · rw [h] at h1; exact absurd h1 (by decide)
    · omega
  have hown := decode_digits_shape [frame_byte bits] "" g.mux clk.dec_seen clk.dec_build
  simp only [handle_frame, h8, if_false, bits_to_bytes_one, List.getD_cons_zero, if_true, hcond,
    build_hex_string_one, own_decode]
  refine ⟨?_, ?_, ?_⟩
  · rw [strncpy_of_short _ 15 hown.2]
  · rw [strncpy_of_short _ 23 (status_length _ hown.1)]
  · rw [strncpy_of_short _ 63 (by rw [fmt_02X_length]; norm_num)]

/-- Every one-byte frame becomes the pending byte. -/
theorem handle_frame_one_pending (g : Globals) (bits : Nat → Nat) (clk : FrameClock) :
    (handle_frame g bits 8 clk).prev_single_valid = true ∧
    (handle_frame g bits 8 clk).prev_single_byte = frame_byte bits ∧
    (handle_frame g bits 8 clk).prev_single_ts_us = clk.now_us := by
  have h8 : ¬ ((8 : Int) < 8 ∨ Int.tmod 8 8 ≠ 0) := by decide
  simp only [handle_frame, h8, if_false, bits_to_bytes_one, List.getD_cons_zero, if_true]
  split_ifs <;> exact ⟨rfl, rfl, rfl⟩

/-- A byte-aligned frame of two bytes or more invalidates the pending byte. -/
theorem handle_frame_multi (g : Globals) (bits : Nat → Nat) (nbits : Int) (clk : FrameClock)
    (h16 : 16 ≤ nbits) (hal : Int.tmod nbits 8 = 0) :
    (handle_frame g bits nbits clk).prev_single_valid = false := by
  have hdrop : ¬ (nbits < 8 ∨ Int.tmod nbits 8 ≠ 0) := by
    rintro (h | h)
    · omega
    · exact h hal
  have hdiv : Int.tdiv nbits 8 = nbits / 8 := Int.tdiv_eq_ediv (by omega) (by norm_num)
  have hn : (bits_to_bytes bits nbits 8).1 ≠ 1 := by
    simp only [bits_to_bytes, hdiv]
    split_ifs <;> omega
  simp only [handle_frame, hdrop, if_false, hn]

theorem strncpy_length (s : String) (n : Nat) : (strncpy s n).length ≤ n := by
  show (s.data.take n).length ≤ n
  rw [List.length_take]
  exact Nat.min_le_left _ _

/-- What a byte-aligned frame publishes is well formed: a status text of the
decoder, at most 15 characters of digits, and the clock reading taken last. -/
theorem handle_frame_published (g : Globals) (bits : Nat → Nat) (nbits : Int) (clk : FrameClock)
    (h8 : 8 ≤ nbits) (hal : Int.tmod nbits 8 = 0) :
    (handle_frame g bits nbits clk).last_decode_status ∈ statuses ∧
    (handle_frame g bits nbits clk).last_decoded.length ≤ 15 ∧
    (handle_frame g bits nbits clk).last_frame_us = clk.publish := by
  have hdrop : ¬ (nbits < 8 ∨ Int.tmod nbits 8 ≠ 0) := by
    rintro (h | h)
    · omega
    · exact h hal
  have hst : ∀ o : DecodeOut, o.status ∈ statuses → strncpy o.status 23 ∈ statuses := by
    intro o ho
    rw [strncpy_of_short _ 23 (status_length _ ho)]
    exact ho
  have hsh := fun bytes m t1 t2 => (decode_digits_shape bytes "" m t1 t2).1
  simp only [handle_frame, hdrop, if_false]
  split_ifs <;>
    exact ⟨hst _ (hsh _ _ _ _), strncpy_length _ _, rfl⟩

/-- C12: for a one-byte frame handled while the pending byte is valid and
inside the pairing window, `handle_frame` publishes the decoded text, the
status and the two-byte hex text of the decode of the pending byte followed by
the current byte exactly when that status ranks strictly higher than the
status of the current byte decoded on its own, and otherwise publishes the
decode of the current byte on its own with its one-byte hex text; the ranks
are ok 4, partial(mux) 3, partial(single) 2, partial 1, unknown 0. -/
theorem handle_frame_pairing (g : Globals) (bits : Nat → Nat) (clk : FrameClock)
    (hv : g.prev_single_valid = true)
    (hw : clk.now_us - g.prev_single_ts_us ≤ 20000) :
    (pair_outranks g bits clk →
      (handle_frame g bits 8 clk).last_decoded = (paired_decode g bits clk).decoded ∧
      (handle_frame g bits 8 clk).last_decode_status = (paired_decode g bits clk).status ∧
      (handle_frame g bits 8 clk).last_hex =
        fmt_02X g.prev_single_byte ++ " " ++ fmt_02X (frame_byte bits)) ∧
    (¬ pair_outranks g bits clk →
      (handle_frame g bits 8 clk).last_decoded = (own_decode g bits clk).decoded ∧
      (handle_frame g bits 8 clk).last_decode_status = (own_decode g bits clk).status ∧
      (handle_frame g bits 8 clk).last_hex = fmt_02X (frame_byte bits)) ∧
    (decode_status_rank "ok(direct)" = 4 ∧ decode_status_rank "ok(mux)" = 4 ∧
      decode_status_rank "partial(mux)" = 3 ∧ decode_status_rank "partial(single)" = 2 ∧
      decode_status_rank "partial" = 1 ∧ decode_status_rank "unknown" = 0) := by
  have h := handle_frame_paired g bits clk hv hw
  refine ⟨fun hb => ?_, fun hb => ?_, by decide⟩
  · simpa only [hb, if_true] using h
  · simpa only [hb, if_false] using h

set_option maxRecDepth 100000 in
/-- C12, at concrete frames: with `0x3F` pending since 1000, the frame `0x06`
at 2000 publishes the paired decode `01`, `ok(direct)`, `3F 06`, which outranks
its own `partial(single)`. -/
theorem handle_frame_pairing_witness :
    ((handle_frame pending_3F (bits_of [0, 0, 0, 0, 0, 1, 1, 0]) 8
        (clock_at 2000).frame).last_decoded = "01" ∧
     (handle_frame pending_3F (bits_of [0, 0, 0, 0, 0, 1, 1, 0]) 8
        (clock_at 2000).frame).last_decode_status = "ok(direct)" ∧
     (handle_frame pending_3F (bits_of [0, 0, 0, 0, 0, 1, 1, 0]) 8
        (clock_at 2000).frame).last_hex = "3F 06") :=
  (handle_frame_pairing pending_3F (bits_of [0, 0, 0, 0, 0, 1, 1, 0]) (clock_at 2000).frame
    (by decide) (by decide)).1 (by decide)


/-- C13 (amended): two one-byte frames handled exactly 20 ms (20000 us) apart
are combined, the pairing window includes its boundary: the result published
for the second frame is the paired decode whenever it outranks the decode of
the second byte on its own, as for frames less than 20 ms apart; from 20001 us
on, so at 21 ms, the frames are not combined and the result published is that
of the second byte on its own. -/
theorem pairing_window_boundary (g : Globals) (bits : Nat → Nat) (clk : FrameClock)
    (hv : g.prev_single_valid = true) :
    (clk.now_us - g.prev_single_ts_us = 20000 → pair_outranks g bits clk →
      (handle_frame g bits 8 clk).last_decoded = (paired_decode g bits clk).decoded ∧
      (handle_frame g bits 8 clk).last_decode_status = (paired_decode g bits clk).status ∧
      (handle_frame g bits 8 clk).last_hex =
        fmt_02X g.prev_single_byte ++ " " ++ fmt_02X (frame_byte bits)) ∧
    (clk.now_us - g.prev_single_ts_us > 20000 →
      (handle_frame g bits 8 clk).last_decoded = (own_decode g bits clk).decoded ∧
      (handle_frame g bits 8 clk).last_decode_status = (own_decode g bits clk).status ∧
      (handle_frame g bits 8 clk).last_hex = fmt_02X (frame_byte bits)) := by
  refine ⟨fun hw hb => ?_, fun hw => handle_frame_unpaired g bits clk (Or.inr hw)⟩
  have h := handle_frame_paired g bits clk hv (by omega)
  simpa only [hb, if_true] using h

set_option maxRecDepth 100000 in
/-- C13, at concrete frames: with `0x3F` pending since 1000, the frame `0x06`
handled at 21000 publishes `01`, and handled at 22000 publishes `1?`. -/
theorem pairing_window_boundary_witness :
    ((handle_frame pending_3F (bits_of [0, 0, 0, 0, 0, 1, 1, 0]) 8
        (clock_at 21000).frame).last_decoded = "01" ∧
     (handle_frame pending_3F (bits_of [0, 0, 0, 0, 0, 1, 1, 0]) 8
        (clock_at 21000).frame).last_decode_status = "ok(direct)" ∧
     (handle_frame pending_3F (bits_of [0, 0, 0, 0, 0, 1, 1, 0]) 8
        (clock_at 21000).frame).last_hex = "3F 06") ∧
    ((handle_frame pending_3F (bits_of [0, 0, 0, 0, 0, 1, 1, 0]) 8
        (clock_at 22000).frame).last_decoded = "1?" ∧
     (handle_frame pending_3F (bits_of [0, 0, 0, 0, 0, 1, 1, 0]) 8
        (clock_at 22000).frame).last_decode_status = "partial(single)" ∧
     (handle_frame pending_3F (bits_of [0, 0, 0, 0, 0, 1, 1, 0]) 8
        (clock_at 22000).frame).last_hex = "06") :=
  ⟨(pairing_window_boundary pending_3F (bits_of [0, 0, 0, 0, 0, 1, 1, 0]) (clock_at 21000).frame
      (by decide)).1 (by decide) (by decide),
   (pairing_window_boundary pending_3F (bits_of [0, 0, 0, 0, 0, 1, 1, 0]) (clock_at 22000).frame
      (by decide)).2 (by decide)⟩

set_option maxRecDepth 100000 in
/-- C13 as stated fails: with `0x3F` pending since 1000, the frame `0x06`
handled at 21000, exactly 20000 us later, is combined with it: `01` and
`ok(direct)` are published, not the `1?` and `partial(single)` of its own
decode that are published at 22000. -/
theorem pairing_window_boundary_counterexample :
    pending_3F.prev_single_valid = true ∧ (21000 : Int) - pending_3F.prev_single_ts_us = 20000 ∧
    (handle_frame pending_3F (bits_of [0, 0, 0, 0, 0, 1, 1, 0]) 8
      (clock_at 21000).frame).last_decoded = "01" ∧
    (handle_frame pending_3F (bits_of [0, 0, 0, 0, 0, 1, 1, 0]) 8
      (clock_at 21000).frame).last_decode_status = "ok(direct)" ∧
    (own_decode pending_3F (bits_of [0, 0, 0, 0, 0, 1, 1, 0]) (clock_at 21000).frame).decoded =
      "1?" ∧
    (handle_frame pending_3F (bits_of [0, 0, 0, 0, 0, 1, 1, 0]) 8
      (clock_at 22000).frame).last_decoded = "1?" := by
  decide

/-- C14 (amended): after `handle_frame` is given a byte-aligned frame of two
bytes or more (16 bits or more, a multiple of 8) the pending single byte is
invalid, so the next one-byte frame is not paired with a byte that arrived
before that frame, whatever the clock: its own decode is published. A frame
that is not byte-aligned (fewer than 8 bits, or not a multiple of 8) is dropped
on entry and leaves the pending byte and everything else as it was. -/
theorem pending_invalidated (g : Globals) (bits : Nat → Nat) (nbits : Int) (clk : FrameClock) :
    (16 ≤ nbits → Int.tmod nbits 8 = 0 →
      (handle_frame g bits nbits clk).prev_single_valid = false ∧
      ∀ (bits2 : Nat → Nat) (clk2 : FrameClock),
        (handle_frame (handle_frame g bits nbits clk) bits2 8 clk2).last_decoded =
          (own_decode (handle_frame g bits nbits clk) bits2 clk2).decoded ∧
        (handle_frame (handle_frame g bits nbits clk) bits2 8 clk2).last_decode_status =
          (own_decode (handle_frame g bits nbits clk) bits2 clk2).status ∧
        (handle_frame (handle_frame g bits nbits clk) bits2 8 clk2).last_hex =
          fmt_02X (frame_byte bits2)) ∧
    (nbits < 8 ∨ Int.tmod nbits 8 ≠ 0 → handle_frame g bits nbits clk = g) := by
  refine ⟨fun h16 hal => ?_, handle_frame_dropped g bits nbits clk⟩
  have h := handle_frame_multi g bits nbits clk h16 hal
  exact ⟨h, fun bits2 clk2 => handle_frame_unpaired _ bits2 clk2 (Or.inl h)⟩

set_option maxRecDepth 100000 in
/-- C14, at concrete frames: with `0x3F` pending since 1000, the two-byte frame
`0x3F 0x06` at 2000 invalidates it, and the frame `0x06` at 3000 then
publishes its own `1?`. -/
theorem pending_invalidated_witness :
    (handle_frame pending_3F (bits_of [0, 0, 1, 1, 1, 1, 1, 1, 0, 0, 0, 0, 0, 1, 1, 0]) 16
      (clock_at 2000).frame).prev_single_valid = false ∧
    (handle_frame
      (handle_frame pending_3F (bits_of [0, 0, 1, 1, 1, 1, 1, 1, 0, 0, 0, 0, 0, 1, 1, 0]) 16
        (clock_at 2000).frame)
      (bits_of [0, 0, 0, 0, 0, 1, 1, 0]) 8 (clock_at 3000).frame).last_decoded = "1?" :=
  have h := (pending_invalidated pending_3F
    (bits_of [0, 0, 1, 1, 1, 1, 1, 1, 0, 0, 0, 0, 0, 1, 1, 0]) 16 (clock_at 2000).frame).1
    (by decide) (by decide)
  ⟨h.1, (h.2 (bits_of [0, 0, 0, 0, 0, 1, 1, 0]) (clock_at 3000).frame).1⟩

set_option maxRecDepth 100000 in
/-- C14 as stated fails: with `0x3F` pending since 1000, a 7-bit frame at 2000
leaves the pending byte valid, and the frame `0x06` at 3000 is paired with the
byte that arrived before the 7-bit frame: `01` and `ok(direct)` are published. -/
theorem pending_invalidated_counterexample :
    pending_3F.prev_single_valid = true ∧
    (handle_frame pending_3F (bits_of [1, 0, 1, 0, 1, 0, 1]) 7
      (clock_at 2000).frame).prev_single_valid = true ∧
    (handle_frame
      (handle_frame pending_3F (bits_of [1, 0, 1, 0, 1, 0, 1]) 7 (clock_at 2000).frame)
      (bits_of [0, 0, 0, 0, 0, 1, 1, 0]) 8 (clock_at 3000).frame).last_decoded = "01" ∧
    (handle_frame
      (handle_frame pending_3F (bits_of [1, 0, 1, 0, 1, 0, 1]) 7 (clock_at 2000).frame)
      (bits_of [0, 0, 0, 0, 0, 1, 1, 0]) 8 (clock_at 3000).frame).last_decode_status =
      "ok(direct)" ∧
    (handle_frame
      (handle_frame pending_3F (bits_of [1, 0, 1, 0, 1, 0, 1]) 7 (clock_at 2000).frame)
      (bits_of [0, 0, 0, 0, 0, 1, 1, 0]) 8 (clock_at 3000).frame).last_hex = "3F 06" := by
  decide

/-- C18: for a snapshot published by `handle_frame` at a positive clock value
`t` and a query at clock value `now`, `build_decoded_reply` returns the
published digits exactly when the published status is `ok(direct)` or
`ok(mux)` and `now - t <= 15 s`, and returns `unknown` in every other case. -/
theorem build_decoded_reply_spec (g : Globals) (bits : Nat → Nat) (nbits : Int)
    (clk : FrameClock) (now : Int) (old : String)
    (h8 : 8 ≤ nbits) (hal : Int.tmod nbits 8 = 0) (ht : 0 < clk.publish) :
    (handle_frame g bits nbits clk).last_frame_us = clk.publish ∧
    (((handle_frame g bits nbits clk).last_decode_status = "ok(direct)" ∨
        (handle_frame g bits nbits clk).last_decode_status = "ok(mux)") →
      now - clk.publish ≤ 15000000 →
      build_decoded_reply (handle_frame g bits nbits clk) now old 96 =
        (handle_frame g bits nbits clk).last_decoded) ∧
    (¬ (((handle_frame g bits nbits clk).last_decode_status = "ok(direct)" ∨
        (handle_frame g bits nbits clk).last_decode_status = "ok(mux)") ∧
      now - clk.publish ≤ 15000000) →
      build_decoded_reply (handle_frame g bits nbits clk) now old 96 = "unknown") := by
  have hp := handle_frame_published g bits nbits clk h8 hal
  have hs := strncpy_of_short _ 23 (status_length _ hp.1)
  have hd := strncpy_of_short _ 15 hp.2.1
  have hok := status_ok_iff _ hp.1
  refine ⟨hp.2.2, fun h1 h2 => ?_, fun h => ?_⟩
  · have hc : (handle_frame g bits nbits clk).last_frame_us > 0 ∧
        now - (handle_frame g bits nbits clk).last_frame_us ≤ STATUS_STALE_US ∧
        strncmp_eq (strncpy (handle_frame g bits nbits clk).last_decode_status 23) "ok(" 3 =
          true := by
      rw [hs, hp.2.2]
      exact ⟨ht, by simpa [STATUS_STALE_US] using h2, hok.mpr h1⟩
    simp only [build_decoded_reply, hc, and_self, if_true, hd]
    exact snprintf_of_short _ _ 96 (by have := hp.2.1; omega)
  · have hc : ¬ ((handle_frame g bits nbits clk).last_frame_us > 0 ∧
        now - (handle_frame g bits nbits clk).last_frame_us ≤ STATUS_STALE_US ∧
        strncmp_eq (strncpy (handle_frame g bits nbits clk).last_decode_status 23) "ok(" 3 =
          true) := by
      rw [hs, hp.2.2]
      rintro ⟨_, h2, h3⟩
      exact h ⟨hok.mp h3, by simpa [STATUS_STALE_US] using h2⟩
    simp only [build_decoded_reply, hc, if_false]
    exact snprintf_of_short _ _ 96 (by decide)

set_option maxRecDepth 100000 in
/-- C18, at the staleness boundary: the frame `0x3F 0x06` published at 1000
as `01`, `ok(direct)` is reported as `01` 14.9 s and exactly 15 s later and as
`unknown` 15.1 s later; a `partial(single)` snapshot is reported as `unknown`
at once. -/
theorem build_decoded_reply_spec_witness :
    build_decoded_reply
      (handle_frame globals_init (bits_of [0, 0, 1, 1, 1, 1, 1, 1, 0, 0, 0, 0, 0, 1, 1, 0]) 16
        (clock_at 1000).frame) 14901000 "" 96 = "01" ∧
    build_decoded_reply
      (handle_frame globals_init (bits_of [0, 0, 1, 1, 1, 1, 1, 1, 0, 0, 0, 0, 0, 1, 1, 0]) 16
        (clock_at 1000).frame) 15001000 "" 96 = "01" ∧
    build_decoded_reply
      (handle_frame globals_init (bits_of [0, 0, 1, 1, 1, 1, 1, 1, 0, 0, 0, 0, 0, 1, 1, 0]) 16
        (clock_at 1000).frame) 15101000 "" 96 = "unknown" ∧
    build_decoded_reply pending_3F 1001 "" 96 = "unknown" :=
  ⟨(build_decoded_reply_spec globals_init
      (bits_of [0, 0, 1, 1, 1, 1, 1, 1, 0, 0, 0, 0, 0, 1, 1, 0]) 16 (clock_at 1000).frame
      14901000 "" (by decide) (by decide) (by decide)).2.1 (Or.inl (by decide)) (by decide),
   (build_decoded_reply_spec globals_init
      (bits_of [0, 0, 1, 1, 1, 1, 1, 1, 0, 0, 0, 0, 0, 1, 1, 0]) 16 (clock_at 1000).frame
      15001000 "" (by decide) (by decide) (by decide)).2.1 (Or.inl (by decide)) (by decide),
   (build_decoded_reply_spec globals_init
      (bits_of [0, 0, 1, 1, 1, 1, 1, 1, 0, 0, 0, 0, 0, 1, 1, 0]) 16 (clock_at 1000).frame
      15101000 "" (by decide) (by decide) (by decide)).2.2 (by decide),
   (build_decoded_reply_spec globals_init (bits_of [0, 0, 1, 1, 1, 1, 1, 1]) 8
      (clock_at 1000).frame 1001 "" (by decide) (by decide) (by decide)).2.2 (by decide)⟩

/-! ## Cycle aggregation in the loop -/

theorem event_delta_pos (st : SnifferState) (ts_us : Int) (h : 0 < event_delta st ts_us) :
    0 < st.last_ts ∧ event_delta st ts_us = ts_us - st.last_ts := by
  unfold event_delta at h ⊢
  split_ifs at h ⊢ with hl
  · exact ⟨hl, rfl⟩
  · omega

/-- A quiet run of events leaves the cycle state and the cycle log alone. -/
theorem sniffer_events_quiet_cycle (G : Int) :
    ∀ (es : List (Nat × Int × StepClock)) (st : SnifferState),
      0 ≤ st.nbits → st.nbits + es.length ≤ 64 → quiet_events G st es = true →
      (sniffer_events G st es).cycle = st.cycle ∧
      (sniffer_events G st es).cycles = st.cycles := by
  intro es
  induction es with
  | nil => intro st _ _ _; exact ⟨rfl, rfl⟩
  | cons e es ih =>
    intro st h0 hroom hq
    obtain ⟨bit, ts_us, clk⟩ := e
    simp only [quiet_events, Bool.and_eq_true, Bool.not_eq_true'] at hq
    simp only [List.length_cons, Nat.cast_add, Nat.cast_one] at hroom
    have hstep := sniffer_event_append G st bit ts_us clk (by omega) (fun _ => hq.1)
    have ih' := ih (sniffer_event G st bit ts_us clk) (by rw [hstep]; simp; omega)
      (by rw [hstep]; simp; omega) hq.2
    simp only [sniffer_events]
    rw [hstep] at ih' ⊢
    exact ih'

/-- The gap flush of an 8-bit frame: the frame becomes a subframe of the cycle
with the kind of the gap that ended it; a long gap then hands the cycle over
and resets it. -/
theorem sniffer_event_flush_cycle (G : Int) (st : SnifferState) (bit : Nat) (ts_us : Int)
    (clk : StepClock) (h8 : st.nbits = 8) (hlast : 0 < st.last_ts)
    (hx : gap_exceeded G st ts_us clk = true) :
    (classify_gap_kind (ts_us - st.last_ts) ≠ gap_kind_t.GAP_LONG →
      (sniffer_event G st bit ts_us clk).cycle =
        cycle_add_subframe st.cycle [frame_byte st.bits]
          (classify_gap_kind (ts_us - st.last_ts)) st.last_ts ∧
      (sniffer_event G st bit ts_us clk).cycles = st.cycles) ∧
    (classify_gap_kind (ts_us - st.last_ts) = gap_kind_t.GAP_LONG →
      (sniffer_event G st bit ts_us clk).cycle = cycle_reset ∧
      (sniffer_event G st bit ts_us clk).cycles =
        st.cycles ++ [cycle_add_subframe st.cycle [frame_byte st.bits]
          gap_kind_t.GAP_LONG st.last_ts]) := by
  have hyes : st.nbits > 0 ∧ ts_us - st.last_ts > (event_gap G st ts_us clk).2.1 := by
    refine ⟨by omega, ?_⟩
    simpa [gap_exceeded] using hx
  have h0 : (0 : Int) < (MAX_FRAME_BITS : Int) := by simp [MAX_FRAME_BITS]
  have hk : (event_gap G st ts_us clk).2.2 = classify_gap_kind (ts_us - st.last_ts) := by
    rw [event_gap_of_seen G st ts_us clk hlast]
  have hmod : Int.tmod (8 : Int) 8 = 0 := by decide
  simp only [sniffer_event, hyes, and_self, if_true, h0, hk]
  constructor
  · intro hne
    simp only [hne, if_false, flush_frame, h8, hmod, if_true, bits_to_bytes_one]
    constructor <;> first | rfl | trivial
  · intro he
    simp only [he, if_true, flush_cycle, flush_frame, h8, hmod, bits_to_bytes_one]
    constructor <;> first | rfl | trivial


theorem start_frame (G : Int) (st : SnifferState) (b : Nat) (t : Int) (c : StepClock)
    (h0 : st.nbits = 0) :
    (sniffer_event G st b t c).nbits = 1 ∧ (sniffer_event G st b t c).cycle = st.cycle ∧
    (sniffer_event G st b t c).cycles = st.cycles := by
  rw [sniffer_event_append G st b t c (by omega) (fun h => by omega)]
  exact ⟨by simp [h0], rfl, rfl⟩

theorem quiet_frame (G : Int) (s : SnifferState) (es : List (Nat × Int × StepClock))
    (h1 : s.nbits = 1) (hl : es.length = 7) (hq : quiet_events G s es = true) :
    (sniffer_events G s es).nbits = 8 ∧ (sniffer_events G s es).cycle = s.cycle ∧
    (sniffer_events G s es).cycles = s.cycles := by
  have ha := sniffer_events_quiet G es s (by omega) (by rw [h1, hl]; norm_num) hq
  have hb := sniffer_events_quiet_cycle G es s (by omega) (by rw [h1, hl]; norm_num) hq
  refine ⟨?_, hb.1, hb.2⟩
  rw [ha.2.1, h1, hl]
  norm_num

theorem gap_flush_short (G : Int) (s : SnifferState) (b : Nat) (t : Int) (c : StepClock)
    (h8 : s.nbits = 8) (hlast : 0 < s.last_ts) (hx : gap_exceeded G s t c = true)
    (hlo : 6000 ≤ t - s.last_ts) (hhi : t - s.last_ts < 11000) :
    (sniffer_event G s b t c).nbits = 1 ∧
    (sniffer_event G s b t c).cycle =
      cycle_add_subframe s.cycle [frame_byte s.bits] gap_kind_t.GAP_SHORT s.last_ts ∧
    (sniffer_event G s b t c).cycles = s.cycles := by
  have hk : classify_gap_kind (t - s.last_ts) = gap_kind_t.GAP_SHORT := by
    simp only [classify_gap_kind, PAUSE_LONG_US, PAUSE_MID_US, PAUSE_SHORT_US]
    have h1 : ¬ t - s.last_ts ≥ 18000 := by omega
    have h2 : ¬ t - s.last_ts ≥ 11000 := by omega
    have h3 : t - s.last_ts ≥ 6000 := by omega
    simp only [h1, h2, h3, if_false, if_true]
  have hf := sniffer_event_flush G s b t c (by omega) hx
  have hc := (sniffer_event_flush_cycle G s b t c h8 hlast hx).1 (by rw [hk]; decide)
  rw [hk] at hc
  exact ⟨hf.2.1, hc.1, hc.2⟩

theorem gap_flush_long (G : Int) (s : SnifferState) (b : Nat) (t : Int) (c : StepClock)
    (h8 : s.nbits = 8) (hlast : 0 < s.last_ts) (hx : gap_exceeded G s t c = true)
    (hlo : 18000 ≤ t - s.last_ts) :
    (sniffer_event G s b t c).cycle = cycle_reset ∧
    (sniffer_event G s b t c).cycles =
      s.cycles ++ [cycle_add_subframe s.cycle [frame_byte s.bits] gap_kind_t.GAP_LONG
        s.last_ts] := by
  have hk : classify_gap_kind (t - s.last_ts) = gap_kind_t.GAP_LONG := by
    simp only [classify_gap_kind, PAUSE_LONG_US]
    have h1 : t - s.last_ts ≥ 18000 := by omega
    simp only [h1, if_true]
  exact (sniffer_event_flush_cycle G s b t c h8 hlast hx).2 hk

theorem sniffer_events_cons (G : Int) (st : SnifferState) (b : Nat) (t : Int) (c : StepClock)
    (es : List (Nat × Int × StepClock)) :
    sniffer_events G st ((b, t, c) :: es) = sniffer_events G (sniffer_event G st b t c) es :=
  rfl

theorem sniffer_events_nil (G : Int) (st : SnifferState) : sniffer_events G st [] = st := rfl

theorem sniffer_events_snoc (G : Int) (st : SnifferState) (es : List (Nat × Int × StepClock))
    (b : Nat) (t : Int) (c : StepClock) :
    sniffer_events G st (es ++ [(b, t, c)]) = sniffer_event G (sniffer_events G st es) b t c := by
  rw [sniffer_events_append]
  rfl

/-! ## Hand-over of frames on the program state -/

theorem bits_of_array_first (bits : Nat → Nat) (n : Nat) (F : List Nat)
    (h : array_first bits n = F) : ∀ i, i < n → bits i = bits_of F i := by
  intro i hi
  subst h
  simp [bits_of, array_first, hi]

theorem build_raw_string_congr (bits bits' : Nat → Nat) (nbits : Int) (old : String)
    (len : Nat) (h : ∀ i : Nat, (i : Int) < nbits → bits i = bits' i) :
    build_raw_string bits nbits old len = build_raw_string bits' nbits old len := by
  simp only [build_raw_string]
  split_ifs with h1 h2
  · rfl
  · congr 2
    apply array_first_congr
    intro i hi
    exact h i (by omega)
  · congr 2
    apply array_first_congr
    intro i hi
    exact h i (by omega)

theorem bits_to_bytes_congr (bits bits' : Nat → Nat) (nbits : Int) (hn : 0 ≤ nbits)
    (h : ∀ i : Nat, (i : Int) < nbits → bits i = bits' i) :
    bits_to_bytes bits nbits 8 = bits_to_bytes bits' nbits 8 := by
  simp only [bits_to_bytes]
  congr 1
  apply bits_to_bytes_loop_congr
  intro j _ hj
  apply h
  rw [Int.tdiv_eq_ediv hn (by norm_num)] at hj
  split_ifs at hj with h1
  · simp at hj
    omega
  · omega

theorem handle_frame_congr (g : Globals) (bits bits' : Nat → Nat) (nbits : Int)
    (clk : FrameClock) (h : ∀ i : Nat, (i : Int) < nbits → bits i = bits' i) :
    handle_frame g bits nbits clk = handle_frame g bits' nbits clk := by
  by_cases hd : nbits < 8 ∨ Int.tmod nbits 8 ≠ 0
  · rw [handle_frame_dropped g bits nbits clk hd, handle_frame_dropped g bits' nbits clk hd]
  · have hn : 0 ≤ nbits := by omega
    simp only [handle_frame, build_raw_string_congr bits bits' nbits "" 96 h,
      bits_to_bytes_congr bits bits' nbits hn h]

theorem tmod_length (n : Nat) : (Int.tmod (n : Int) 8 = 0) ↔ (n % 8 = 0) := by
  rw [Int.tmod_eq_emod (by omega) (by norm_num)]
  omega

/-- The frame part of a hand-over, read off the buffer. -/
theorem handle_frame_of_buffer (s : SnifferState) (F : List Nat) (clk : FrameClock)
    (hn : s.nbits = F.length) (hF : array_first s.bits F.length = F) :
    handle_frame s.g s.bits s.nbits clk = handle_frame s.g (bits_of F) F.length clk ∧
    bits_to_bytes s.bits s.nbits 8 = bits_to_bytes (bits_of F) F.length 8 := by
  have hb := bits_of_array_first s.bits F.length F hF
  rw [hn]
  exact ⟨handle_frame_congr _ _ _ _ _ (fun i hi => hb i (by omega)),
    bits_to_bytes_congr _ _ _ (by omega) (fun i hi => hb i (by omega))⟩

/-- A bit event that triggers the gap flush hands the frame in the buffer
over. -/
theorem sniffer_event_hands_over (G : Int) (s : SnifferState) (F : List Nat) (bit : Nat)
    (ts_us : Int) (clk : StepClock) (hpos : 0 < s.nbits) (hn : s.nbits = F.length)
    (hF : array_first s.bits F.length = F) (hx : gap_exceeded G s ts_us clk = true) :
    ((sniffer_event G s bit ts_us clk).g, (sniffer_event G s bit ts_us clk).cycle) =
      handed_over G s F (Input.event bit ts_us) clk := by
  have hyes : s.nbits > 0 ∧ ts_us - s.last_ts > (event_gap G s ts_us clk).2.1 := by
    refine ⟨hpos, ?_⟩
    simpa [gap_exceeded] using hx
  have h0 : (0 : Int) < (MAX_FRAME_BITS : Int) := by simp [MAX_FRAME_BITS]
  have hb := handle_frame_of_buffer s F clk.frame hn hF
  have hm : (Int.tmod s.nbits 8 = 0) ↔ (F.length % 8 = 0) := by rw [hn]; exact tmod_length _
  simp only [sniffer_event, hyes, and_self, if_true, h0, handed_over, flush_kind, ends_cycle,
    cycle_decoded]
  by_cases hk : (event_gap G s ts_us clk).2.2 = gap_kind_t.GAP_LONG
  · by_cases h8 : F.length % 8 = 0
    · simp [hk, flush_cycle, flush_frame, hb.1, hb.2, hm, h8]
    · simp [hk, flush_cycle, flush_frame, hb.1, hm, h8]
  · by_cases h8 : F.length % 8 = 0
    · simp [hk, flush_frame, hb.1, hb.2, hm, h8]
    · simp [hk, flush_frame, hb.1, hm, h8]

/-- A receive timeout that finds the idle time above the effective gap hands
the frame in the buffer over. -/
theorem sniffer_timeout_hands_over (G : Int) (s : SnifferState) (F : List Nat)
    (clk : StepClock) (hpos : 0 < s.nbits) (hn : s.nbits = F.length)
    (hF : array_first s.bits F.length = F)
    (hx : forces_flush G s Input.timeout clk = true) :
    ((sniffer_timeout G s clk).g, (sniffer_timeout G s clk).cycle) =
      handed_over G s F Input.timeout clk ∧
    (sniffer_timeout G s clk).frames = s.frames ++ [F] ∧
    (sniffer_timeout G s clk).nbits = 0 ∧
    (sniffer_timeout G s clk).bits = s.bits := by
  have hpos' : s.nbits > 0 := hpos
  have hx' : clk.idle_now - s.last_ts > effective_gap_us_from_timing G s.t := by
    simpa [forces_flush] using hx
  have hb := handle_frame_of_buffer s F clk.frame hn hF
  have hm : (Int.tmod s.nbits 8 = 0) ↔ (F.length % 8 = 0) := by rw [hn]; exact tmod_length _
  have hf : array_first s.bits s.nbits.toNat = F := by rw [hn]; simpa using hF
  simp only [sniffer_timeout, hpos', if_true, hx', handed_over, flush_kind, ends_cycle,
    cycle_decoded]
  by_cases hk : clk.idle_now - s.last_ts > PAUSE_LONG_US
  · by_cases h8 : F.length % 8 = 0
    · simp [hk, flush_cycle, flush_frame, hb.1, hb.2, hm, h8, hf]
    · simp [hk, flush_cycle, flush_frame, hb.1, hm, h8, hf]
  · by_cases h8 : F.length % 8 = 0
    · simp [hk, flush_frame, hb.1, hb.2, hm, h8, hf]
    · simp [hk, flush_frame, hb.1, hm, h8, hf]

theorem sniffer_run_append (G : Int) :
    ∀ (xs ys : List (Input × StepClock)) (st : SnifferState),
      sniffer_run G st (xs ++ ys) = sniffer_run G (sniffer_run G st xs) ys := by
  intro xs
  induction xs with
  | nil => intro ys st; rfl
  | cons x xs ih =>
    intro ys st
    obtain ⟨inp, clk⟩ := x
    simp only [List.cons_append, sniffer_run]
    exact ih ys _

theorem timeouts_append (a b : List StepClock) : timeouts (a ++ b) = timeouts a ++ timeouts b := by
  simp [timeouts]

theorem timeouts_cons (c : StepClock) (cs : List StepClock) :
    timeouts (c :: cs) = (Input.timeout, c) :: timeouts cs := rfl

/-- A quiet run of events leaves the static variables and the cycle state
alone. -/
theorem sniffer_events_quiet_g (G : Int) :
    ∀ (es : List (Nat × Int × StepClock)) (st : SnifferState),
      0 ≤ st.nbits → st.nbits + es.length ≤ 64 → quiet_events G st es = true →
      (sniffer_events G st es).g = st.g ∧ (sniffer_events G st es).cycle = st.cycle := by
  intro es
  induction es with
  | nil => intro st _ _ _; exact ⟨rfl, rfl⟩
  | cons e es ih =>
    intro st h0 hroom hq
    obtain ⟨bit, ts_us, clk⟩ := e
    simp only [quiet_events, Bool.and_eq_true, Bool.not_eq_true'] at hq
    simp only [List.length_cons, Nat.cast_add, Nat.cast_one] at hroom
    have hstep := sniffer_event_append G st bit ts_us clk (by omega) (fun _ => hq.1)
    have ih' := ih (sniffer_event G st bit ts_us clk) (by rw [hstep]; simp; omega)
      (by rw [hstep]; simp; omega) hq.2
    simp only [sniffer_events]
    rw [hstep] at ih' ⊢
    exact ih'

/-- The first event on an empty buffer and a following quiet run leave the
static variables and the cycle state alone. -/
theorem sniffer_events_first_quiet_g (G : Int) (st : SnifferState) (b1 : Nat) (t1 : Int)
    (c1 : StepClock) (es : List (Nat × Int × StepClock))
    (h0 : st.nbits = 0) (hroom : es.length ≤ 63)
    (hq : quiet_events G (sniffer_event G st b1 t1 c1) es = true) :
    (sniffer_events G st ((b1, t1, c1) :: es)).g = st.g ∧
    (sniffer_events G st ((b1, t1, c1) :: es)).cycle = st.cycle := by
  have hstep := sniffer_event_append G st b1 t1 c1 (by omega) (fun h => by omega)
  have h := sniffer_events_quiet_g G es (sniffer_event G st b1 t1 c1)
    (by rw [hstep]; simp; omega) (by rw [hstep]; simp; omega) hq
  simp only [sniffer_events]
  rw [hstep] at h ⊢
  exact h

/-- The flush tests read the timestamp of the last event and the timing state
only. -/
theorem forces_flush_congr (G : Int) (s s' : SnifferState) (inp : Input) (clk : StepClock)
    (hl : s'.last_ts = s.last_ts) (ht : s'.t = s.t) :
    forces_flush G s' inp clk = forces_flush G s inp clk := by
  cases inp with
  | event bit ts_us => simp only [forces_flush, gap_exceeded, event_gap, hl, ht]
  | timeout => simp only [forces_flush, hl, ht]

theorem gap_exceeded_congr (G : Int) (s s' : SnifferState) (ts_us : Int) (clk : StepClock)
    (hl : s'.last_ts = s.last_ts) (ht : s'.t = s.t) :
    gap_exceeded G s' ts_us clk = gap_exceeded G s ts_us clk := by
  simp only [gap_exceeded, event_gap, hl, ht]

theorem globals_but_mux_trans (a b c : Globals) (h1 : a = { b with mux := a.mux })
    (h2 : b = { c with mux := b.mux }) : a = { c with mux := a.mux } := by
  cases a
  cases b
  cases c
  simp only [Globals.mk.injEq, true_and] at h1 h2 ⊢
  simp only [h1, h2, and_self]

/-- A receive timeout that does not find the idle time above the effective gap
leaves the frame in progress and publishes nothing. -/
theorem sniffer_timeout_quiet (G : Int) (s : SnifferState) (clk : StepClock)
    (hx : forces_flush G s Input.timeout clk = false) :
    (sniffer_timeout G s clk).bits = s.bits ∧ (sniffer_timeout G s clk).nbits = s.nbits ∧
    (sniffer_timeout G s clk).last_ts = s.last_ts ∧ (sniffer_timeout G s clk).t = s.t ∧
    (sniffer_timeout G s clk).frames = s.frames ∧
    (sniffer_timeout G s clk).g = { s.g with mux := (sniffer_timeout G s clk).g.mux } := by
  have hx' : ¬ clk.idle_now - s.last_ts > effective_gap_us_from_timing G s.t := by
    simpa [forces_flush] using hx
  simp only [sniffer_timeout, hx', if_false]
  split_ifs <;> simp [flush_cycle]

theorem sniffer_run_quiet_timeouts (G : Int) :
    ∀ (qs : List StepClock) (s : SnifferState),
      (∀ q ∈ qs, forces_flush G s Input.timeout q = false) →
      (sniffer_run G s (timeouts qs)).bits = s.bits ∧
      (sniffer_run G s (timeouts qs)).nbits = s.nbits ∧
      (sniffer_run G s (timeouts qs)).last_ts = s.last_ts ∧
      (sniffer_run G s (timeouts qs)).t = s.t ∧
      (sniffer_run G s (timeouts qs)).frames = s.frames ∧
      (sniffer_run G s (timeouts qs)).g =
        { s.g with mux := (sniffer_run G s (timeouts qs)).g.mux } := by
  intro qs
  induction qs with
  | nil => intro s _; exact ⟨rfl, rfl, rfl, rfl, rfl, rfl⟩
  | cons q qs ih =>
    intro s h
    have h1 := sniffer_timeout_quiet G s q (h q (List.mem_cons_self _ _))
    have h2 := ih (sniffer_timeout G s q) (fun r hr => by
      rw [forces_flush_congr G s _ Input.timeout r h1.2.2.1 h1.2.2.2.1]
      exact h r (List.mem_cons_of_mem _ hr))
    simp only [timeouts_cons, sniffer_run, sniffer_step]
    exact ⟨h2.1.trans h1.1, h2.2.1.trans h1.2.1, h2.2.2.1.trans h1.2.2.1,
      h2.2.2.2.1.trans h1.2.2.2.1, h2.2.2.2.2.1.trans h1.2.2.2.2.1,
      globals_but_mux_trans _ _ _ h2.2.2.2.2.2 h1.2.2.2.2.2⟩

/-- Receive timeouts do nothing while no frame is in progress. -/
theorem sniffer_run_idle_timeouts (G : Int) :
    ∀ (ps : List StepClock) (s : SnifferState), s.nbits = 0 →
      sniffer_run G s (timeouts ps) = s := by
  intro ps
  induction ps with
  | nil => intro s _; rfl
  | cons p ps ih =>
    intro s h
    have h1 : sniffer_timeout G s p = s := by
      simp [sniffer_timeout, h]
    simp only [timeouts_cons, sniffer_run, sniffer_step, h1]
    exact ih s h

theorem find_none_takeWhile {α : Type} (p : α → Bool) :
    ∀ l : List α, l.find? p = none → l.takeWhile (fun c => !p c) = l := by
  intro l
  induction l with
  | nil => intro _; rfl
  | cons a l ih =>
    intro h
    simp only [List.find?_cons] at h
    cases hp : p a with
    | true => simp [hp] at h
    | false =>
      simp only [hp] at h
      simp [List.takeWhile_cons, hp, ih h]

theorem find_some_takeWhile {α : Type} (p : α → Bool) (c : α) :
    ∀ l : List α, l.find? p = some c →
      p c = true ∧ ∃ rest, l = l.takeWhile (fun c => !p c) ++ c :: rest := by
  intro l
  induction l with
  | nil => intro h; simp at h
  | cons a l ih =>
    intro h
    simp only [List.find?_cons] at h
    cases hp : p a with
    | true =>
      simp only [hp, Option.some.injEq] at h
      subst h
      exact ⟨hp, l, by simp [List.takeWhile_cons, hp]⟩
    | false =>
      simp only [hp] at h
      obtain ⟨h1, rest, h2⟩ := ih h
      refine ⟨h1, rest, ?_⟩
      simp only [List.takeWhile_cons, hp, Bool.not_false, if_true, List.cons_append]
      rw [← h2]

theorem takeWhile_not_false {α : Type} (p : α → Bool) (l : List α) :
    ∀ q ∈ l.takeWhile (fun c => !p c), p q = false := by
  intro q hq
  have := List.mem_takeWhile_imp hq
  simpa using this

theorem cycle_decoded_reset (g : Globals) (clk : StepClock) :
    cycle_decoded g cycle_reset clk = g := by
  simp [cycle_decoded, handle_cycle_decode, cycle_reset]

/-- A receive timeout that does not find the idle time above the effective gap,
with a frame in progress: the cycle is decoded and reset when the idle time is
above `PAUSE_LONG_US`, and nothing else changes. -/
theorem sniffer_timeout_quiet_state (G : Int) (s : SnifferState) (clk : StepClock)
    (hpos : 0 < s.nbits) (hx : forces_flush G s Input.timeout clk = false) :
    ((sniffer_timeout G s clk).g, (sniffer_timeout G s clk).cycle) =
      if clk.idle_now - s.last_ts > PAUSE_LONG_US then
        (cycle_decoded s.g s.cycle clk, cycle_reset)
      else (s.g, s.cycle) := by
  have hpos' : s.nbits > 0 := hpos
  have hx' : ¬ clk.idle_now - s.last_ts > effective_gap_us_from_timing G s.t := by
    simpa [forces_flush] using hx
  simp only [sniffer_timeout, hpos', hx', if_false, if_true]
  split_ifs <;> simp [flush_cycle, cycle_decoded]

/-- Receive timeouts that do not find the idle time above the effective gap,
with a frame in progress: the first one that finds the idle time above
`PAUSE_LONG_US` decodes and resets the cycle, and nothing else is written to
the static variables and to the cycle state. -/
theorem sniffer_run_quiet_timeouts_state (G : Int) :
    ∀ (qs : List StepClock) (s : SnifferState), 0 < s.nbits →
      (∀ q ∈ qs, forces_flush G s Input.timeout q = false) →
      ((sniffer_run G s (timeouts qs)).g, (sniffer_run G s (timeouts qs)).cycle) =
        match first_long_idle s qs with
        | some c => (cycle_decoded s.g s.cycle c, cycle_reset)
        | none => (s.g, s.cycle) := by
  intro qs
  induction qs with
  | nil => intro s _ _; rfl
  | cons q qs ih =>
    intro s hpos h
    have hq := h q (List.mem_cons_self _ _)
    have h1 := sniffer_timeout_quiet G s q hq
    have h2 := sniffer_timeout_quiet_state G s q hpos hq
    have h3 := ih (sniffer_timeout G s q) (by rw [h1.2.1]; exact hpos) (fun r hr => by
      rw [forces_flush_congr G s _ Input.timeout r h1.2.2.1 h1.2.2.2.1]
      exact h r (List.mem_cons_of_mem _ hr))
    simp only [timeouts_cons, sniffer_run, sniffer_step]
    refine h3.trans ?_
    simp only [first_long_idle, h1.2.2.1, List.find?_cons]
    by_cases hlong : q.idle_now - s.last_ts > PAUSE_LONG_US
    · simp only [hlong, if_true] at h2
      have hg := (Prod.mk.inj h2).1
      have hc := (Prod.mk.inj h2).2
      simp only [hlong, decide_True, hg, hc, cycle_decoded_reset]
      cases List.find? (fun c => decide (c.idle_now - s.last_ts > PAUSE_LONG_US)) qs <;> rfl
    · simp only [hlong, if_false] at h2
      have hg := (Prod.mk.inj h2).1
      have hc := (Prod.mk.inj h2).2
      simp only [hlong, decide_False, hg, hc]

/-- C8: from an empty frame buffer, 8 bit events of which none after the first
exceeds the gap in force (state `s8`); a pause with the receive timeouts
`pause`, any number of them (state `sp`); an event whose delta exceeds the gap
in force and 7 more events that do not (state `s16`); an input that forces the
final flush (state `sf`). While the first 8 bits accumulate nothing is
published. The timeouts of the pause that do not find the idle time above the
effective gap (state `sq`) leave the frame in progress and publish nothing;
the first of them that finds the idle time above `PAUSE_LONG_US` decodes and
resets the cycle. The frame of the first 8 bits is then handed over once, by
the first timeout that finds the idle time above the gap and else by the ninth
event: the static variables and the cycle state after the 16 events are those
of `handle_frame` and `cycle_add_subframe` on these 8 bits, and the buffer
holds the last 8 bits, in order. The final input hands these over as the
second frame. Exactly two frames were handed to `handle_frame`, each of 8
bits. -/
theorem frame_assembler_two_frames (G : Int) (st : SnifferState)
    (b1 : Nat) (t1 : Int) (c1 : StepClock) (es1 : List (Nat × Int × StepClock))
    (pause : List StepClock)
    (b9 : Nat) (t9 : Int) (c9 : StepClock) (es2 : List (Nat × Int × StepClock))
    (fin : Input) (cfin : StepClock)
    (s8 sq sp s16 sf : SnifferState)
    (h0 : st.nbits = 0) (hl1 : es1.length = 7) (hl2 : es2.length = 7)
    (hs8 : s8 = sniffer_events G st ((b1, t1, c1) :: es1))
    (hsq : sq = sniffer_run G s8 (timeouts (quiet_timeouts G s8 pause)))
    (hsp : sp = sniffer_run G s8 (timeouts pause))
    (hs16 : s16 = sniffer_events G sp ((b9, t9, c9) :: es2))
    (hsf : sf = sniffer_step G s16 fin cfin)
    (hq1 : quiet_events G (sniffer_event G st b1 t1 c1) es1 = true)
    (hgap : gap_exceeded G s8 t9 c9 = true)
    (hq2 : quiet_events G (sniffer_event G sp b9 t9 c9) es2 = true)
    (hfin : forces_flush G s16 fin cfin = true) :
    (s8.nbits = 8 ∧ array_first s8.bits 8 = b1 :: es1.map (fun e => e.1) ∧
      s8.g = st.g ∧ s8.cycle = st.cycle ∧ s8.frames = st.frames) ∧
    (sq.nbits = 8 ∧ sq.bits = s8.bits ∧ sq.last_ts = s8.last_ts ∧ sq.t = s8.t ∧
      sq.g = { st.g with mux := sq.g.mux } ∧ sq.frames = st.frames ∧
      (sq.g, sq.cycle) =
        match first_long_idle s8 (quiet_timeouts G s8 pause) with
        | some c => (cycle_decoded st.g st.cycle c, cycle_reset)
        | none => (st.g, st.cycle)) ∧
    ((s16.g, s16.cycle) =
        handed_over G sq (b1 :: es1.map (fun e => e.1))
          (separator G s8 pause b9 t9 c9).1 (separator G s8 pause b9 t9 c9).2 ∧
      s16.frames = st.frames ++ [b1 :: es1.map (fun e => e.1)] ∧
      s16.nbits = 8 ∧ array_first s16.bits 8 = b9 :: es2.map (fun e => e.1)) ∧
    ((sf.g, sf.cycle) = handed_over G s16 (b9 :: es2.map (fun e => e.1)) fin cfin ∧
      sf.frames = st.frames ++ [b1 :: es1.map (fun e => e.1), b9 :: es2.map (fun e => e.1)]) ∧
    (b1 :: es1.map (fun e => e.1)).length = 8 ∧ (b9 :: es2.map (fun e => e.1)).length = 8 := by
  have hlen1 : (b1 :: es1.map (fun e => e.1)).length = 8 := by simp [hl1]
  have hlen2 : (b9 :: es2.map (fun e => e.1)).length = 8 := by simp [hl2]
  have h8 : ((1 : Int) + ((7 : Nat) : Int)) = 8 := by norm_num
  -- the first frame accumulates
  have hA := sniffer_events_first_quiet G st b1 t1 c1 es1 h0 (by omega) hq1
  have hAg := sniffer_events_first_quiet_g G st b1 t1 c1 es1 h0 (by omega) hq1
  rw [← hs8] at hA hAg
  rw [hl1, h8] at hA
  have hA3 : array_first s8.bits 8 = b1 :: es1.map (fun e => e.1) := hA.2.2
  -- the timeouts that leave the frame in progress
  have hQ := sniffer_run_quiet_timeouts G (quiet_timeouts G s8 pause) s8
    (takeWhile_not_false _ pause)
  rw [← hsq] at hQ
  have hQs := sniffer_run_quiet_timeouts_state G (quiet_timeouts G s8 pause) s8
    (by rw [hA.2.1]; norm_num) (takeWhile_not_false _ pause)
  rw [← hsq, hAg.1, hAg.2] at hQs
  have hsqg : sq.g = { st.g with mux := sq.g.mux } := by
    have := hQ.2.2.2.2.2
    rw [hAg.1] at this
    exact this
  have hsqn : sq.nbits = ((b1 :: es1.map (fun e => e.1)).length : Int) := by
    rw [hQ.2.1, hA.2.1, hlen1]; rfl
  have hsqF : array_first sq.bits (b1 :: es1.map (fun e => e.1)).length =
      b1 :: es1.map (fun e => e.1) := by
    rw [hQ.1, hlen1]; exact hA3
  have hsqpos : 0 < sq.nbits := by rw [hQ.2.1, hA.2.1]; norm_num
  have hsqfirst : array_first sq.bits sq.nbits.toNat = b1 :: es1.map (fun e => e.1) := by
    rw [hQ.2.1, hA.2.1, hQ.1]; exact hA3
  -- the separating input
  have hB : (s16.g, s16.cycle) =
        handed_over G sq (b1 :: es1.map (fun e => e.1))
          (separator G s8 pause b9 t9 c9).1 (separator G s8 pause b9 t9 c9).2 ∧
      s16.frames = st.frames ++ [b1 :: es1.map (fun e => e.1)] ∧
      s16.nbits = 8 ∧ array_first s16.bits 8 = b9 :: es2.map (fun e => e.1) := by
    cases hfind : pause.find? (fun c => forces_flush G s8 Input.timeout c) with
    | none =>
      have hsep : separator G s8 pause b9 t9 c9 = (Input.event b9 t9, c9) := by
        simp only [separator, hfind]
      have hpq : sp = sq := by
        rw [hsp, hsq, quiet_timeouts, find_none_takeWhile _ pause hfind]
      rw [hpq] at hs16 hq2
      have hx : gap_exceeded G sq t9 c9 = true := by
        rw [gap_exceeded_congr G s8 sq t9 c9 hQ.2.2.1 hQ.2.2.2.1]; exact hgap
      have hE := sniffer_events_flush_quiet G sq b9 t9 c9 es2 hsqpos hx (by omega) hq2
      have hH := sniffer_event_hands_over G sq _ b9 t9 c9 hsqpos hsqn hsqF hx
      have hG := sniffer_events_quiet_g G es2 (sniffer_event G sq b9 t9 c9)
        (by rw [(sniffer_event_flush G sq b9 t9 c9 hsqpos hx).2.1]; norm_num)
        (by rw [(sniffer_event_flush G sq b9 t9 c9 hsqpos hx).2.1, hl2]; norm_num) hq2
      rw [← sniffer_events_cons, ← hs16] at hG
      rw [← hs16, hl2, h8, hsqfirst, hQ.2.2.2.2.1, hA.1] at hE
      rw [hsep, ← hH, hG.1, hG.2]
      exact ⟨rfl, hE.1, hE.2.1, hE.2.2⟩
    | some c =>
      have hsep : separator G s8 pause b9 t9 c9 = (Input.timeout, c) := by
        simp only [separator, hfind]
      obtain ⟨hc, rest, hsplit⟩ := find_some_takeWhile _ c pause hfind
      have hc' : forces_flush G sq Input.timeout c = true := by
        rw [forces_flush_congr G s8 sq Input.timeout c hQ.2.2.1 hQ.2.2.2.1]; exact hc
      have hT := sniffer_timeout_hands_over G sq _ c hsqpos hsqn hsqF hc'
      have hpq : sp = sniffer_timeout G sq c := by
        rw [hsp, hsplit, timeouts_append, sniffer_run_append, timeouts_cons]
        simp only [sniffer_run, sniffer_step]
        rw [← quiet_timeouts, ← hsq]
        exact sniffer_run_idle_timeouts G rest _ hT.2.2.1
      have hp0 : sp.nbits = 0 := by rw [hpq]; exact hT.2.2.1
      have hE := sniffer_events_first_quiet G sp b9 t9 c9 es2 hp0 (by omega) hq2
      have hG := sniffer_events_first_quiet_g G sp b9 t9 c9 es2 hp0 (by omega) hq2
      rw [← hs16] at hE hG
      rw [hl2, h8] at hE
      rw [hsep, ← hT.1, hG.1, hG.2, hE.1, hpq, hT.2.1, hQ.2.2.2.2.1, hA.1]
      exact ⟨rfl, rfl, hE.2.1, hE.2.2⟩
  refine ⟨⟨hA.2.1, hA3, hAg.1, hAg.2, hA.1⟩,
    ⟨by rw [hQ.2.1, hA.2.1], hQ.1, hQ.2.2.1, hQ.2.2.2.1, hsqg, by rw [hQ.2.2.2.2.1, hA.1],
      hQs⟩,
    hB, ?_, hlen1, hlen2⟩
  -- the final flush
  have hpos : 0 < s16.nbits := by rw [hB.2.2.1]; norm_num
  have hn : s16.nbits = ((b9 :: es2.map (fun e => e.1)).length : Int) := by
    rw [hB.2.2.1, hlen2]; rfl
  have hF : array_first s16.bits (b9 :: es2.map (fun e => e.1)).length =
      b9 :: es2.map (fun e => e.1) := by
    rw [hlen2]; exact hB.2.2.2
  have hfirst : array_first s16.bits s16.nbits.toNat = b9 :: es2.map (fun e => e.1) := by
    rw [hB.2.2.1]; exact hB.2.2.2
  cases fin with
  | event bit ts_us =>
    have hH := sniffer_event_hands_over G s16 _ bit ts_us cfin hpos hn hF hfin
    have hE := sniffer_event_flush G s16 bit ts_us cfin hpos hfin
    rw [hsf]
    simp only [sniffer_step]
    rw [hH, hE.1, hB.2.1, hfirst]
    simp
  | timeout =>
    have hT := sniffer_timeout_hands_over G s16 _ cfin hpos hn hF hfin
    rw [hsf]
    simp only [sniffer_step]
    rw [hT.1, hT.2.1, hB.2.1]
    simp

set_option maxRecDepth 1000000 in
/-- C8, on two concrete streams with base gap 1000 us, bits 100 us apart from
1000 us. First: a pause of 3300 us without receive timeout, 8 more bits, and a
receive timeout at 2 s. Second: a pause of 2.5 s with two receive timeouts, 8
more bits, and a bit event 20100 us later. In both the raw text, the hex text
and the time published after the 16 events are those of the first 8 bits, the
ones published after the final input those of the last 8 bits. -/
theorem frame_assembler_two_frames_witness :
    (((sniffer_events 1000
          (sniffer_run 1000
            (sniffer_events 1000 sniffer_init
              ((1, 1000, clock_at 1000) :: evenly_spaced 1100 100 [0, 1, 0, 0, 1, 0, 1]))
            (timeouts []))
          ((0, 5000, clock_at 5000) :: evenly_spaced 5100 100 [0, 1, 1, 1, 1, 0, 0])).g.last_raw,
        (sniffer_events 1000
          (sniffer_run 1000
            (sniffer_events 1000 sniffer_init
              ((1, 1000, clock_at 1000) :: evenly_spaced 1100 100 [0, 1, 0, 0, 1, 0, 1]))
            (timeouts []))
          ((0, 5000, clock_at 5000) :: evenly_spaced 5100 100 [0, 1, 1, 1, 1, 0, 0])).g.last_hex,
        (sniffer_events 1000
          (sniffer_run 1000
            (sniffer_events 1000 sniffer_init
              ((1, 1000, clock_at 1000) :: evenly_spaced 1100 100 [0, 1, 0, 0, 1, 0, 1]))
            (timeouts []))
          ((0, 5000, clock_at 5000) ::
            evenly_spaced 5100 100 [0, 1, 1, 1, 1, 0, 0])).g.last_frame_us) =
        ("10100101", "A5", 5000) ∧
      ((sniffer_step 1000
          (sniffer_events 1000
            (sniffer_run 1000
              (sniffer_events 1000 sniffer_init
                ((1, 1000, clock_at 1000) :: evenly_spaced 1100 100 [0, 1, 0, 0, 1, 0, 1]))
              (timeouts []))
            ((0, 5000, clock_at 5000) :: evenly_spaced 5100 100 [0, 1, 1, 1, 1, 0, 0]))
          Input.timeout (clock_at 2000000)).g.last_raw,
        (sniffer_step 1000
          (sniffer_events 1000
            (sniffer_run 1000
              (sniffer_events 1000 sniffer_init
                ((1, 1000, clock_at 1000) :: evenly_spaced 1100 100 [0, 1, 0, 0, 1, 0, 1]))
              (timeouts []))
            ((0, 5000, clock_at 5000) :: evenly_spaced 5100 100 [0, 1, 1, 1, 1, 0, 0]))
          Input.timeout (clock_at 2000000)).g.last_hex,
        (sniffer_step 1000
          (sniffer_events 1000
            (sniffer_run 1000
              (sniffer_events 1000 sniffer_init
                ((1, 1000, clock_at 1000) :: evenly_spaced 1100 100 [0, 1, 0, 0, 1, 0, 1]))
              (timeouts []))
            ((0, 5000, clock_at 5000) :: evenly_spaced 5100 100 [0, 1, 1, 1, 1, 0, 0]))
          Input.timeout (clock_at 2000000)).g.last_frame_us) =
        ("00111100", "3C", 2000000) ∧
      (sniffer_step 1000
        (sniffer_events 1000
          (sniffer_run 1000
            (sniffer_events 1000 sniffer_init
              ((1, 1000, clock_at 1000) :: evenly_spaced 1100 100 [0, 1, 0, 0, 1, 0, 1]))
            (timeouts []))
          ((0, 5000, clock_at 5000) :: evenly_spaced 5100 100 [0, 1, 1, 1, 1, 0, 0]))
        Input.timeout (clock_at 2000000)).frames =
        [[1, 0, 1, 0, 0, 1, 0, 1], [0, 0, 1, 1, 1, 1, 0, 0]]) ∧
    (((sniffer_events 1000
          (sniffer_run 1000
            (sniffer_events 1000 sniffer_init
              ((1, 1000, clock_at 1000) :: evenly_spaced 1100 100 [0, 1, 0, 0, 1, 0, 1]))
            (timeouts [clock_at 1001700, clock_at 2001700]))
          ((0, 2500000, clock_at 2500000) ::
            evenly_spaced 2500100 100 [0, 1, 1, 1, 1, 0, 0])).g.last_raw,
        (sniffer_events 1000
          (sniffer_run 1000
            (sniffer_events 1000 sniffer_init
              ((1, 1000, clock_at 1000) :: evenly_spaced 1100 100 [0, 1, 0, 0, 1, 0, 1]))
            (timeouts [clock_at 1001700, clock_at 2001700]))
          ((0, 2500000, clock_at 2500000) ::
            evenly_spaced 2500100 100 [0, 1, 1, 1, 1, 0, 0])).g.last_hex,
        (sniffer_events 1000
          (sniffer_run 1000
            (sniffer_events 1000 sniffer_init
              ((1, 1000, clock_at 1000) :: evenly_spaced 1100 100 [0, 1, 0, 0, 1, 0, 1]))
            (timeouts [clock_at 1001700, clock_at 2001700]))
          ((0, 2500000, clock_at 2500000) ::
            evenly_spaced 2500100 100 [0, 1, 1, 1, 1, 0, 0])).g.last_frame_us) =
        ("10100101", "A5", 1001700) ∧
      ((sniffer_step 1000
          (sniffer_events 1000
            (sniffer_run 1000
              (sniffer_events 1000 sniffer_init
                ((1, 1000, clock_at 1000) :: evenly_spaced 1100 100 [0, 1, 0, 0, 1, 0, 1]))
              (timeouts [clock_at 1001700, clock_at 2001700]))
            ((0, 2500000, clock_at 2500000) ::
              evenly_spaced 2500100 100 [0, 1, 1, 1, 1, 0, 0]))
          (Input.event 1 2520800) (clock_at 2520800)).g.last_raw,
        (sniffer_step 1000
          (sniffer_events 1000
            (sniffer_run 1000
              (sniffer_events 1000 sniffer_init
                ((1, 1000, clock_at 1000) :: evenly_spaced 1100 100 [0, 1, 0, 0, 1, 0, 1]))
              (timeouts [clock_at 1001700, clock_at 2001700]))
            ((0, 2500000, clock_at 2500000) ::
              evenly_spaced 2500100 100 [0, 1, 1, 1, 1, 0, 0]))
          (Input.event 1 2520800) (clock_at 2520800)).g.last_hex,
        (sniffer_step 1000
          (sniffer_events 1000
            (sniffer_run 1000
              (sniffer_events 1000 sniffer_init
                ((1, 1000, clock_at 1000) :: evenly_spaced 1100 100 [0, 1, 0, 0, 1, 0, 1]))
              (timeouts [clock_at 1001700, clock_at 2001700]))
            ((0, 2500000, clock_at 2500000) ::
              evenly_spaced 2500100 100 [0, 1, 1, 1, 1, 0, 0]))
          (Input.event 1 2520800) (clock_at 2520800)).g.last_frame_us) =
        ("00111100", "3C", 2520800) ∧
      (sniffer_step 1000
        (sniffer_events 1000
          (sniffer_run 1000
            (sniffer_events 1000 sniffer_init
              ((1, 1000, clock_at 1000) :: evenly_spaced 1100 100 [0, 1, 0, 0, 1, 0, 1]))
            (timeouts [clock_at 1001700, clock_at 2001700]))
          ((0, 2500000, clock_at 2500000) :: evenly_spaced 2500100 100 [0, 1, 1, 1, 1, 0, 0]))
        (Input.event 1 2520800) (clock_at 2520800)).frames =
        [[1, 0, 1, 0, 0, 1, 0, 1], [0, 0, 1, 1, 1, 1, 0, 0]]) :=
  have hA := frame_assembler_two_frames 1000 sniffer_init 1 1000 (clock_at 1000)
    (evenly_spaced 1100 100 [0, 1, 0, 0, 1, 0, 1]) []
    0 5000 (clock_at 5000) (evenly_spaced 5100 100 [0, 1, 1, 1, 1, 0, 0])
    Input.timeout (clock_at 2000000) _ _ _ _ _
    (by decide) (by decide) (by decide) rfl rfl rfl rfl rfl
    (by decide) (by decide) (by decide) (by decide)
  have hB := frame_assembler_two_frames 1000 sniffer_init 1 1000 (clock_at 1000)
    (evenly_spaced 1100 100 [0, 1, 0, 0, 1, 0, 1]) [clock_at 1001700, clock_at 2001700]
    0 2500000 (clock_at 2500000) (evenly_spaced 2500100 100 [0, 1, 1, 1, 1, 0, 0])
    (Input.event 1 2520800) (clock_at 2520800) _ _ _ _ _
    (by decide) (by decide) (by decide) rfl rfl rfl rfl rfl
    (by decide) (by decide) (by decide) (by decide)
  ⟨⟨(congrArg (fun p => (p.1.last_raw, p.1.last_hex, p.1.last_frame_us)) hA.2.2.1.1).trans
      (by decide),
    (congrArg (fun p => (p.1.last_raw, p.1.last_hex, p.1.last_frame_us)) hA.2.2.2.1.1).trans
      (by decide),
    hA.2.2.2.1.2⟩,
   ⟨(congrArg (fun p => (p.1.last_raw, p.1.last_hex, p.1.last_frame_us)) hB.2.2.1.1).trans
      (by decide),
    (congrArg (fun p => (p.1.last_raw, p.1.last_hex, p.1.last_frame_us)) hB.2.2.2.1.1).trans
      (by decide),
    hB.2.2.2.1.2⟩⟩

/-- C9: from an empty frame buffer, 65 consecutive bit events of which none
exceeds the gap in force: the first 64 bits accumulate, nothing is handed over
and nothing is published; the 65th event hands over one frame holding exactly
those 64 bits, so that the static variables are those of `handle_frame` on the
64 bits and the cycle state is the one of `cycle_add_subframe` on their 8
bytes, and leaves the buffer empty; the state it leaves, and so every later
frame, is the same whatever the 65th bit was. -/
theorem frame_overflow_drops_bit (G : Int) (st : SnifferState)
    (b1 : Nat) (t1 : Int) (c1 : StepClock) (es : List (Nat × Int × StepClock))
    (b65 : Nat) (t65 : Int) (c65 : StepClock)
    (h0 : st.nbits = 0) (hl : es.length = 63)
    (hq : quiet_events G (sniffer_event G st b1 t1 c1) (es ++ [(b65, t65, c65)]) = true) :
    (sniffer_events G st ((b1, t1, c1) :: es)).frames = st.frames ∧
    (sniffer_events G st ((b1, t1, c1) :: es)).nbits = 64 ∧
    array_first (sniffer_events G st ((b1, t1, c1) :: es)).bits 64 =
      b1 :: es.map (fun e => e.1) ∧
    (sniffer_events G st ((b1, t1, c1) :: es ++ [(b65, t65, c65)])).frames =
      st.frames ++ [b1 :: es.map (fun e => e.1)] ∧
    (b1 :: es.map (fun e => e.1)).length = 64 ∧
    (sniffer_events G st ((b1, t1, c1) :: es ++ [(b65, t65, c65)])).nbits = 0 ∧
    (∀ (b : Nat) (rest : List (Input × StepClock)),
      sniffer_run G (sniffer_events G st ((b1, t1, c1) :: es ++ [(b, t65, c65)])) rest =
      sniffer_run G (sniffer_events G st ((b1, t1, c1) :: es ++ [(b65, t65, c65)])) rest) ∧
    (sniffer_events G st ((b1, t1, c1) :: es)).g = st.g ∧
    (sniffer_events G st ((b1, t1, c1) :: es)).cycle = st.cycle ∧
    (sniffer_events G st ((b1, t1, c1) :: es ++ [(b65, t65, c65)])).g =
      handle_frame st.g (bits_of (b1 :: es.map (fun e => e.1))) 64 c65.frame ∧
    (sniffer_events G st ((b1, t1, c1) :: es ++ [(b65, t65, c65)])).cycle =
      cycle_add_subframe st.cycle (bits_to_bytes (bits_of (b1 :: es.map (fun e => e.1))) 64 8).2
        gap_kind_t.GAP_NONE (sniffer_events G st ((b1, t1, c1) :: es)).last_ts := by
  rw [quiet_events_append, Bool.and_eq_true] at hq
  have hA := sniffer_events_first_quiet G st b1 t1 c1 es h0 (by omega) hq.1
  have hAg := sniffer_events_first_quiet_g G st b1 t1 c1 es h0 (by omega) hq.1
  rw [hl] at hA
  have h64 : ((1 : Int) + ((63 : Nat) : Int)) = 64 := by norm_num
  have hlen : (b1 :: es.map (fun e => e.1)).length = 64 := by simp [hl]
  have e1 : ∀ b, (b1, t1, c1) :: es ++ [(b, t65, c65)] =
      ((b1, t1, c1) :: es) ++ [(b, t65, c65)] := fun _ => rfl
  have hq2 : gap_exceeded G (sniffer_events G st ((b1, t1, c1) :: es)) t65 c65 = false := by
    have := hq.2
    simp only [quiet_events, Bool.and_true, Bool.not_eq_true'] at this
    exact this
  simp only [e1, sniffer_events_append]
  generalize sniffer_events G st ((b1, t1, c1) :: es) = s64 at hA hAg hq2 ⊢
  rw [h64] at hA
  have hov : ∀ b, sniffer_events G s64 [(b, t65, c65)] =
      { flush_frame { s64 with t := (event_gap G s64 t65 c65).1 } gap_kind_t.GAP_NONE c65 with
        nbits := 0, last_ts := t65 } := by
    intro b
    simp only [sniffer_events]
    exact sniffer_event_overflow G s64 b t65 c65 (by rw [hA.2.1]) hq2
  have hbuf := handle_frame_of_buffer s64 (b1 :: es.map (fun e => e.1)) c65.frame
    (by rw [hA.2.1, hlen]; rfl) (by rw [hlen]; exact hA.2.2)
  rw [hlen, hAg.1] at hbuf
  have hmod : Int.tmod (64 : Int) 8 = 0 := by decide
  refine ⟨hA.1, hA.2.1, hA.2.2, ?_, hlen, ?_, ?_, hAg.1, hAg.2, ?_, ?_⟩
  · rw [hov]
    simp only [flush_frame, hA.1, hA.2.1]
    rw [show (64 : Int).toNat = 1 + 63 from by decide, hA.2.2]
  · rw [hov]
  · intro b rest
    rw [hov b, hov b65]
  · rw [hov]
    simp only [flush_frame]
    rw [hAg.1]
    exact hbuf.1
  · rw [hov]
    simp only [flush_frame, hA.2.1, hmod, if_true, hAg.2]
    rw [← hA.2.1, hbuf.2, hA.2.1]
    rfl

set_option maxRecDepth 1000000 in
/-- C9, on a concrete stream with base gap 1000 us: 65 one-bits 100 us apart
from 1000 us. The raw text, the hex text and the time published by the 65th
event are those of the 64 bits. -/
theorem frame_overflow_drops_bit_witness :
    (sniffer_events 1000 sniffer_init
      ((1, 1000, clock_at 1000) :: evenly_spaced 1100 100 (List.replicate 63 1) ++
        [(1, 7400, clock_at 7400)])).frames = [List.replicate 64 1] ∧
    (sniffer_events 1000 sniffer_init
      ((1, 1000, clock_at 1000) :: evenly_spaced 1100 100 (List.replicate 63 1) ++
        [(1, 7400, clock_at 7400)])).nbits = 0 ∧
    ((sniffer_events 1000 sniffer_init
        ((1, 1000, clock_at 1000) :: evenly_spaced 1100 100 (List.replicate 63 1) ++
          [(1, 7400, clock_at 7400)])).g.last_raw,
      (sniffer_events 1000 sniffer_init
        ((1, 1000, clock_at 1000) :: evenly_spaced 1100 100 (List.replicate 63 1) ++
          [(1, 7400, clock_at 7400)])).g.last_hex,
      (sniffer_events 1000 sniffer_init
        ((1, 1000, clock_at 1000) :: evenly_spaced 1100 100 (List.replicate 63 1) ++
          [(1, 7400, clock_at 7400)])).g.last_frame_us) =
      ("1111111111111111111111111111111111111111111111111111111111111111",
        "FF FF FF FF FF FF FF FF", 7400) :=
  have h := frame_overflow_drops_bit 1000 sniffer_init 1 1000 (clock_at 1000)
    (evenly_spaced 1100 100 (List.replicate 63 1)) 1 7400 (clock_at 7400)
    (by decide) (by decide) (by decide)
  ⟨h.2.2.2.1, h.2.2.2.2.2.1,
    (congrArg (fun g => (g.last_raw, g.last_hex, g.last_frame_us)) h.2.2.2.2.2.2.2.2.2.1).trans
      (by decide)⟩

/-! ## Three frames and a long gap -/

theorem classify_gap_kind_short (dt : Int) (hlo : 6000 ≤ dt) (hhi : dt < 11000) :
    classify_gap_kind dt ≠ gap_kind_t.GAP_LONG := by
  simp only [classify_gap_kind, PAUSE_LONG_US, PAUSE_MID_US, PAUSE_SHORT_US]
  have h1 : ¬ dt ≥ 18000 := by omega
  have h2 : ¬ dt ≥ 11000 := by omega
  have h3 : dt ≥ 6000 := by omega
  simp only [h1, h2, h3, if_false, if_true]
  decide

theorem classify_gap_kind_long (dt : Int) (hlo : 18000 ≤ dt) :
    classify_gap_kind dt = gap_kind_t.GAP_LONG := by
  simp only [classify_gap_kind, PAUSE_LONG_US]
  have h1 : dt ≥ 18000 := by omega
  simp only [h1, if_true]

/-- The gap flush of an 8-bit frame, on the static variables: `handle_frame`
on the bits of the frame, then the cycle decode when the gap is long. -/
theorem gap_flush_g (G : Int) (s : SnifferState) (F : List Nat) (b : Nat) (t : Int)
    (c : StepClock) (h8 : s.nbits = 8) (hF : array_first s.bits 8 = F) (hlen : F.length = 8)
    (hlast : 0 < s.last_ts) (hx : gap_exceeded G s t c = true) :
    (classify_gap_kind (t - s.last_ts) ≠ gap_kind_t.GAP_LONG →
      (sniffer_event G s b t c).g = handle_frame s.g (bits_of F) 8 c.frame) ∧
    (classify_gap_kind (t - s.last_ts) = gap_kind_t.GAP_LONG →
      (sniffer_event G s b t c).g =
        cycle_decoded (handle_frame s.g (bits_of F) 8 c.frame)
          (cycle_add_subframe s.cycle [frame_byte s.bits] gap_kind_t.GAP_LONG s.last_ts) c) := by
  have hH := sniffer_event_hands_over G s F b t c (by omega) (by rw [h8, hlen]; rfl)
    (by rw [hlen]; exact hF) hx
  have hk : (event_gap G s t c).2.2 = classify_gap_kind (t - s.last_ts) := by
    rw [event_gap_of_seen G s t c hlast]
  have hb := (handle_frame_of_buffer s F c.frame (by rw [h8, hlen]; rfl)
    (by rw [hlen]; exact hF)).2
  rw [h8, hlen, bits_to_bytes_one] at hb
  have hb' : bits_to_bytes (bits_of F) 8 8 = (1, [frame_byte s.bits]) := hb.symm
  simp only [handed_over, flush_kind, ends_cycle, hk, hlen, Nat.cast_ofNat] at hH
  constructor
  · intro hne
    simp only [hne, decide_False, Bool.false_eq_true, if_false] at hH
    exact (Prod.mk.inj hH).1
  · intro he
    simp only [he, decide_True, if_true, hb'] at hH
    have := (Prod.mk.inj hH).1
    simpa using this

/-- The first event on an empty buffer and 7 quiet events: the buffer holds
their bits and nothing was published. -/
theorem frame_first_quiet (G : Int) (st : SnifferState) (b : Nat) (t : Int) (c : StepClock)
    (es : List (Nat × Int × StepClock)) (h0 : st.nbits = 0) (hl : es.length = 7)
    (hq : quiet_events G (sniffer_event G st b t c) es = true) :
    array_first (sniffer_events G (sniffer_event G st b t c) es).bits 8 =
      b :: es.map (fun e => e.1) ∧
    (sniffer_events G (sniffer_event G st b t c) es).g = st.g := by
  have hA := sniffer_events_first_quiet G st b t c es h0 (by omega) hq
  have hG := sniffer_events_first_quiet_g G st b t c es h0 (by omega) hq
  rw [sniffer_events_cons] at hA hG
  rw [hl] at hA
  exact ⟨hA.2.2, hG.1⟩

/-- A gap flush and 7 quiet events: the buffer holds the bit of the flushing
event and their bits, and nothing was published after the flush. -/
theorem frame_flush_quiet (G : Int) (s : SnifferState) (b : Nat) (t : Int) (c : StepClock)
    (es : List (Nat × Int × StepClock)) (hpos : 0 < s.nbits)
    (hx : gap_exceeded G s t c = true) (hl : es.length = 7)
    (hq : quiet_events G (sniffer_event G s b t c) es = true) :
    array_first (sniffer_events G (sniffer_event G s b t c) es).bits 8 =
      b :: es.map (fun e => e.1) ∧
    (sniffer_events G (sniffer_event G s b t c) es).g = (sniffer_event G s b t c).g := by
  have hA := sniffer_events_flush_quiet G s b t c es hpos hx (by omega) hq
  have hf := sniffer_event_flush G s b t c hpos hx
  have hG := sniffer_events_quiet_g G es (sniffer_event G s b t c)
    (by rw [hf.2.1]; norm_num) (by rw [hf.2.1, hl]; norm_num) hq
  rw [sniffer_events_cons] at hA
  rw [hl] at hA
  exact ⟨hA.2.2, hG.1⟩

/-- C17 (amended): from an empty frame buffer and an empty cycle state, three
8-bit frames separated by short gaps (deltas in [6 ms, 11 ms) that exceed the
gap in force) and followed by an event after a long gap (delta >= 18 ms) that
exceeds the gap in force as well: nothing is handed to `handle_cycle_decode`
before that event, the event hands over one cycle holding subframes = 3 (three
bytes, two short gaps, one long gap), and the cycle state is reset to empty
right after. The static variables after that event are those of three calls
of `handle_frame`, one per frame, followed by `handle_cycle_decode` on the
cycle handed over. -/
theorem cycle_of_three_frames (G : Int) (st : SnifferState)
    (b1 : Nat) (t1 : Int) (c1 : StepClock) (es1 : List (Nat × Int × StepClock))
    (b9 : Nat) (t9 : Int) (c9 : StepClock) (es2 : List (Nat × Int × StepClock))
    (b17 : Nat) (t17 : Int) (c17 : StepClock) (es3 : List (Nat × Int × StepClock))
    (b25 : Nat) (t25 : Int) (c25 : StepClock)
    (h0 : st.nbits = 0) (hc : st.cycle = cycle_reset)
    (hl1 : es1.length = 7) (hl2 : es2.length = 7) (hl3 : es3.length = 7)
    (hq1 : quiet_events G (sniffer_event G st b1 t1 c1) es1 = true)
    (hx9 : gap_exceeded G (sniffer_events G st ((b1, t1, c1) :: es1)) t9 c9 = true)
    (hs9 : 6000 ≤ event_delta (sniffer_events G st ((b1, t1, c1) :: es1)) t9 ∧
      event_delta (sniffer_events G st ((b1, t1, c1) :: es1)) t9 < 11000)
    (hq2 : quiet_events G (sniffer_events G st (((b1, t1, c1) :: es1) ++ [(b9, t9, c9)])) es2 =
      true)
    (hx17 : gap_exceeded G (sniffer_events G st
      (((b1, t1, c1) :: es1) ++ (b9, t9, c9) :: es2)) t17 c17 = true)
    (hs17 : 6000 ≤ event_delta (sniffer_events G st
        (((b1, t1, c1) :: es1) ++ (b9, t9, c9) :: es2)) t17 ∧
      event_delta (sniffer_events G st
        (((b1, t1, c1) :: es1) ++ (b9, t9, c9) :: es2)) t17 < 11000)
    (hq3 : quiet_events G (sniffer_events G st
      ((((b1, t1, c1) :: es1) ++ (b9, t9, c9) :: es2) ++ [(b17, t17, c17)])) es3 = true)
    (hx25 : gap_exceeded G (sniffer_events G st
      ((((b1, t1, c1) :: es1) ++ (b9, t9, c9) :: es2) ++ (b17, t17, c17) :: es3)) t25 c25 =
      true)
    (hs25 : 18000 ≤ event_delta (sniffer_events G st
      ((((b1, t1, c1) :: es1) ++ (b9, t9, c9) :: es2) ++ (b17, t17, c17) :: es3)) t25) :
    (sniffer_events G st
      ((((b1, t1, c1) :: es1) ++ (b9, t9, c9) :: es2) ++ (b17, t17, c17) :: es3)).cycles =
      st.cycles ∧
    (∃ c : cycle_state_t,
      (sniffer_events G st (((((b1, t1, c1) :: es1) ++ (b9, t9, c9) :: es2) ++
        (b17, t17, c17) :: es3) ++ [(b25, t25, c25)])).cycles = st.cycles ++ [c] ∧
      c.subframes = 3 ∧ c.nbytes = 3 ∧ c.gap_short_count = 2 ∧ c.gap_mid_count = 0 ∧
      c.gap_long_count = 1) ∧
    (sniffer_events G st (((((b1, t1, c1) :: es1) ++ (b9, t9, c9) :: es2) ++
      (b17, t17, c17) :: es3) ++ [(b25, t25, c25)])).cycle = cycle_reset ∧
    (cycle_reset.subframes = 0 ∧ cycle_reset.nbytes = 0 ∧ cycle_reset.gap_short_count = 0 ∧
      cycle_reset.gap_mid_count = 0 ∧ cycle_reset.gap_long_count = 0 ∧
      cycle_reset.start_ts_us = 0 ∧ cycle_reset.last_ts_us = 0) ∧
    (∃ c : cycle_state_t,
      (sniffer_events G st (((((b1, t1, c1) :: es1) ++ (b9, t9, c9) :: es2) ++
        (b17, t17, c17) :: es3) ++ [(b25, t25, c25)])).cycles = st.cycles ++ [c] ∧
      (sniffer_events G st (((((b1, t1, c1) :: es1) ++ (b9, t9, c9) :: es2) ++
        (b17, t17, c17) :: es3) ++ [(b25, t25, c25)])).g =
        cycle_decoded
          (handle_frames st.g [(b1 :: es1.map (fun e => e.1), c9.frame),
            (b9 :: es2.map (fun e => e.1), c17.frame),
            (b17 :: es3.map (fun e => e.1), c25.frame)]) c c25) := by
  simp only [sniffer_events_append, sniffer_events_cons, sniffer_events_nil] at hx9 hs9 hq2
  simp only [sniffer_events_append, sniffer_events_cons, sniffer_events_nil] at hx17 hs17 hq3
  simp only [sniffer_events_append, sniffer_events_cons, sniffer_events_nil] at hx25 hs25 ⊢
  have hlen1 : (b1 :: es1.map (fun e => e.1)).length = 8 := by simp [hl1]
  have hlen2 : (b9 :: es2.map (fun e => e.1)).length = 8 := by simp [hl2]
  have hlen3 : (b17 :: es3.map (fun e => e.1)).length = 8 := by simp [hl3]
  -- frame 1
  have hs1 := start_frame G st b1 t1 c1 h0
  have hf1 := quiet_frame G _ es1 hs1.1 hl1 hq1
  have hb1 := frame_first_quiet G st b1 t1 c1 es1 h0 hl1 hq1
  rw [hs1.2.1, hs1.2.2, hc] at hf1
  generalize sniffer_events G (sniffer_event G st b1 t1 c1) es1 = s8 at *
  -- short gap, frame 2
  have hd9 := event_delta_pos s8 t9 (by omega)
  rw [hd9.2] at hs9
  have hg9 := gap_flush_short G s8 b9 t9 c9 hf1.1 hd9.1 hx9 hs9.1 hs9.2
  have hp9 := (gap_flush_g G s8 _ b9 t9 c9 hf1.1 hb1.1 hlen1 hd9.1 hx9).1
    (classify_gap_kind_short _ hs9.1 hs9.2)
  have hf2 := quiet_frame G _ es2 hg9.1 hl2 hq2
  have hb2 := frame_flush_quiet G s8 b9 t9 c9 es2 (by omega) hx9 hl2 hq2
  rw [hg9.2.1, hg9.2.2, hf1.2.1, hf1.2.2] at hf2
  rw [hp9, hb1.2] at hb2
  generalize sniffer_events G (sniffer_event G s8 b9 t9 c9) es2 = s16 at *
  -- short gap, frame 3
  have hd17 := event_delta_pos s16 t17 (by omega)
  rw [hd17.2] at hs17
  have hg17 := gap_flush_short G s16 b17 t17 c17 hf2.1 hd17.1 hx17 hs17.1 hs17.2
  have hp17 := (gap_flush_g G s16 _ b17 t17 c17 hf2.1 hb2.1 hlen2 hd17.1 hx17).1
    (classify_gap_kind_short _ hs17.1 hs17.2)
  have hf3 := quiet_frame G _ es3 hg17.1 hl3 hq3
  have hb3 := frame_flush_quiet G s16 b17 t17 c17 es3 (by omega) hx17 hl3 hq3
  rw [hg17.2.1, hg17.2.2, hf2.2.1, hf2.2.2] at hf3
  rw [hp17, hb2.2] at hb3
  generalize sniffer_events G (sniffer_event G s16 b17 t17 c17) es3 = s24 at *
  -- long gap
  have hd25 := event_delta_pos s24 t25 (by omega)
  rw [hd25.2] at hs25
  have hg25 := gap_flush_long G s24 b25 t25 c25 hf3.1 hd25.1 hx25 hs25
  have hp25 := (gap_flush_g G s24 _ b25 t25 c25 hf3.1 hb3.1 hlen3 hd25.1 hx25).2
    (classify_gap_kind_long _ hs25)
  rw [hf3.2.1, hf3.2.2] at hg25
  rw [hf3.2.1, hb3.2] at hp25
  refine ⟨hf3.2.2, ⟨_, hg25.2, ?_⟩, hg25.1, by decide, ⟨_, hg25.2, ?_⟩⟩
  · simp [cycle_add_subframe, cycle_append_loop, cycle_reset, MAX_CYCLE_BYTES]
  · rw [hp25]
    simp only [handle_frames, hlen1, hlen2, hlen3]
    rfl

set_option maxRecDepth 1000000 in
/-- C17, on a concrete stream with base gap 1000 us: three frames of bits 400
us apart, pauses of 7000 us between them, and an event 18000 us after the
third. -/
theorem cycle_of_three_frames_witness :
    (∃ c : cycle_state_t,
      (sniffer_events 1000 sniffer_init
        (((((0, 1000, clock_at 1000) :: evenly_spaced 1400 400 [0, 1, 1, 1, 1, 1, 1]) ++
          (0, 10800, clock_at 10800) :: evenly_spaced 11200 400 [0, 0, 0, 0, 1, 1, 0]) ++
          (0, 20600, clock_at 20600) :: evenly_spaced 21000 400 [1, 0, 1, 1, 0, 1, 1]) ++
          [(1, 41400, clock_at 41400)])).cycles = sniffer_init.cycles ++ [c] ∧
      c.subframes = 3 ∧ c.nbytes = 3 ∧ c.gap_short_count = 2 ∧ c.gap_mid_count = 0 ∧
      c.gap_long_count = 1) ∧
    (sniffer_events 1000 sniffer_init
      (((((0, 1000, clock_at 1000) :: evenly_spaced 1400 400 [0, 1, 1, 1, 1, 1, 1]) ++
        (0, 10800, clock_at 10800) :: evenly_spaced 11200 400 [0, 0, 0, 0, 1, 1, 0]) ++
        (0, 20600, clock_at 20600) :: evenly_spaced 21000 400 [1, 0, 1, 1, 0, 1, 1]) ++
        [(1, 41400, clock_at 41400)])).cycle = cycle_reset :=
  have h := cycle_of_three_frames 1000 sniffer_init
    0 1000 (clock_at 1000) (evenly_spaced 1400 400 [0, 1, 1, 1, 1, 1, 1])
    0 10800 (clock_at 10800) (evenly_spaced 11200 400 [0, 0, 0, 0, 1, 1, 0])
    0 20600 (clock_at 20600) (evenly_spaced 21000 400 [1, 0, 1, 1, 0, 1, 1])
    1 41400 (clock_at 41400)
    (by decide) rfl (by decide) (by decide) (by decide) (by decide)
    (by decide) (by decide) (by decide)
    (by decide) (by decide) (by decide)
    (by decide) (by decide)
  ⟨h.2.1, h.2.2.1⟩

set_option maxRecDepth 1000000 in
/-- C17 as stated fails: on the widening stream with base gap 1000 us the two
pauses of 7000 us exceed the gap in force and hand two frames over, the third
run holds 8 bits, and the event 18000 us after it does not exceed the gap in
force of 21300 us: nothing is handed to `handle_cycle_decode`, the cycle still
holds its 2 subframes, and the bit becomes the ninth of the frame in progress. -/
theorem cycle_of_three_frames_counterexample :
    (sniffer_events 1000 sniffer_init widening_stream).frames =
      [[0, 0, 1, 1, 1, 1, 1, 1], [0, 0, 0, 0, 0, 1, 1, 0]] ∧
    (sniffer_events 1000 sniffer_init widening_stream).nbits = 8 ∧
    (sniffer_events 1000 sniffer_init widening_stream).last_ts = 51600 ∧
    effective_gap_us_from_timing 1000 (sniffer_events 1000 sniffer_init widening_stream).t =
      21300 ∧
    event_delta (sniffer_events 1000 sniffer_init widening_stream) 69600 = 18000 ∧
    gap_exceeded 1000 (sniffer_events 1000 sniffer_init widening_stream) 69600
      (clock_at 69600) = false ∧
    (sniffer_events 1000 sniffer_init
      (widening_stream ++ [(1, 69600, clock_at 69600)])).cycles.length = 0 ∧
    (sniffer_events 1000 sniffer_init
      (widening_stream ++ [(1, 69600, clock_at 69600)])).cycle.subframes = 2 ∧
    (sniffer_events 1000 sniffer_init
      (widening_stream ++ [(1, 69600, clock_at 69600)])).nbits = 9 := by
  decide

end Sniffer
